import Mathlib

/-!
# PicoWebServer: AT transport, response scanner and HTTP framing

A shallow embedding of `PicoWebServer.cpp` (s60sc 2021).  C `char` values are
`Char`, `char` arrays are `List Char`, a C string is the run of characters in
front of the first NUL of an array.  Pointers into the receive buffer are
machine addresses (`Int`, the null pointer is `0`); `int` results of pointer
differences are reduced to 32 bits as on the RP2040.
-/

namespace PicoWebServer

/-! ## Configuration (PicoWebServer.h) -/

/-- Size of buffer to receive data from web client. -/
def RESPONSEBUFFERLEN : Nat := 1000

/-- Size of buffer to send data to web client. -/
def SENDBUFFERLEN : Nat := 500

/-- Microseconds per second. -/
def MICROS : Int := 1000000

/-- Time in ms for ESP8266 gpio functions to wait on mutex. -/
def MUTEXWAIT : Nat := 100

/-- An address of the receive buffer for the examples: the start of the SRAM
of the RP2040, `0x20000000`. -/
def bufferAddress : Nat := 536870912

/-! ## C strings -/

/-- The string terminator. -/
def NUL : Char := Char.ofNat 0

/-- The C string held at the start of a `char` array: everything in front of
the first terminator. -/
def cstr (a : List Char) : List Char := a.takeWhile (fun c => c != NUL)

/-- C `strlen`. -/
def strlen (a : List Char) : Nat := (cstr a).length

/-- C `strstr` on string contents: index of the first occurrence of `needle`
in `hay`, `none` for the null result.  An empty needle is found at index 0. -/
def strstr : List Char → List Char → Option Nat
  | [], needle => if needle.isEmpty then some 0 else none
  | h :: t, needle =>
    if needle.isPrefixOf (h :: t) then some 0
    else (strstr t needle).map (fun i => i + 1)

/-- C `strncmp(a, b, n) == 0` on string contents: the first `n` characters
agree, a string that ends early being compared through its terminator. -/
def strncmpEq (a b : List Char) (n : Nat) : Bool :=
  (a ++ [NUL]).take n == (b ++ [NUL]).take n

/-- Reduction of a pointer difference to the 32-bit `int` of the target. -/
def toInt32 (x : Int) : Int := (x + 2147483648) % 4294967296 - 2147483648

/-- Text written by `snprintf(dst, size, ...)`: the formatted text cut to
`size - 1` characters. -/
def snprintf (size : Nat) (formatted : List Char) : List Char :=
  formatted.take (size - 1)

/-- Rendering of a non-negative `%d` / `%u` argument. -/
def fmtNat (n : Nat) : List Char := Nat.toDigits 10 n

/-! ## Response scanner -/

/-- The call `strstr(p, needle)` for a pointer `p` into the receive buffer, which
occupies the addresses `base .. base + buf.length - 1`.  The result is the
address of the match, or `0` for the null pointer; `none` when `p` does not
point at a terminated string inside the buffer (the read is then outside the
program's objects). -/
def strstrPtr (base : Nat) (buf : List Char) (p : Int) (needle : List Char) :
    Option Int :=
  if (base : Int) ≤ p ∧ p < (base : Int) + buf.length ∧
      NUL ∈ buf.drop (p - base).toNat then
    match strstr (cstr (buf.drop (p - base).toNat)) (cstr needle) with
    | some i => some (p + i)
    | none => some 0
  else none

/-- Embedding of `getParam(int &valOffset, startStr, endStr)`: the pair of the
new `valOffset` and the returned length. -/
def getParam (base : Nat) (buf : List Char) (valOffset : Int)
    (startStr endStr : List Char) : Option (Int × Int) := do
  let s ← strstrPtr base buf ((base : Int) + valOffset) startStr
  let s := s + strlen startStr
  let e ← strstrPtr base buf s endStr
  pure (toInt32 (s - base), toInt32 (e - s))

/-- A `char` array of `cap` elements holding `text` followed by terminators. -/
def mkBuffer (cap : Nat) (text : List Char) : List Char :=
  text ++ List.replicate (cap - text.length) NUL

/-! ## AT transport engine -/

/-- The marker of a busy co-processor. -/
def busyMarker : List Char := "busy p...".toList

/-- One pass through the polling loop of `processATcommand`, as the
environment presents it: the value of
`absolute_time_diff_us(start, get_absolute_time())` read by the loop test and
the characters that `uart_is_readable` / `uart_getc` hand out during the
`getATdata` call of that pass. -/
structure Poll where
  elapsed : Int
  rx : List Char
deriving DecidableEq, Repr

/-- The `while (uart_is_readable(uart0))` loop of `getATdata`. -/
def getATloop (cap : Nat) : List Char → List Char → Nat → Bool → List Char × Nat × Bool
  | [], buf, buffPtr, tooLong => (buf, buffPtr, tooLong)
  | c :: rx, buf, buffPtr, tooLong =>
    if buffPtr ≥ cap - 1 then getATloop cap rx (buf.set buffPtr c) buffPtr true
    else getATloop cap rx (buf.set buffPtr c) (buffPtr + 1) tooLong

/-- Embedding of `getATdata(buffPtr)`: the receive buffer afterwards and the
returned value (`-1` for a response that is too long). -/
def getATdata (cap : Nat) (buf : List Char) (buffPtr : Nat) (rx : List Char) :
    List Char × Int :=
  let r := getATloop cap rx buf buffPtr false
  (r.1.set r.2.1 NUL, if r.2.2 then -1 else (r.2.1 : Int))

/-- What a call of `processATcommand` leaves behind. -/
structure ATresult where
  /-- the returned `bool` -/
  ok : Bool
  /-- the call left through the "response is too long" abort -/
  tooLong : Bool
  /-- final value of the local `buffPtr` (`-1` after the abort) -/
  buffPtr : Int
  /-- the receive buffer afterwards -/
  responseBuffer : List Char
  /-- the strings written with `uart_puts`, oldest first -/
  sent : List (List Char)
deriving DecidableEq, Repr

/-- The statements after the polling loop of `processATcommand`. -/
def atTimedOut (successMsg : List Char) (buffPtr : Nat) (buf : List Char)
    (sent : List (List Char)) : ATresult :=
  { ok := if 0 < strlen successMsg then false else decide (0 < buffPtr)
    tooLong := false
    buffPtr := buffPtr
    responseBuffer := buf
    sent := sent }

/-- The polling loop of `processATcommand`.  `allowTime` is in microseconds.
The list holds the passes the environment offers; when it is used up the next
clock reading is past the deadline. -/
def atLoop (cap sendCap : Nat) (command successMsg : List Char) (allowTime : Int) :
    List Poll → Bool → Nat → List Char → List (List Char) → ATresult
  | [], _, buffPtr, buf, sent => atTimedOut successMsg buffPtr buf sent
  | p :: polls, runCommand, buffPtr, buf, sent =>
    if p.elapsed < allowTime then
      let send := runCommand && decide (0 < strlen command)
      let sent := if send then
          sent ++ [snprintf sendCap ("AT+".toList ++ cstr command ++ "\r\n".toList)]
        else sent
      let runCommand := if send then false else runCommand
      let buffPtr := if send then 0 else buffPtr
      let r := getATdata cap buf buffPtr p.rx
      if r.2 = -1 then
        { ok := false, tooLong := true, buffPtr := -1, responseBuffer := r.1, sent := sent }
      else if 0 < strlen successMsg ∧ (strstr (cstr r.1) (cstr successMsg)).isSome then
        { ok := true, tooLong := false, buffPtr := r.2, responseBuffer := r.1, sent := sent }
      else if (strstr (cstr r.1) busyMarker).isSome then
        atLoop cap sendCap command successMsg allowTime polls true r.2.toNat r.1 sent
      else
        atLoop cap sendCap command successMsg allowTime polls runCommand r.2.toNat r.1 sent
    else atTimedOut successMsg buffPtr buf sent

/-- Embedding of `processATcommand(command, allowTime, successMsg)` started
with receive buffer `buf`; `allowTime` is in seconds. -/
def processATcommand (cap sendCap : Nat) (buf : List Char) (command : List Char)
    (allowTime : Int) (successMsg : List Char) (polls : List Poll) : ATresult :=
  atLoop cap sendCap command successMsg (allowTime * MICROS) polls true 0 buf []

/-- Embedding of `processATcommandOK(command, allowTime)`. -/
def processATcommandOK (cap sendCap : Nat) (buf : List Char) (command : List Char)
    (allowTime : Int) (polls : List Poll) : ATresult :=
  processATcommand cap sendCap buf command allowTime "OK".toList polls

/-! ## HTTP framing layer -/

/-- HTTP response wrapper: status line and CORS header. -/
def httpHeader : List Char :=
  "HTTP/1.0 200 OK\r\nAccess-Control-Allow-Origin: *\r\nHost:Pico\r\n".toList

/-- Content type of an HTML body. -/
def contentHeader : List Char := "Content-type: text/html\r\n\r\n".toList

/-- Content type of a JSON body. -/
def jsonHeader : List Char := "Content-type: application/json\r\n\r\n".toList

/-- Closing footer. -/
def httpFooter : List Char := "\r\n".toList

/-- State of the serial link seen from the serving core: the receive buffer,
the behaviour of clock and UART during the `processATcommand` calls still to
come (one list of passes per call), and everything written with `uart_puts`
so far. -/
structure Link where
  responseBuffer : List Char
  env : List (List Poll)
  wire : List (List Char)
deriving DecidableEq, Repr

/-- A call of `processATcommand` on the link: it consumes the behaviour
foreseen for the next call. -/
def Link.command (cap sendCap : Nat) (lk : Link) (command : List Char)
    (allowTime : Int) (successMsg : List Char) : ATresult × Link :=
  let r := processATcommand cap sendCap lk.responseBuffer command allowTime successMsg
    (lk.env.headD [])
  (r, { responseBuffer := r.responseBuffer, env := lk.env.tail, wire := lk.wire ++ r.sent })

/-- A call of `uart_puts(uart0, s)` on the link. -/
def Link.puts (lk : Link) (s : List Char) : Link :=
  { lk with wire := lk.wire ++ [cstr s] }

/-- One outbound frame: the "prepare to send" exchange, the data written and
the confirming exchange. -/
structure Frame where
  /-- the length given as `%d` argument of the `CIPSEND` format -/
  declared : Nat
  /-- the command text left in `sendBuffer` by `snprintf` -/
  command : List Char
  /-- result of `processATcommand(sendBuffer, 2, ">")` -/
  prepare : Bool
  /-- the characters written by `uart_puts` -/
  data : List Char
  /-- result of `processATcommandOK("", 5)` -/
  confirm : Bool
deriving DecidableEq, Repr

/-- Text of the `CIPSEND` format for connection `id` and length `n`. -/
def cipsendText (id : List Char) (n : Nat) : List Char :=
  "CIPSEND=".toList ++ cstr id ++ ",".toList ++ fmtNat n

/-- Text of the `CIPCLOSE` format for connection `id`. -/
def cipcloseText (id : List Char) : List Char := "CIPCLOSE=".toList ++ cstr id

/-- Embedding of `sendResponsePart(id, responseData)`. -/
def sendResponsePart (cap sendCap : Nat) (id responseData : List Char) (lk : Link) :
    Frame × Link :=
  let command := snprintf sendCap (cipsendText id (strlen responseData))
  let r1 := lk.command cap sendCap command 2 ">".toList
  let lk := r1.2.puts responseData
  let r2 := lk.command cap sendCap [] 5 "OK".toList
  ({ declared := strlen responseData, command := command, prepare := r1.1.ok,
     data := cstr responseData, confirm := r2.1.ok }, r2.2)

/-- The loop `while (webOutLeft > 0)` of `sendResponse`, sending the reply in
chunks.  `fuel` bounds the number of passes; `none` when it does not suffice. -/
def chunkLoop (cap sendCap : Nat) (id webOutStr : List Char) :
    Nat → Nat → Nat → Link → Option (List Frame × Link)
  | 0, webOutLeft, _, lk => if 0 < webOutLeft then none else some ([], lk)
  | fuel + 1, webOutLeft, webOutStrPtr, lk =>
    if 0 < webOutLeft then
      let packetLen := if webOutLeft < sendCap then webOutLeft else sendCap - 1
      let command := snprintf sendCap (cipsendText id packetLen)
      let r1 := lk.command cap sendCap command 2 ">".toList
      let sendBuffer := (webOutStr.drop webOutStrPtr).take packetLen ++ [NUL]
      let lk := r1.2.puts sendBuffer
      let r2 := lk.command cap sendCap [] 5 "OK".toList
      (chunkLoop cap sendCap id webOutStr fuel (webOutLeft - packetLen)
          (webOutStrPtr + packetLen) r2.2).map
        (fun rest => ({ declared := packetLen, command := command, prepare := r1.1.ok,
                        data := cstr sendBuffer, confirm := r2.1.ok } :: rest.1, rest.2))
    else some ([], lk)

/-- The copy `char dst[len+1] = {0}; strncpy(dst, responseBuffer+off, len)`:
`none` when the span is not a span of the buffer. -/
def copySpan (buf : List Char) (off len : Int) : Option (List Char) :=
  if 0 ≤ off ∧ 0 ≤ len ∧ off + len ≤ buf.length then
    some (cstr ((buf.drop off.toNat).take len.toNat))
  else none

/-- The request fields that `sendResponse` reads out of the receive buffer. -/
structure Request where
  method : List Char
  urlOffset : Int
  urlLen : Int
  jsonOffset : Int
  jsonLen : Int
  /-- the summary handed to core 0 -/
  core0msg : List Char
deriving DecidableEq, Repr

/-- The parsing part of `sendResponse`: method, URL span, JSON span and the
summary string `core0msg`. -/
def parseRequest (base : Nat) (buf : List Char) : Option Request := do
  let m ← getParam base buf 0 ":".toList " ".toList
  let method ← copySpan buf m.1 m.2
  let u ← getParam base buf (m.1 + m.2) " ".toList " HTTP".toList
  let j ← if strncmpEq method "POST".toList 4 then
      getParam base buf (u.1 + u.2) "\r\n\r\n\x7b".toList "\x7d".toList
    else pure (u.1 + u.2, 0)
  -- char core0msg[urlLen+jsonLen+2] must hold the URL and its terminator
  if u.2 + 1 ≤ u.2 + j.2 + 2 then
    let url ← copySpan buf u.1 u.2
    let json ← if 0 < j.2 then copySpan buf j.1 j.2 else pure []
    pure { method := method, urlOffset := u.1, urlLen := u.2, jsonOffset := j.1,
           jsonLen := j.2,
           core0msg := if 0 < j.2 then url ++ ",".toList ++ json else url }
  else none

/-- The URL text of a parsed request. -/
def Request.url (buf : List Char) (r : Request) : Option (List Char) :=
  copySpan buf r.urlOffset r.urlLen

/-- The JSON text of a parsed request. -/
def Request.json (buf : List Char) (r : Request) : Option (List Char) :=
  copySpan buf r.jsonOffset r.jsonLen

/-- What the serving core does, in program order. -/
inductive Action where
  /-- `multicore_fifo_push_blocking` of the request summary -/
  | fifoPush (msg : List Char)
  /-- a frame: `CIPSEND` exchange, data, confirmation -/
  | frame (f : Frame)
  /-- the `CIPCLOSE` exchange with its result -/
  | close (command : List Char) (ok : Bool)
  /-- `sleep_ms` -/
  | sleepMs (ms : Nat)
  /-- `watchdog_reboot(0, 0, 0)`: the chip resets at once -/
  | reboot
  /-- the "truncated input" diagnostic -/
  | truncated (expected got : Int)
deriving DecidableEq, Repr

/-- Embedding of `sendResponse(id)`.  `webOut` is the reply that core 0
deposits before the gate `core0resp` times out, `none` when it deposits
nothing in the 20 seconds.  The result is `none` when parsing leaves the
defined behaviour of the program or `fuel` does not suffice for the chunk
loop. -/
def sendResponse (base cap sendCap : Nat) (id : List Char) (webOut : Option (List Char))
    (fuel : Nat) (lk : Link) : Option (List Action × Link) := do
  let req ← parseRequest base lk.responseBuffer
  match webOut with
  | some webOutStr =>
    let h := sendResponsePart cap sendCap id httpHeader lk
    let c := if 0 < strlen webOutStr ∧ webOutStr.head? = some '\x7b' then
        sendResponsePart cap sendCap id jsonHeader h.2
      else sendResponsePart cap sendCap id contentHeader h.2
    let chunks ← chunkLoop cap sendCap id webOutStr fuel (strlen webOutStr) 0 c.2
    let f := sendResponsePart cap sendCap id httpFooter chunks.2
    let command := snprintf sendCap (cipcloseText id)
    let r := f.2.command cap sendCap command 2 "OK".toList
    pure ([Action.fifoPush req.core0msg, Action.frame h.1, Action.frame c.1] ++
          chunks.1.map Action.frame ++ [Action.frame f.1, Action.close command r.1.ok], r.2)
  | none =>
    pure ([Action.fifoPush req.core0msg, Action.sleepMs 10000, Action.reboot], lk)

/-- C `isspace`. -/
def isspace (c : Char) : Bool :=
  c == ' ' || c == '\t' || c == '\n' || c == '\x0b' || c == '\x0c' || c == '\r'

/-- Value of the leading decimal digits of a string, continuing from `acc`. -/
def atoiDigits : List Char → Nat → Nat
  | [], acc => acc
  | c :: cs, acc => if c.isDigit then atoiDigits cs (10 * acc + (c.toNat - 48)) else acc

/-- C `atoi`. -/
def atoi (s : List Char) : Int :=
  match (cstr s).dropWhile isspace with
  | '-' :: t => - (atoiDigits t 0 : Int)
  | '+' :: t => (atoiDigits t 0 : Int)
  | t => (atoiDigits t 0 : Int)

/-- The body of `if (uart_is_readable(uart0))` in `serveClients`, after the
drain `processATcommand("", 2, "")` has filled the receive buffer of `lk`. -/
def serveDrained (base cap sendCap : Nat) (webOut : Option (List Char)) (fuel : Nat)
    (lk : Link) : Option (List Action × Link) :=
  if (strstr (cstr lk.responseBuffer) "+IPD".toList).isSome then do
    let i ← getParam base lk.responseBuffer 0 "+IPD,".toList ",".toList
    let id ← copySpan lk.responseBuffer i.1 i.2
    let l ← getParam base lk.responseBuffer (i.1 + i.2) ",".toList ":".toList
    let reqLen ← copySpan lk.responseBuffer l.1 l.2
    let requestLen := atoi reqLen
    -- size_t against int: the int is converted to unsigned
    if (strlen lk.responseBuffer : Int) > requestLen % 4294967296 then
      sendResponse base cap sendCap id webOut fuel lk
    else pure ([Action.truncated requestLen (strlen lk.responseBuffer)], lk)
  else pure ([], lk)

/-- One pass of the `while (true)` loop of `serveClients` once the gate
`uartIrq` has been entered. -/
def serveClientsPass (base cap sendCap : Nat) (readable : Bool)
    (webOut : Option (List Char)) (fuel : Nat) (lk : Link) : Option (List Action × Link) :=
  if readable then
    serveDrained base cap sendCap webOut fuel (lk.command cap sendCap [] 2 []).2
  else pure ([], lk)

/-! ## Notions used in the statements -/

/-- The string `needle` occurs in `hay` at index `i`. -/
def OccursAt (needle hay : List Char) (i : Nat) : Prop :=
  i ≤ hay.length ∧ needle <+: hay.drop i

/-- The first occurrence of `needle` in `hay` is at index `i`. -/
def FirstAt (needle hay : List Char) (i : Nat) : Prop :=
  OccursAt needle hay i ∧ ∀ k, k < i → ¬ OccursAt needle hay k

/-- The characters the UART delivers during the first `n` passes of a polling
loop. -/
def arrived (polls : List Poll) (n : Nat) : List Char :=
  ((polls.take n).map Poll.rx).flatten

/-- What every payload frame of the chunk loop satisfies. -/
def FrameOK (sendCap : Nat) (id : List Char) (f : Frame) : Prop :=
  1 ≤ f.declared ∧ f.declared ≤ sendCap - 1 ∧ f.data.length = f.declared ∧
  f.command = snprintf sendCap (cipsendText id f.declared) ∧
  ((cipsendText id f.declared).length < sendCap → f.command = cipsendText id f.declared)

/-- The replies of a co-operating ESP8266 to one payload frame: the prompt
`>` for the `CIPSEND` exchange and `SEND OK` for the confirmation, each
available at the first pass of the polling loop. -/
def frameReplies : List (List Poll) :=
  [[{ elapsed := 0, rx := "\r\n> ".toList }], [{ elapsed := 0, rx := "\r\nSEND OK\r\n".toList }]]

/-- Content-type header chosen for a reply. -/
def contentTypeFor (webOutStr : List Char) : List Char :=
  if (cstr webOutStr).head? = some '\x7b' then jsonHeader else contentHeader

/-- The id of the over-long connection token used below: 495 digits. -/
def longId : List Char := List.replicate 495 '7'

/-- The reply of the ESP8266 to a `CIPCLOSE`. -/
def closeReply : List (List Poll) :=
  [[{ elapsed := 0, rx := "0,CLOSED\r\n\r\nOK\r\n".toList }]]

/-- The request of end-to-end scenario 1 as `sendResponse` parses it. -/
def getRequest : Request :=
  { method := "GET".toList, urlOffset := 14, urlLen := 1, jsonOffset := 15, jsonLen := 0,
    core0msg := "/".toList }

/-- The payload of end-to-end scenario 3, ten characters. -/
def okPayload : List Char := "\x7b\"1\":\"ok\"\x7d".toList

/-- The replies of a co-operating ESP8266 to a response of six frames and
the closing command. -/
def sixFrameReplies : List (List Poll) :=
  frameReplies ++ frameReplies ++ frameReplies ++ frameReplies ++ frameReplies ++ frameReplies
    ++ closeReply

/-- The stores into `responseBuffer` that `getATdata(buffPtr)` performs, in
program order, as pairs of index and character: one store per character read
and the store of the terminator at the end. -/
def getATstores (cap : Nat) : List Char → Nat → List (Nat × Char)
  | [], buffPtr => [(buffPtr, NUL)]
  | c :: rx, buffPtr =>
    (buffPtr, c) :: (if buffPtr ≥ cap - 1 then getATstores cap rx buffPtr
                     else getATstores cap rx (buffPtr + 1))

/-- The polling loop of `processATcommand` together with the offsets it hands
to `getATdata`, in program order. -/
def atLoopLog (cap sendCap : Nat) (command successMsg : List Char) (allowTime : Int) :
    List Poll → Bool → Nat → List Char → List (List Char) → ATresult × List Nat
  | [], _, buffPtr, buf, sent => (atTimedOut successMsg buffPtr buf sent, [])
  | p :: polls, runCommand, buffPtr, buf, sent =>
    if p.elapsed < allowTime then
      let send := runCommand && decide (0 < strlen command)
      let sent := if send then
          sent ++ [snprintf sendCap ("AT+".toList ++ cstr command ++ "\r\n".toList)]
        else sent
      let runCommand := if send then false else runCommand
      let buffPtr := if send then 0 else buffPtr
      let r := getATdata cap buf buffPtr p.rx
      if r.2 = -1 then
        ({ ok := false, tooLong := true, buffPtr := -1, responseBuffer := r.1, sent := sent },
         [buffPtr])
      else if 0 < strlen successMsg ∧ (strstr (cstr r.1) (cstr successMsg)).isSome then
        ({ ok := true, tooLong := false, buffPtr := r.2, responseBuffer := r.1, sent := sent },
         [buffPtr])
      else if (strstr (cstr r.1) busyMarker).isSome then
        let rest := atLoopLog cap sendCap command successMsg allowTime polls true r.2.toNat r.1 sent
        (rest.1, buffPtr :: rest.2)
      else
        let rest := atLoopLog cap sendCap command successMsg allowTime polls runCommand
          r.2.toNat r.1 sent
        (rest.1, buffPtr :: rest.2)
    else (atTimedOut successMsg buffPtr buf sent, [])

/-- The offsets that `processATcommand(command, allowTime, successMsg)` hands
to `getATdata`. -/
def processATcommandOffsets (cap sendCap : Nat) (buf : List Char) (command : List Char)
    (allowTime : Int) (successMsg : List Char) (polls : List Poll) : List Nat :=
  (atLoopLog cap sendCap command successMsg (allowTime * MICROS) polls true 0 buf []).2
/-- The line that `processATcommand` writes to the UART for `command`: the
text `AT+command` and a line end, cut by `snprintf` to the local send
buffer. -/
def atLine (sendCap : Nat) (command : List Char) : List Char :=
  snprintf sendCap ("AT+".toList ++ cstr command ++ "\r\n".toList)


/-! ## ESP8266 GPIO -/

/-- Rendering of an `int` argument by `%u`: its value as `unsigned int`. -/
def fmtUnsigned (x : Int) : List Char := fmtNat (x % 4294967296).toNat

/-- Conversion of an integer to `float`: 24 significant bits, round to
nearest, ties to even. -/
def floatOfInt (n : Int) : Int :=
  let a := n.natAbs
  let shift := (Nat.log2 a + 1) - 24
  let q := a / 2 ^ shift
  let r := a % 2 ^ shift
  let up := if 2 * r > 2 ^ shift ∨ (2 * r = 2 ^ shift ∧ q % 2 = 1) then 1 else 0
  (if n < 0 then -1 else 1) * (((q + up) * 2 ^ shift : Nat) : Int)

/-- The call `mutex_enter_timeout_ms(mtx, timeout_ms)` of the pico-sdk made by
core `caller`.  `mtx` is the owner of the mutex, `none` when it is free;
`release` is the time in milliseconds after which the present owner leaves
it, `none` when it keeps it.  The result is the return value and the owner
afterwards. -/
def mutex_enter_timeout_ms (mtx : Option Nat) (caller timeout_ms : Nat)
    (release : Option Nat) : Bool × Option Nat :=
  match mtx, release with
  | none, _ => (true, some caller)
  | some owner, some t => if t < timeout_ms then (true, some caller) else (false, some owner)
  | some owner, none => (false, some owner)

/-- The call `mutex_exit(mtx)`: the mutex is free afterwards. -/
def mutex_exit (_mtx : Option Nat) : Option Nat := none

/-- The co-processor as the GPIO routines see it: the owner of `ESP8266mutex`
and the serial link with the receive buffer. -/
structure Device where
  ESP8266mutex : Option Nat
  link : Link
deriving DecidableEq, Repr

/-- Embedding of `ESP8266pinMode(pin, direction, pullup)`, called from core 0. -/
def ESP8266pinMode (cap sendCap : Nat) (release : Option Nat) (d : Device)
    (pin direction pullup : Int) : Bool × Device :=
  if pin > 15 then (false, d)
  else
    let m := mutex_enter_timeout_ms d.ESP8266mutex 0 MUTEXWAIT release
    if m.1 then
      let mode : Int := if pin = 1 ∨ pin = 3 ∨ pin > 6 then 3 else 0
      let c1 := snprintf sendCap ("SYSIOSETCFG=".toList ++ fmtUnsigned pin ++ ",".toList ++
        fmtUnsigned mode ++ ",".toList ++ fmtUnsigned pullup)
      let lk1 := (d.link.command cap sendCap c1 1 "OK".toList).2
      let c2 := snprintf sendCap ("SYSGPIODIR=".toList ++ fmtUnsigned pin ++ ",".toList ++
        fmtUnsigned direction)
      let lk2 := (lk1.command cap sendCap c2 1 "OK".toList).2
      (true, { ESP8266mutex := mutex_exit m.2, link := lk2 })
    else (false, { d with ESP8266mutex := m.2 })

/-- Embedding of `ESP8266digitalRead(pin)`, called from core 0; `none` when
the scan of the response leaves the defined behaviour of the program. -/
def ESP8266digitalRead (base cap sendCap : Nat) (release : Option Nat) (d : Device)
    (pin : Int) : Option (Int × Device) :=
  let m := mutex_enter_timeout_ms d.ESP8266mutex 0 MUTEXWAIT release
  if m.1 then do
    let c := snprintf sendCap ("SYSGPIOREAD=".toList ++ fmtUnsigned pin)
    let lk := (d.link.command cap sendCap c 1 "OK".toList).2
    let p1 ← getParam base lk.responseBuffer 0 ",".toList ",".toList
    let p2 ← getParam base lk.responseBuffer (p1.1 + p1.2) ",".toList "\r".toList
    let pinVal ← copySpan lk.responseBuffer p2.1 p2.2
    pure (atoi pinVal, { ESP8266mutex := mutex_exit m.2, link := lk })
  else pure (-1, { d with ESP8266mutex := m.2 })

/-- Embedding of `ESP8266digitalWrite(pin, value)`, called from core 0. -/
def ESP8266digitalWrite (cap sendCap : Nat) (release : Option Nat) (d : Device)
    (pin : Int) (value : Bool) : Bool × Device :=
  let m := mutex_enter_timeout_ms d.ESP8266mutex 0 MUTEXWAIT release
  if m.1 then
    let c := snprintf sendCap ("SYSGPIOWRITE=".toList ++ fmtUnsigned pin ++ ",".toList ++
      fmtUnsigned (if value then 1 else 0))
    let lk := (d.link.command cap sendCap c 1 "OK".toList).2
    (true, { ESP8266mutex := mutex_exit m.2, link := lk })
  else (false, { d with ESP8266mutex := m.2 })

/-- Embedding of `ESP8266analogRead()`, called from core 0: the value
`(float)(atoi(adcVal)/1024.0)` as a rational number; `none` when the scan of
the response leaves the defined behaviour of the program. -/
def ESP8266analogRead (base cap sendCap : Nat) (release : Option Nat) (d : Device) :
    Option (Rat × Device) :=
  let m := mutex_enter_timeout_ms d.ESP8266mutex 0 MUTEXWAIT release
  if m.1 then do
    let lk := (d.link.command cap sendCap "SYSADC?".toList 1 "OK".toList).2
    let p ← getParam base lk.responseBuffer 0 ":".toList "\r".toList
    let adcVal ← copySpan lk.responseBuffer p.1 p.2
    pure ((floatOfInt (atoi adcVal) : Rat) / 1024, { ESP8266mutex := mutex_exit m.2, link := lk })
  else pure (-1, { d with ESP8266mutex := m.2 })

/-- Example: the co-processor while the web server on core 1 owns the mutex. -/
def deviceServing : Device :=
  { ESP8266mutex := some 1,
    link := { responseBuffer := mkBuffer RESPONSEBUFFERLEN "\r\nOK\r\n".toList,
              env := [[{ elapsed := 12, rx := "+SYSGPIOREAD:14,0,1\r\n\r\nOK\r\n".toList }]],
              wire := [] } }

/-- Example: the co-processor with the mutex free, about to answer a read of
pin 14. -/
def deviceIdle : Device := { deviceServing with ESP8266mutex := none }

/-! ## Cross-core bridge -/

/-- The inbound side of the bridge on core 1: the owner of the mutex
`core0resp` (`none` when it is free, the gate open) and the pointer `webOut`
(`none` for the null pointer). -/
structure Bridge where
  core0resp : Option Nat
  webOut : Option (List Char)
deriving DecidableEq, Repr

/-- Embedding of `core1_sio_irq()`: `fifo` holds the words waiting in the
inter-core queue, oldest first. -/
def core1_sio_irq (fifo : List (Option (List Char))) (b : Bridge) : Bridge :=
  { core0resp := mutex_exit b.core0resp, webOut := fifo.foldl (fun _ w => w) b.webOut }

/-- What the serving core does, with its operations on the bridge. -/
inductive Step where
  /-- an action on the inter-core queue, the serial link or the chip -/
  | act (a : Action)
  /-- the result of `mutex_enter_timeout_ms(&core0resp, 1000*20)` -/
  | gate (acquired : Bool)
  /-- `webOutStr = (char*)webOut` -/
  | readSlot (webOutStr : List Char)
  /-- `webOut = 0` -/
  | clearSlot
deriving DecidableEq, Repr

/-- The bridge at the end of the wait on `core0resp`: `irq` is the interrupt
that a push of core 0 raises on core 1 between the push of the request and the
end of the wait, `none` when there is none. -/
def bridgeAtWait (irq : Option (List (Option (List Char)))) (b : Bridge) : Bridge :=
  match irq with
  | some fifo => core1_sio_irq fifo b
  | none => b

/-- Embedding of `sendResponse(id)` with the bridge.  The result is the steps
in program order and the bridge and the link afterwards; `none` as for
`sendResponse`, and when the slot read is the null pointer. -/
def sendResponseBridge (base cap sendCap : Nat) (id : List Char)
    (irq : Option (List (Option (List Char)))) (fuel : Nat) (b : Bridge) (lk : Link) :
    Option (List Step × Bridge × Link) := do
  let req ← parseRequest base lk.responseBuffer
  let b := bridgeAtWait irq b
  let m := mutex_enter_timeout_ms b.core0resp 1 (1000 * 20) none
  if m.1 then
    let webOutStr ← b.webOut
    let h := sendResponsePart cap sendCap id httpHeader lk
    let c := if 0 < strlen webOutStr ∧ webOutStr.head? = some '\x7b' then
        sendResponsePart cap sendCap id jsonHeader h.2
      else sendResponsePart cap sendCap id contentHeader h.2
    let chunks ← chunkLoop cap sendCap id webOutStr fuel (strlen webOutStr) 0 c.2
    let f := sendResponsePart cap sendCap id httpFooter chunks.2
    let command := snprintf sendCap (cipcloseText id)
    let r := f.2.command cap sendCap command 2 "OK".toList
    pure ([Step.act (Action.fifoPush req.core0msg), Step.gate true, Step.readSlot webOutStr,
            Step.clearSlot, Step.act (Action.frame h.1), Step.act (Action.frame c.1)] ++
          chunks.1.map (fun x => Step.act (Action.frame x)) ++
          [Step.act (Action.frame f.1), Step.act (Action.close command r.1.ok)],
          { core0resp := m.2, webOut := none }, r.2)
  else
    pure ([Step.act (Action.fifoPush req.core0msg), Step.gate false,
            Step.act (Action.sleepMs 10000), Step.act Action.reboot],
          { b with core0resp := m.2 }, lk)

/-- One pass of the `while (true)` loop of `serveClients` with the bridge,
once the gate `uartIrq` has been entered. -/
def servePassBridge (base cap sendCap : Nat) (readable : Bool)
    (irq : Option (List (Option (List Char)))) (fuel : Nat) (b : Bridge) (lk : Link) :
    Option (List Step × Bridge × Link) :=
  if readable then
    let lk := (lk.command cap sendCap [] 2 []).2
    if (strstr (cstr lk.responseBuffer) "+IPD".toList).isSome then do
      let i ← getParam base lk.responseBuffer 0 "+IPD,".toList ",".toList
      let id ← copySpan lk.responseBuffer i.1 i.2
      let l ← getParam base lk.responseBuffer (i.1 + i.2) ",".toList ":".toList
      let reqLen ← copySpan lk.responseBuffer l.1 l.2
      let requestLen := atoi reqLen
      if (strlen lk.responseBuffer : Int) > requestLen % 4294967296 then
        sendResponseBridge base cap sendCap id irq fuel b lk
      else pure ([Step.act (Action.truncated requestLen (strlen lk.responseBuffer))], b, lk)
    else pure ([], b, lk)
  else pure ([], b, lk)

/-- The passes of the loop of `serveClients`, one entry of the list for each,
until the chip restarts: the steps of the serving core in program order. -/
def serveClientsBridge (base cap sendCap fuel : Nat) :
    List (Bool × Option (List (Option (List Char)))) → Bridge → Link → Option (List Step)
  | [], _, _ => some []
  | p :: rest, b, lk =>
    match servePassBridge base cap sendCap p.1 p.2 fuel b lk with
    | none => none
    | some r =>
      if Step.act Action.reboot ∈ r.1 then some r.1
      else (serveClientsBridge base cap sendCap fuel rest r.2.1 r.2.2).map (fun t => r.1 ++ t)

/-- Where the serving core stands with respect to the bridge. -/
inductive Phase where
  /-- no request is outstanding -/
  | idle
  /-- a request summary has been pushed -/
  | pushed
  /-- the gate `core0resp` has been acquired after the push -/
  | acquired
  /-- the slot `webOut` has been read -/
  | read
  /-- the wait on the gate has timed out -/
  | timedOut
  /-- the restart of the chip has been triggered -/
  | restarted
deriving DecidableEq, Repr

/-- The steps allowed in each phase: a push only when no request is
outstanding; after a push nothing but the acquisition of the gate, the read
and the clearing of the slot, in this order, or the timeout, a sleep and one
restart; frames, close and the truncation diagnostic only when no request is
outstanding; nothing after the restart. -/
def Phase.next : Phase → Step → Option Phase
  | .idle, .act (.fifoPush _) => some .pushed
  | .idle, .act (.frame _) => some .idle
  | .idle, .act (.close _ _) => some .idle
  | .idle, .act (.truncated _ _) => some .idle
  | .pushed, .gate true => some .acquired
  | .pushed, .gate false => some .timedOut
  | .acquired, .readSlot _ => some .read
  | .read, .clearSlot => some .idle
  | .timedOut, .act (.sleepMs _) => some .timedOut
  | .timedOut, .act .reboot => some .restarted
  | _, _ => none

/-- The phase reached by a sequence of steps, `none` when a step is not
allowed where it stands. -/
def bridgeRun : Phase → List Step → Option Phase
  | p, [] => some p
  | p, s :: t => (p.next s).bind (fun q => bridgeRun q t)

/-- The pushes of request summaries in a sequence of steps. -/
def pushes : List Step → List (List Char)
  | [] => []
  | .act (.fifoPush msg) :: t => msg :: pushes t
  | _ :: t => pushes t

/-- Example: the bridge as `setupUART` leaves it, the gate closed and the slot
empty. -/
def bridgeClosed : Bridge := { core0resp := some 0, webOut := none }

/-- Example: the link before two requests arrive: the drain of the first one,
the ESP8266 co-operating on four frames and the close, and the drain of the
second one. -/
def linkTwoRequests : Link :=
  { responseBuffer := mkBuffer RESPONSEBUFFERLEN [],
    env := [[{ elapsed := 12, rx := "+IPD,0,18:GET / HTTP/1.1\r\n\r\n".toList }]] ++
      frameReplies ++ frameReplies ++ frameReplies ++ frameReplies ++ closeReply ++
      [[{ elapsed := 12, rx := "+IPD,0,18:GET / HTTP/1.1\r\n\r\n".toList }]],
    wire := [] }

/-- The action of a step, `none` for the operations on the gate and the slot. -/
def Step.toAction : Step → Option Action
  | .act a => some a
  | _ => none

/-! # Theorems -/

/-! ## Basic facts on C strings -/

theorem cstr_of_not_mem {l : List Char} (h : NUL ∉ l) : cstr l = l := by
  unfold cstr
  induction l with
  | nil => rfl
  | cons a t ih =>
    have ha : a ≠ NUL := fun e => h (by simp [e])
    have ht : NUL ∉ t := fun m => h (List.mem_cons_of_mem _ m)
    simp [List.takeWhile_cons, ha, ih ht]

theorem cstr_append_nul {l : List Char} (r : List Char) (h : NUL ∉ l) :
    cstr (l ++ NUL :: r) = l := by
  unfold cstr
  induction l with
  | nil => simp [List.takeWhile_cons]
  | cons a t ih =>
    have ha : a ≠ NUL := fun e => h (by simp [e])
    have ht : NUL ∉ t := fun m => h (List.mem_cons_of_mem _ m)
    simp [List.takeWhile_cons, ha, ih ht]

theorem nul_not_mem_cstr (l : List Char) : NUL ∉ cstr l := by
  unfold cstr
  intro h
  have := List.mem_takeWhile_imp h
  simp at this

theorem strlen_of_not_mem {l : List Char} (h : NUL ∉ l) : strlen l = l.length := by
  unfold strlen; rw [cstr_of_not_mem h]

theorem snprintf_of_lt {size : Nat} {s : List Char} (h : s.length < size) :
    snprintf size s = s := by
  unfold snprintf
  exact List.take_of_length_le (by omega)

/-! ## `strstr` finds the first occurrence -/

theorem occursAt_cons_succ {needle : List Char} {h : Char} {t : List Char} {k : Nat} :
    OccursAt needle (h :: t) (k + 1) ↔ OccursAt needle t k := by
  simp [OccursAt]

theorem occursAt_zero {needle hay : List Char} :
    OccursAt needle hay 0 ↔ needle.isPrefixOf hay = true := by
  simp [OccursAt]

theorem strstr_of_firstAt {needle : List Char} :
    ∀ {hay : List Char} {i : Nat}, FirstAt needle hay i → strstr hay needle = some i := by
  intro hay
  induction hay with
  | nil =>
    intro i h
    have hi : i = 0 := by have := h.1.1; simpa using this
    subst hi
    have hn : needle = [] := by
      have := h.1.2
      simpa using this
    simp [strstr, hn]
  | cons a t ih =>
    intro i h
    cases i with
    | zero =>
      have hp := occursAt_zero.1 h.1
      simp [strstr, hp]
    | succ k =>
      have hnp : ¬ needle.isPrefixOf (a :: t) = true := fun hp =>
        h.2 0 (Nat.succ_pos k) (occursAt_zero.2 hp)
      have hk : FirstAt needle t k :=
        ⟨occursAt_cons_succ.1 h.1, fun m hm hocc =>
          h.2 (m + 1) (Nat.succ_lt_succ hm) (occursAt_cons_succ.2 hocc)⟩
      simp [strstr, hnp, ih hk]

theorem strstr_none_of_not_occurs {needle : List Char} :
    ∀ {hay : List Char}, (∀ k, ¬ OccursAt needle hay k) → strstr hay needle = none := by
  intro hay
  induction hay with
  | nil =>
    intro h
    have hn : needle ≠ [] := fun e => h 0 (by simp [OccursAt, e])
    simp [strstr, hn]
  | cons a t ih =>
    intro h
    have hnp : ¬ needle.isPrefixOf (a :: t) = true := fun hp => h 0 (occursAt_zero.2 hp)
    have ht : ∀ k, ¬ OccursAt needle t k := fun k hk => h (k + 1) (occursAt_cons_succ.2 hk)
    simp [strstr, hnp, ih ht]

theorem exists_firstAt {needle hay : List Char} {k : Nat} (h : OccursAt needle hay k) :
    ∃ i, i ≤ k ∧ FirstAt needle hay i := by
  classical
  have hex : ∃ n, OccursAt needle hay n := ⟨k, h⟩
  refine ⟨Nat.find hex, Nat.find_min' hex h, Nat.find_spec hex, fun m hm => Nat.find_min hex hm⟩

theorem strstr_isSome_iff {needle hay : List Char} :
    (strstr hay needle).isSome = true ↔ ∃ k, OccursAt needle hay k := by
  constructor
  · intro h
    by_contra hne
    have : strstr hay needle = none := strstr_none_of_not_occurs (fun k hk => hne ⟨k, hk⟩)
    simp [this] at h
  · rintro ⟨k, hk⟩
    obtain ⟨i, _, hi⟩ := exists_firstAt hk
    simp [strstr_of_firstAt hi]

theorem occurs_iff_contains {needle hay : List Char} :
    (∃ k, OccursAt needle hay k) ↔ needle <:+: hay := by
  constructor
  · rintro ⟨k, _, t, ht⟩
    refine ⟨hay.take k, t, ?_⟩
    rw [List.append_assoc, ht, List.take_append_drop]
  · rintro ⟨s, t, rfl⟩
    refine ⟨s.length, by simp, t, ?_⟩
    simp

/-! ## Terminated strings inside an array -/

theorem cstr_length_le (l : List Char) : (cstr l).length ≤ l.length :=
  ( List.takeWhile_prefix _).length_le

theorem cstr_drop {l : List Char} {n : Nat} (h : n ≤ (cstr l).length) :
    cstr (l.drop n) = (cstr l).drop n := by
  induction l generalizing n with
  | nil => simp [cstr]
  | cons a t ih =>
    cases n with
    | zero => simp
    | succ m =>
      by_cases ha : a = NUL
      · simp [cstr, List.takeWhile_cons, ha] at h
      · have hc : cstr (a :: t) = a :: cstr t := by simp [cstr, List.takeWhile_cons, ha]
        rw [hc] at h ⊢
        simp only [List.length_cons, Nat.add_le_add_iff_right] at h
        simpa using ih h

theorem nul_mem_drop {l : List Char} {n : Nat} (hl : NUL ∈ l) (h : n ≤ (cstr l).length) :
    NUL ∈ l.drop n := by
  induction l generalizing n with
  | nil => simp at hl
  | cons a t ih =>
    cases n with
    | zero => simpa using hl
    | succ m =>
      by_cases ha : a = NUL
      · simp [cstr, List.takeWhile_cons, ha] at h
      · have hc : cstr (a :: t) = a :: cstr t := by simp [cstr, List.takeWhile_cons, ha]
        rw [hc] at h
        simp only [List.length_cons, Nat.add_le_add_iff_right] at h
        have ht : NUL ∈ t := by
          rcases List.mem_cons.1 hl with e | e
          · exact absurd e.symm ha
          · exact e
        simpa using ih ht h

theorem cstr_length_lt {l : List Char} (hl : NUL ∈ l) : (cstr l).length < l.length := by
  induction l with
  | nil => simp at hl
  | cons a t ih =>
    by_cases ha : a = NUL
    · simp [cstr, List.takeWhile_cons, ha]
    · have hc : cstr (a :: t) = a :: cstr t := by simp [cstr, List.takeWhile_cons, ha]
      have ht : NUL ∈ t := by
        rcases List.mem_cons.1 hl with e | e
        · exact absurd e.symm ha
        · exact e
      rw [hc]
      simpa using ih ht

theorem toInt32_of_nat {n : Nat} (h : n < 2147483648) : toInt32 (n : Int) = n := by
  unfold toInt32
  omega

/-! ## The response scanner -/

theorem lt_length_of_mem_drop {l : List Char} {n : Nat} {c : Char} (h : c ∈ l.drop n) :
    n < l.length := by
  by_contra hn
  rw [List.drop_of_length_le (by omega)] at h
  simp at h

theorem strstrPtr_inside (base : Nat) (buf : List Char) (n : Nat) (needle : List Char)
    (hterm : NUL ∈ buf.drop n) :
    strstrPtr base buf ((base : Int) + (n : Int)) needle =
      some (match strstr (cstr (buf.drop n)) (cstr needle) with
            | some i => (base : Int) + (n : Int) + (i : Int)
            | none => 0) := by
  have hn := lt_length_of_mem_drop hterm
  have e : ((base : Int) + (n : Int) - (base : Int)).toNat = n := by omega
  unfold strstrPtr
  rw [e, if_pos ⟨by omega, by omega, hterm⟩]
  cases strstr (cstr (buf.drop n)) (cstr needle) <;> rfl

theorem occursAt_bound {needle hay : List Char} {i : Nat} (h : OccursAt needle hay i) :
    i + needle.length ≤ hay.length := by
  have := h.2.length_le
  have h1 := h.1
  simp only [List.length_drop] at this
  omega

theorem getParam_found (base : Nat) (buf : List Char) (off : Nat) (startStr endStr : List Char)
    (i j : Nat) (hbuf : buf.length < 2147483648) (hterm : NUL ∈ buf.drop off)
    (hi : FirstAt (cstr startStr) (cstr (buf.drop off)) i)
    (hj : FirstAt (cstr endStr) ((cstr (buf.drop off)).drop (i + strlen startStr)) j) :
    getParam base buf off startStr endStr
      = some (((off + i + strlen startStr : Nat) : Int), ((j : Nat) : Int)) := by
  have hib := occursAt_bound hi.1
  have hjb := occursAt_bound hj.1
  have hlt := cstr_length_lt hterm
  have hlen : (buf.drop off).length = buf.length - off := List.length_drop _ _
  have hterm2 : NUL ∈ buf.drop (off + i + strlen startStr) := by
    have := nul_mem_drop hterm (n := i + strlen startStr) hib
    rwa [List.drop_drop, ← Nat.add_assoc] at this
  have hc2 : cstr (buf.drop (off + i + strlen startStr))
      = (cstr (buf.drop off)).drop (i + strlen startStr) := by
    have := cstr_drop (l := buf.drop off) (n := i + strlen startStr) hib
    rwa [List.drop_drop, ← Nat.add_assoc] at this
  have hs1 := strstrPtr_inside base buf off startStr hterm
  rw [strstr_of_firstAt hi] at hs1
  have hs2 := strstrPtr_inside base buf (off + i + strlen startStr) endStr hterm2
  rw [hc2, strstr_of_firstAt hj] at hs2
  have hp : (base : Int) + (off : Int) + (i : Int) + ((strlen startStr : Nat) : Int)
      = (base : Int) + ((off + i + strlen startStr : Nat) : Int) := by push_cast; ring
  unfold getParam
  simp only [hs1, Option.bind_eq_bind, Option.some_bind, hp, hs2, Option.pure_def]
  have e1 : (base : Int) + ((off + i + strlen startStr : Nat) : Int) - (base : Int)
      = ((off + i + strlen startStr : Nat) : Int) := by ring
  have e2 : (base : Int) + ((off + i + strlen startStr : Nat) : Int) + (j : Int)
      - ((base : Int) + ((off + i + strlen startStr : Nat) : Int)) = (j : Int) := by ring
  simp only [List.length_drop] at hjb
  unfold strlen at *
  rw [e1, e2, toInt32_of_nat (by omega), toInt32_of_nat (by omega)]

theorem firstAt_unique {needle hay : List Char} {i k : Nat} (hi : FirstAt needle hay i)
    (hk : FirstAt needle hay k) : i = k := by
  rcases Nat.lt_trichotomy i k with h | h | h
  · exact absurd hi.1 (hk.2 i h)
  · exact h
  · exact absurd hk.1 (hi.2 k h)

/-- C2: when the start delimiter occurs in the string held by the receive
buffer at the offset, and the end delimiter occurs behind the first such
occurrence, getParam returns the number of bytes between the end of that first
start delimiter and the first end delimiter behind it, and sets the offset to
the index of the first byte of the span (for an empty span the length is 0). -/
theorem getParam_returns_span (base : Nat) (buf : List Char) (valOffset : Nat)
    (startStr endStr : List Char) (hbuf : buf.length < 2147483648)
    (hterm : NUL ∈ buf.drop valOffset)
    (hstart : ∃ k, OccursAt (cstr startStr) (cstr (buf.drop valOffset)) k)
    (hend : ∀ i, FirstAt (cstr startStr) (cstr (buf.drop valOffset)) i →
      ∃ k, OccursAt (cstr endStr)
        ((cstr (buf.drop valOffset)).drop (i + strlen startStr)) k) :
    ∃ i j, FirstAt (cstr startStr) (cstr (buf.drop valOffset)) i ∧
      FirstAt (cstr endStr) ((cstr (buf.drop valOffset)).drop (i + strlen startStr)) j ∧
      getParam base buf valOffset startStr endStr
        = some (((valOffset + i + strlen startStr : Nat) : Int), ((j : Nat) : Int)) := by
  obtain ⟨k, hk⟩ := hstart
  obtain ⟨i, _, hi⟩ := exists_firstAt hk
  obtain ⟨k', hk'⟩ := hend i hi
  obtain ⟨j, _, hj⟩ := exists_firstAt hk'
  exact ⟨i, j, hi, hj, getParam_found base buf valOffset startStr endStr i j hbuf hterm hi hj⟩

set_option maxRecDepth 100000 in
/-- Witness of `getParam_returns_span`: the method field of a GET
notification, and the empty span between the two delimiters of `a:,b`. -/
theorem getParam_returns_span_witness :
    (∃ i j, FirstAt (cstr ":".toList)
        (cstr ((mkBuffer RESPONSEBUFFERLEN "+IPD,0,18:GET / HTTP/1.1\r\n\r\n".toList).drop 0)) i ∧
      FirstAt (cstr " ".toList)
        ((cstr ((mkBuffer RESPONSEBUFFERLEN "+IPD,0,18:GET / HTTP/1.1\r\n\r\n".toList).drop 0)).drop
          (i + strlen ":".toList)) j ∧
      getParam bufferAddress (mkBuffer RESPONSEBUFFERLEN "+IPD,0,18:GET / HTTP/1.1\r\n\r\n".toList) 0
          ":".toList " ".toList
        = some (((0 + i + strlen ":".toList : Nat) : Int), ((j : Nat) : Int))) ∧
    getParam bufferAddress (mkBuffer RESPONSEBUFFERLEN "+IPD,0,18:GET / HTTP/1.1\r\n\r\n".toList) 0
      ":".toList " ".toList = some (10, 3) ∧
    getParam bufferAddress (mkBuffer RESPONSEBUFFERLEN "a:,b".toList) 0 ":".toList ",".toList = some (2, 0) := by
  refine ⟨getParam_returns_span bufferAddress _ 0 ":".toList " ".toList (by decide) (by decide)
    ⟨9, by unfold OccursAt; decide⟩ ?_, by decide, by decide⟩
  intro i hi
  have h9 : FirstAt (cstr ":".toList)
      (cstr ((mkBuffer RESPONSEBUFFERLEN "+IPD,0,18:GET / HTTP/1.1\r\n\r\n".toList).drop 0)) 9 := by
    unfold FirstAt OccursAt; decide
  have e := firstAt_unique hi h9
  subst e
  exact ⟨3, by unfold OccursAt; decide⟩

/-! ## Draining the UART -/

theorem cstr_append_nul_cons (l r : List Char) : cstr (l ++ NUL :: r) = cstr l := by
  unfold cstr
  induction l with
  | nil => simp [List.takeWhile_cons]
  | cons a t ih =>
    by_cases ha : a = NUL
    · simp [List.takeWhile_cons, ha]
    · simp [List.takeWhile_cons, ha, ih]

theorem take_succ_set {l : List Char} {n : Nat} (c : Char) (h : n < l.length) :
    (l.set n c).take (n + 1) = l.take n ++ [c] := by
  rw [List.set_eq_take_append_cons_drop, if_pos h, List.take_append_eq_append_take]
  have hl : (l.take n).length = n := by simp; omega
  simp [hl]

theorem getATloop_fit (cap : Nat) :
    ∀ (rx buf : List Char) (ptr : Nat) (tl : Bool), buf.length = cap →
      ptr + rx.length ≤ cap - 1 → 1 ≤ cap →
      getATloop cap rx buf ptr tl
        = (buf.take ptr ++ rx ++ buf.drop (ptr + rx.length), ptr + rx.length, tl) := by
  intro rx
  induction rx with
  | nil => intro buf ptr tl _ _ _; simp [getATloop]
  | cons c rx ih =>
    intro buf ptr tl hlen hfit hcap
    simp only [List.length_cons] at hfit
    have hlt : ¬ ptr ≥ cap - 1 := by omega
    have hp : ptr < buf.length := by omega
    simp only [getATloop, hlt, if_false]
    rw [ih (buf.set ptr c) (ptr + 1) tl (by simpa using hlen) (by omega) hcap]
    rw [take_succ_set c hp, List.drop_set_of_lt c buf (by omega)]
    simp [Nat.add_assoc, Nat.add_comm 1]

theorem getATloop_tooLong_mono (cap : Nat) :
    ∀ (rx buf : List Char) (ptr : Nat), (getATloop cap rx buf ptr true).2.2 = true := by
  intro rx
  induction rx with
  | nil => intro buf ptr; rfl
  | cons c rx ih =>
    intro buf ptr
    simp only [getATloop]
    split <;> exact ih _ _

theorem getATloop_overflow (cap : Nat) :
    ∀ (rx buf : List Char) (ptr : Nat) (tl : Bool), ptr ≤ cap - 1 →
      cap - 1 < ptr + rx.length → (getATloop cap rx buf ptr tl).2.2 = true := by
  intro rx
  induction rx with
  | nil => intro buf ptr tl h1 h2; simp at h2; omega
  | cons c rx ih =>
    intro buf ptr tl h1 h2
    simp only [List.length_cons] at h2
    simp only [getATloop]
    split
    · exact getATloop_tooLong_mono cap rx _ ptr
    · exact ih _ _ _ (by omega) (by omega)

theorem getATdata_fit (cap : Nat) (rx buf : List Char) (ptr : Nat) (hlen : buf.length = cap)
    (hfit : ptr + rx.length ≤ cap - 1) (hcap : 1 ≤ cap) :
    (getATdata cap buf ptr rx).2 = ((ptr + rx.length : Nat) : Int) ∧
    (getATdata cap buf ptr rx).1.length = cap ∧
    (getATdata cap buf ptr rx).1.take (ptr + rx.length) = buf.take ptr ++ rx ∧
    cstr (getATdata cap buf ptr rx).1 = cstr (buf.take ptr ++ rx) := by
  have hl : (buf.take ptr ++ rx).length = ptr + rx.length := by
    simp [List.length_take]; omega
  have hset : (getATdata cap buf ptr rx).1
      = (buf.take ptr ++ rx) ++ NUL :: buf.drop (ptr + rx.length + 1) := by
    simp only [getATdata, getATloop_fit cap rx buf ptr false hlen hfit hcap]
    rw [List.set_eq_take_append_cons_drop]
    have hlt : ptr + rx.length < (buf.take ptr ++ rx ++ buf.drop (ptr + rx.length)).length := by
      simp [List.length_take, List.length_drop]; omega
    rw [if_pos hlt, List.take_append_of_le_length (by omega), List.take_of_length_le (by omega)]
    congr 2
    have := @List.drop_append _ (buf.take ptr ++ rx) (buf.drop (ptr + rx.length)) 1
    rw [hl] at this
    rw [this, List.drop_drop]
  refine ⟨?_, ?_, ?_, ?_⟩
  · simp [getATdata, getATloop_fit cap rx buf ptr false hlen hfit hcap]
  · rw [hset]; simp [List.length_take, List.length_drop]; omega
  · rw [hset, List.take_append_of_le_length (by omega), List.take_of_length_le (by omega)]
  · rw [hset, cstr_append_nul_cons]

theorem getATdata_overflow (cap : Nat) (rx buf : List Char) (ptr : Nat) (h1 : ptr ≤ cap - 1)
    (h2 : cap - 1 < ptr + rx.length) : (getATdata cap buf ptr rx).2 = -1 := by
  simp [getATdata, getATloop_overflow cap rx buf ptr false h1 h2]

/-! ## The polling loop -/

theorem arrived_cons (p : Poll) (ps : List Poll) (n : Nat) :
    arrived (p :: ps) (n + 1) = p.rx ++ arrived ps n := by
  simp [arrived]

theorem arrived_zero (ps : List Poll) : arrived ps 0 = [] := by
  simp [arrived]

/-- One pass of the polling loop that starts before the deadline, when a
retransmission (if any) happens at offset 0 anyway. -/
theorem atLoop_pass (cap sendCap : Nat) (command successMsg : List Char) (allowTime : Int)
    (p : Poll) (ps : List Poll) (run : Bool) (ptr : Nat) (buf : List Char)
    (sent : List (List Char)) (hel : p.elapsed < allowTime)
    (hI : run = true → 0 < strlen command → ptr = 0) :
    atLoop cap sendCap command successMsg allowTime (p :: ps) run ptr buf sent =
      if (getATdata cap buf ptr p.rx).2 = -1 then
        { ok := false, tooLong := true, buffPtr := -1,
          responseBuffer := (getATdata cap buf ptr p.rx).1,
          sent := if (run && decide (0 < strlen command)) = true then
              sent ++ [snprintf sendCap ("AT+".toList ++ cstr command ++ "\r\n".toList)]
            else sent }
      else if 0 < strlen successMsg ∧
          (strstr (cstr (getATdata cap buf ptr p.rx).1) (cstr successMsg)).isSome then
        { ok := true, tooLong := false, buffPtr := (getATdata cap buf ptr p.rx).2,
          responseBuffer := (getATdata cap buf ptr p.rx).1,
          sent := if (run && decide (0 < strlen command)) = true then
              sent ++ [snprintf sendCap ("AT+".toList ++ cstr command ++ "\r\n".toList)]
            else sent }
      else
        atLoop cap sendCap command successMsg allowTime ps
          (if (strstr (cstr (getATdata cap buf ptr p.rx).1) busyMarker).isSome then true
           else if (run && decide (0 < strlen command)) = true then false else run)
          (getATdata cap buf ptr p.rx).2.toNat (getATdata cap buf ptr p.rx).1
          (if (run && decide (0 < strlen command)) = true then
              sent ++ [snprintf sendCap ("AT+".toList ++ cstr command ++ "\r\n".toList)]
            else sent) := by
  have hptr : (if (run && decide (0 < strlen command)) = true then 0 else ptr) = ptr := by
    split
    · rename_i h
      simp only [Bool.and_eq_true, decide_eq_true_eq] at h
      exact (hI h.1 h.2).symm
    · rfl
  simp only [atLoop, hel, if_true, hptr]
  split
  · rfl
  · split
    · rfl
    · split <;> rfl

/-- The flag `runCommand` after a pass keeps retransmissions at offset 0. -/
theorem runCommand_after (command : List Char) (run busy : Bool)
    (hb : busy = true → strlen command = 0) :
    (if busy then true else if (run && decide (0 < strlen command)) = true then false else run)
      = true → 0 < strlen command → False := by
  intro h hc
  cases busy with
  | true => have := hb rfl; omega
  | false =>
    cases run with
    | true => simp [hc] at h
    | false => simp at h

theorem strstr_isSome_iff_contains {needle hay : List Char} :
    (strstr hay needle).isSome = true ↔ needle <:+: hay :=
  strstr_isSome_iff.trans occurs_iff_contains

theorem atLoop_success (cap sendCap : Nat) (command successMsg : List Char) (allowTime : Int)
    (hcap : 1 ≤ cap) (hs : 0 < strlen successMsg) :
    ∀ (polls : List Poll) (k : Nat) (run : Bool) (ptr : Nat) (buf : List Char)
      (sent : List (List Char)),
      buf.length = cap →
      (run = true → 0 < strlen command → ptr = 0) →
      k < polls.length →
      (∀ p ∈ polls.take (k + 1), p.elapsed < allowTime) →
      ptr + (arrived polls (k + 1)).length ≤ cap - 1 →
      cstr successMsg <:+: cstr (buf.take ptr ++ arrived polls (k + 1)) →
      (strlen command = 0 ∨
        ∀ m, m < k → ¬ busyMarker <:+: cstr (buf.take ptr ++ arrived polls (m + 1))) →
      (atLoop cap sendCap command successMsg allowTime polls run ptr buf sent).ok = true := by
  intro polls
  induction polls with
  | nil => intro k run ptr buf sent _ _ hk; simp at hk
  | cons p ps ih =>
    intro k run ptr buf sent hlen hI hk hel hfit htok hbusy
    have hel0 : p.elapsed < allowTime := hel p (by simp)
    rw [arrived_cons] at hfit htok
    simp only [List.length_append] at hfit
    obtain ⟨g2, glen, gtake, gcstr⟩ :=
      getATdata_fit cap p.rx buf ptr hlen (by omega) hcap
    rw [atLoop_pass cap sendCap command successMsg allowTime p ps run ptr buf sent hel0 hI]
    have hne : ¬ (getATdata cap buf ptr p.rx).2 = -1 := by rw [g2]; omega
    rw [if_neg hne]
    by_cases hfound : (strstr (cstr (getATdata cap buf ptr p.rx).1) (cstr successMsg)).isSome
    · rw [if_pos ⟨hs, hfound⟩]
    · rw [if_neg (fun h => hfound h.2)]
      cases k with
      | zero =>
        exfalso
        apply hfound
        rw [strstr_isSome_iff_contains, gcstr]
        simpa [arrived_zero] using htok
      | succ k' =>
        have hnat : (getATdata cap buf ptr p.rx).2.toNat = ptr + p.rx.length := by
          rw [g2]; omega
        rw [hnat]
        apply ih k' _ (ptr + p.rx.length) _ _ glen
        · intro hrun hc
          exact absurd hc (fun hc => runCommand_after command run _ (fun hb => by
            rcases hbusy with h0 | hnb
            · exact h0
            · exfalso
              apply hnb 0 (Nat.succ_pos k')
              rw [arrived_cons, arrived_zero, List.append_nil, ← gcstr,
                ← strstr_isSome_iff_contains]
              exact hb) hrun hc)
        · simpa using hk
        · intro q hq
          exact hel q (by simp [List.take_succ_cons, hq])
        · omega
        · rw [gtake, List.append_assoc]; exact htok
        · rcases hbusy with h0 | hnb
          · exact Or.inl h0
          · refine Or.inr (fun m hm => ?_)
            have := hnb (m + 1) (by omega)
            rw [arrived_cons, ← List.append_assoc] at this
            rw [gtake]; exact this

theorem atLoop_overflow (cap sendCap : Nat) (command successMsg : List Char) (allowTime : Int)
    (hcap : 1 ≤ cap) :
    ∀ (polls : List Poll) (k : Nat) (run : Bool) (ptr : Nat) (buf : List Char)
      (sent : List (List Char)),
      buf.length = cap →
      (run = true → 0 < strlen command → ptr = 0) →
      k < polls.length →
      (∀ p ∈ polls.take (k + 1), p.elapsed < allowTime) →
      ptr + (arrived polls k).length ≤ cap - 1 →
      cap - 1 < ptr + (arrived polls (k + 1)).length →
      (∀ m, m < k → ¬ (0 < strlen successMsg ∧
        cstr successMsg <:+: cstr (buf.take ptr ++ arrived polls (m + 1)))) →
      (strlen command = 0 ∨
        ∀ m, m < k → ¬ busyMarker <:+: cstr (buf.take ptr ++ arrived polls (m + 1))) →
      (atLoop cap sendCap command successMsg allowTime polls run ptr buf sent).tooLong = true ∧
      (atLoop cap sendCap command successMsg allowTime polls run ptr buf sent).ok = false ∧
      (atLoop cap sendCap command successMsg allowTime polls run ptr buf sent).buffPtr = -1 := by
  intro polls
  induction polls with
  | nil => intro k run ptr buf sent _ _ hk; simp at hk
  | cons p ps ih =>
    intro k run ptr buf sent hlen hI hk hel hfit hover hnos hbusy
    have hel0 : p.elapsed < allowTime := hel p (by simp)
    rw [atLoop_pass cap sendCap command successMsg allowTime p ps run ptr buf sent hel0 hI]
    cases k with
    | zero =>
      rw [arrived_zero] at hfit
      rw [arrived_cons, arrived_zero] at hover
      simp only [List.length_nil, Nat.add_zero, List.append_nil] at hfit hover
      rw [if_pos (getATdata_overflow cap p.rx buf ptr hfit hover)]
      exact ⟨rfl, rfl, rfl⟩
    | succ k' =>
      rw [arrived_cons] at hfit hover
      simp only [List.length_append] at hfit hover
      obtain ⟨g2, glen, gtake, gcstr⟩ :=
        getATdata_fit cap p.rx buf ptr hlen (by omega) hcap
      have hne : ¬ (getATdata cap buf ptr p.rx).2 = -1 := by rw [g2]; omega
      have hnf : ¬ (0 < strlen successMsg ∧
          (strstr (cstr (getATdata cap buf ptr p.rx).1) (cstr successMsg)).isSome) := by
        intro h
        apply hnos 0 (Nat.succ_pos k')
        refine ⟨h.1, ?_⟩
        rw [arrived_cons, arrived_zero, List.append_nil, ← gcstr, ← strstr_isSome_iff_contains]
        exact h.2
      rw [if_neg hne, if_neg hnf]
      have hnat : (getATdata cap buf ptr p.rx).2.toNat = ptr + p.rx.length := by
        rw [g2]; omega
      rw [hnat]
      apply ih k' _ (ptr + p.rx.length) _ _ glen
      · intro hrun hc
        exact absurd hc (fun hc => runCommand_after command run _ (fun hb => by
          rcases hbusy with h0 | hnb
          · exact h0
          · exfalso
            apply hnb 0 (Nat.succ_pos k')
            rw [arrived_cons, arrived_zero, List.append_nil, ← gcstr,
              ← strstr_isSome_iff_contains]
            exact hb) hrun hc)
      · simpa using hk
      · intro q hq
        exact hel q (by simp [List.take_succ_cons, hq])
      · omega
      · omega
      · intro m hm
        have := hnos (m + 1) (by omega)
        rw [arrived_cons, ← List.append_assoc] at this
        rw [gtake]; exact this
      · rcases hbusy with h0 | hnb
        · exact Or.inl h0
        · refine Or.inr (fun m hm => ?_)
          have := hnb (m + 1) (by omega)
          rw [arrived_cons, ← List.append_assoc] at this
          rw [gtake]; exact this

/-! ## Claims on the response scanner: absent delimiters -/

theorem getParam_end_missing (base : Nat) (buf : List Char) (off : Nat)
    (startStr endStr : List Char) (i : Nat) (hbase : 0 < base)
    (hlayout : base + buf.length ≤ 2147483648) (hterm : NUL ∈ buf.drop off)
    (hi : FirstAt (cstr startStr) (cstr (buf.drop off)) i)
    (hno : ∀ k, ¬ OccursAt (cstr endStr)
      ((cstr (buf.drop off)).drop (i + strlen startStr)) k) :
    getParam base buf off startStr endStr
      = some (((off + i + strlen startStr : Nat) : Int),
              - ((base + off + i + strlen startStr : Nat) : Int)) := by
  have hib := occursAt_bound hi.1
  have hlt := cstr_length_lt hterm
  have hlen : (buf.drop off).length = buf.length - off := List.length_drop _ _
  have hterm2 : NUL ∈ buf.drop (off + i + strlen startStr) := by
    have := nul_mem_drop hterm (n := i + strlen startStr) hib
    rwa [List.drop_drop, ← Nat.add_assoc] at this
  have hc2 : cstr (buf.drop (off + i + strlen startStr))
      = (cstr (buf.drop off)).drop (i + strlen startStr) := by
    have := cstr_drop (l := buf.drop off) (n := i + strlen startStr) hib
    rwa [List.drop_drop, ← Nat.add_assoc] at this
  have hs1 := strstrPtr_inside base buf off startStr hterm
  rw [strstr_of_firstAt hi] at hs1
  have hs2 := strstrPtr_inside base buf (off + i + strlen startStr) endStr hterm2
  rw [hc2, strstr_none_of_not_occurs hno] at hs2
  have hp : (base : Int) + (off : Int) + (i : Int) + ((strlen startStr : Nat) : Int)
      = (base : Int) + ((off + i + strlen startStr : Nat) : Int) := by push_cast; ring
  unfold getParam
  simp only [hs1, Option.bind_eq_bind, Option.some_bind, hp, hs2, Option.pure_def]
  have e1 : (base : Int) + ((off + i + strlen startStr : Nat) : Int) - (base : Int)
      = ((off + i + strlen startStr : Nat) : Int) := by ring
  have e2 : toInt32 (0 - ((base : Int) + ((off + i + strlen startStr : Nat) : Int)))
      = - ((base + off + i + strlen startStr : Nat) : Int) := by
    unfold toInt32 strlen at *
    omega
  unfold strlen at *
  rw [e1, e2, toInt32_of_nat (by omega)]

/-- C3 (amended): on the RP2040 layout (the receive buffer at a positive
address, ending at or below 2^31), when the start delimiter occurs in the
string at the offset and the end delimiter does not occur behind its first
occurrence, getParam returns the null pointer minus the address of the span
start, a negative value and so distinct from the 0 of an empty span, and sets
the offset to the span start.  getParam computes an offset and a length only:
it has no write to the receive buffer. -/
theorem getParam_missing_end_negative (base : Nat) (buf : List Char) (valOffset : Nat)
    (startStr endStr : List Char) (hbase : 0 < base)
    (hlayout : base + buf.length ≤ 2147483648) (hterm : NUL ∈ buf.drop valOffset)
    (hstart : ∃ k, OccursAt (cstr startStr) (cstr (buf.drop valOffset)) k)
    (hend : ∀ i, FirstAt (cstr startStr) (cstr (buf.drop valOffset)) i →
      ∀ k, ¬ OccursAt (cstr endStr)
        ((cstr (buf.drop valOffset)).drop (i + strlen startStr)) k) :
    ∃ i, FirstAt (cstr startStr) (cstr (buf.drop valOffset)) i ∧
      getParam base buf valOffset startStr endStr
        = some (((valOffset + i + strlen startStr : Nat) : Int),
                - ((base + valOffset + i + strlen startStr : Nat) : Int)) ∧
      - ((base + valOffset + i + strlen startStr : Nat) : Int) < 0 := by
  obtain ⟨k, hk⟩ := hstart
  obtain ⟨i, _, hi⟩ := exists_firstAt hk
  refine ⟨i, hi, getParam_end_missing base buf valOffset startStr endStr i hbase hlayout
    hterm hi (hend i hi), ?_⟩
  omega

set_option maxRecDepth 100000 in
/-- Witness of `getParam_missing_end_negative`: the reply `+SYSADC:512` cut
off before its carriage return, scanned as in ESP8266analogRead. -/
theorem getParam_missing_end_negative_witness :
    ∃ i, FirstAt (cstr ":".toList) (cstr ((mkBuffer RESPONSEBUFFERLEN "+SYSADC:512".toList).drop 0)) i ∧
      getParam bufferAddress (mkBuffer RESPONSEBUFFERLEN "+SYSADC:512".toList) 0 ":".toList "\r".toList
        = some (((0 + i + strlen ":".toList : Nat) : Int),
                - ((bufferAddress + 0 + i + strlen ":".toList : Nat) : Int)) ∧
      - ((bufferAddress + 0 + i + strlen ":".toList : Nat) : Int) < 0 := by
  refine getParam_missing_end_negative bufferAddress _ 0 ":".toList "\r".toList (by decide)
    (by decide) (by decide) ⟨7, by unfold OccursAt; decide⟩ ?_
  intro i hi
  have h7 : FirstAt (cstr ":".toList) (cstr ((mkBuffer RESPONSEBUFFERLEN "+SYSADC:512".toList).drop 0)) 7 := by
    unfold FirstAt OccursAt; decide
  have e := firstAt_unique hi h7
  subst e
  intro k hk
  have hnone : strstr ((cstr ((mkBuffer RESPONSEBUFFERLEN "+SYSADC:512".toList).drop 0)).drop
      (7 + strlen ":".toList)) (cstr "\r".toList) = none := by decide
  have hsome := strstr_isSome_iff.2 ⟨k, hk⟩
  rw [hnone] at hsome
  exact absurd hsome (by decide)

set_option maxRecDepth 100000 in
/-- C3 (counterexample): the receive buffer holds the reply ERROR, without the
start delimiter `:` that ESP8266analogRead scans for.  strstr gives the null
pointer, the scan for the end delimiter starts at address 1, outside the
objects of the program: no length is returned, in particular no negative
one. -/
theorem getParam_missing_start_undefined :
    strstr (cstr ((mkBuffer RESPONSEBUFFERLEN "\r\nERROR\r\n".toList).drop 0)) (cstr ":".toList) = none ∧
    getParam bufferAddress (mkBuffer RESPONSEBUFFERLEN "\r\nERROR\r\n".toList) 0 ":".toList "\r".toList = none ∧
    ¬ ∃ r, getParam bufferAddress (mkBuffer RESPONSEBUFFERLEN "\r\nERROR\r\n".toList) 0 ":".toList "\r".toList
        = some r ∧ r.2 < 0 := by
  have h : getParam bufferAddress (mkBuffer RESPONSEBUFFERLEN "\r\nERROR\r\n".toList) 0 ":".toList "\r".toList
      = none := by decide
  refine ⟨by decide, h, ?_⟩
  rintro ⟨r, hr, _⟩
  rw [h] at hr
  exact absurd hr (by simp)

/-! ## Claims on the AT transport engine -/

/-- C4 (amended): for every command, time budget, non-empty success token and
sequence of arrivals: if at some pass begun before the deadline the bytes
arrived so far fit the receive buffer (at most RESPONSEBUFFERLEN-1 of them),
the string they form contains the success token, and no earlier pass of a
non-empty command left the busy marker in the buffer (which restarts the
accumulation), processATcommand returns true. -/
theorem processATcommand_success (cap sendCap : Nat) (buf command successMsg : List Char)
    (allowTime : Int) (polls : List Poll) (k : Nat)
    (hbuf : buf.length = cap) (hcap : 1 ≤ cap) (htoken : 0 < strlen successMsg)
    (hk : k < polls.length)
    (hbefore : ∀ p ∈ polls.take (k + 1), p.elapsed < allowTime * MICROS)
    (hfit : (arrived polls (k + 1)).length ≤ cap - 1)
    (hfound : cstr successMsg <:+: cstr (arrived polls (k + 1)))
    (hbusy : strlen command = 0 ∨
      ∀ m, m < k → ¬ busyMarker <:+: cstr (arrived polls (m + 1))) :
    (processATcommand cap sendCap buf command allowTime successMsg polls).ok = true := by
  unfold processATcommand
  apply atLoop_success cap sendCap command successMsg (allowTime * MICROS) hcap htoken polls k
    true 0 buf [] hbuf (fun _ _ => rfl) hk hbefore
  · simpa using hfit
  · simpa using hfound
  · simpa using hbusy

set_option maxRecDepth 100000 in
/-- Witness of `processATcommand_success`: the reply OK to the command GMR. -/
theorem processATcommand_success_witness :
    (processATcommand RESPONSEBUFFERLEN SENDBUFFERLEN (mkBuffer RESPONSEBUFFERLEN []) "GMR".toList 2 "OK".toList
      [{ elapsed := 12, rx := "\r\nOK\r\n".toList }]).ok = true :=
  processATcommand_success RESPONSEBUFFERLEN SENDBUFFERLEN (mkBuffer RESPONSEBUFFERLEN []) "GMR".toList "OK".toList 2
    [{ elapsed := 12, rx := "\r\nOK\r\n".toList }] 0 (by decide) (by decide) (by decide)
    (by decide) (by decide) (by decide) (by decide) (Or.inr (fun m hm => absurd hm (by omega)))

set_option maxRecDepth 100000 in
/-- C4 (counterexample): a reply of 1000 characters followed by OK arrives in
the first pass, well before the deadline of 2 seconds.  The accumulated
response contains the success token, yet processATcommand takes the
"response is too long" exit and returns false. -/
theorem processATcommand_token_but_tooLong :
    (12 : Int) < 2 * MICROS ∧
    "OK".toList <:+: cstr (arrived
      [{ elapsed := 12, rx := List.replicate 1000 'x' ++ "\r\nOK\r\n".toList }] 1) ∧
    (processATcommand RESPONSEBUFFERLEN SENDBUFFERLEN (mkBuffer RESPONSEBUFFERLEN []) "CWLAP".toList 2 "OK".toList
      [{ elapsed := 12, rx := List.replicate 1000 'x' ++ "\r\nOK\r\n".toList }]).ok = false ∧
    (processATcommand RESPONSEBUFFERLEN SENDBUFFERLEN (mkBuffer RESPONSEBUFFERLEN []) "CWLAP".toList 2 "OK".toList
      [{ elapsed := 12, rx := List.replicate 1000 'x' ++ "\r\nOK\r\n".toList }]).tooLong
        = true := by
  refine ⟨by decide, ?_, by decide, by decide⟩
  exact ⟨List.replicate 1000 'x' ++ "\r\n".toList, "\r\n".toList, by decide⟩

/-- C5 (amended): if, in a pass begun before the deadline, the bytes arrived
grow beyond RESPONSEBUFFERLEN-1, while no earlier pass had left the success
token in the buffer (which ends the command with success) nor, for a
non-empty command, the busy marker (which restarts the accumulation), then
processATcommand ends with the too-long outcome: getATdata returns -1 and the
command returns false, wherever a success token lies in the bytes of that
pass and however the bytes before were split into passes. -/
theorem processATcommand_tooLong (cap sendCap : Nat) (buf command successMsg : List Char)
    (allowTime : Int) (polls : List Poll) (k : Nat)
    (hbuf : buf.length = cap) (hcap : 1 ≤ cap) (hk : k < polls.length)
    (hbefore : ∀ p ∈ polls.take (k + 1), p.elapsed < allowTime * MICROS)
    (hfit : (arrived polls k).length ≤ cap - 1)
    (hover : cap - 1 < (arrived polls (k + 1)).length)
    (hnos : ∀ m, m < k → ¬ (0 < strlen successMsg ∧
      cstr successMsg <:+: cstr (arrived polls (m + 1))))
    (hbusy : strlen command = 0 ∨
      ∀ m, m < k → ¬ busyMarker <:+: cstr (arrived polls (m + 1))) :
    (processATcommand cap sendCap buf command allowTime successMsg polls).tooLong = true ∧
    (processATcommand cap sendCap buf command allowTime successMsg polls).ok = false ∧
    (processATcommand cap sendCap buf command allowTime successMsg polls).buffPtr = -1 := by
  unfold processATcommand
  apply atLoop_overflow cap sendCap command successMsg (allowTime * MICROS) hcap polls k
    true 0 buf [] hbuf (fun _ _ => rfl) hk hbefore
  · simpa using hfit
  · simpa using hover
  · simpa using hnos
  · simpa using hbusy

set_option maxRecDepth 100000 in
/-- Witness of `processATcommand_tooLong`: 600 and then 400 characters, the
second batch followed by OK. -/
theorem processATcommand_tooLong_witness :
    (processATcommand RESPONSEBUFFERLEN SENDBUFFERLEN (mkBuffer RESPONSEBUFFERLEN []) "CWLAP".toList 2 "OK".toList
      [{ elapsed := 12, rx := List.replicate 600 'x' },
       { elapsed := 900, rx := List.replicate 400 'x' ++ "\r\nOK\r\n".toList }]).tooLong = true ∧
    (processATcommand RESPONSEBUFFERLEN SENDBUFFERLEN (mkBuffer RESPONSEBUFFERLEN []) "CWLAP".toList 2 "OK".toList
      [{ elapsed := 12, rx := List.replicate 600 'x' },
       { elapsed := 900, rx := List.replicate 400 'x' ++ "\r\nOK\r\n".toList }]).ok = false ∧
    (processATcommand RESPONSEBUFFERLEN SENDBUFFERLEN (mkBuffer RESPONSEBUFFERLEN []) "CWLAP".toList 2 "OK".toList
      [{ elapsed := 12, rx := List.replicate 600 'x' },
       { elapsed := 900, rx := List.replicate 400 'x' ++ "\r\nOK\r\n".toList }]).buffPtr = -1 := by
  refine processATcommand_tooLong RESPONSEBUFFERLEN SENDBUFFERLEN (mkBuffer RESPONSEBUFFERLEN []) "CWLAP".toList "OK".toList 2
    [{ elapsed := 12, rx := List.replicate 600 'x' },
     { elapsed := 900, rx := List.replicate 400 'x' ++ "\r\nOK\r\n".toList }] 1
    (by decide) (by decide) (by decide) (by decide) (by decide) (by decide) ?_ ?_
  · intro m hm
    have hm0 : m = 0 := by omega
    subst hm0
    rintro ⟨_, hin⟩
    have hsome := strstr_isSome_iff_contains.2 hin
    have hnone : strstr (cstr (arrived
        [{ elapsed := 12, rx := List.replicate 600 'x' },
         { elapsed := 900, rx := List.replicate 400 'x' ++ "\r\nOK\r\n".toList }] (0 + 1)))
        (cstr "OK".toList) = none := by decide
    rw [hnone] at hsome
    exact absurd hsome (by decide)
  · refine Or.inr (fun m hm => ?_)
    have hm0 : m = 0 := by omega
    subst hm0
    intro hin
    have hsome := strstr_isSome_iff_contains.2 hin
    have hnone : strstr (cstr (arrived
        [{ elapsed := 12, rx := List.replicate 600 'x' },
         { elapsed := 900, rx := List.replicate 400 'x' ++ "\r\nOK\r\n".toList }] (0 + 1)))
        busyMarker = none := by decide
    rw [hnone] at hsome
    exact absurd hsome (by decide)

set_option maxRecDepth 100000 in
/-- C5 (counterexample): the full response, OK followed by 1000 further
characters, arrives within the budget of 2 seconds and is longer than
RESPONSEBUFFERLEN-1 = 999.  The first drain delivers the OK, so
processATcommand returns true and never reaches the too-long outcome. -/
theorem processATcommand_long_response_success :
    ((900 : Int) < 2 * MICROS ∧
      RESPONSEBUFFERLEN - 1 < (arrived [{ elapsed := 12, rx := "\r\nOK\r\n".toList },
                      { elapsed := 900, rx := List.replicate 1000 'x' }] 2).length) ∧
    (processATcommand RESPONSEBUFFERLEN SENDBUFFERLEN (mkBuffer RESPONSEBUFFERLEN []) "CWLAP".toList 2 "OK".toList
      [{ elapsed := 12, rx := "\r\nOK\r\n".toList },
       { elapsed := 900, rx := List.replicate 1000 'x' }]).ok = true ∧
    (processATcommand RESPONSEBUFFERLEN SENDBUFFERLEN (mkBuffer RESPONSEBUFFERLEN []) "CWLAP".toList 2 "OK".toList
      [{ elapsed := 12, rx := "\r\nOK\r\n".toList },
       { elapsed := 900, rx := List.replicate 1000 'x' }]).tooLong = false := by
  decide

/-! ## First occurrences in structured text -/

theorem occursAt_append (d a b : List Char) : OccursAt d (a ++ d ++ b) a.length := by
  refine ⟨by simp, b, ?_⟩
  simp

/-- A delimiter whose first character does not occur in `a` is first found
behind `a`. -/
theorem firstAt_of_head_not_mem (c : Char) (d a b : List Char) (h : c ∉ a) :
    FirstAt (c :: d) (a ++ (c :: d) ++ b) a.length := by
  refine ⟨occursAt_append _ _ _, ?_⟩
  intro k hk hocc
  obtain ⟨_, t, ht⟩ := hocc
  have hget : (a ++ (c :: d) ++ b)[k]? = some c := by
    have h1 : (List.drop k (a ++ (c :: d) ++ b))[0]? = some c := by rw [← ht]; simp
    simpa using h1
  rw [List.append_assoc, List.getElem?_append_left hk] at hget
  exact h (List.getElem?_mem hget)

/-- A delimiter whose last character occurs neither in `a` nor earlier in the
delimiter is first found behind `a`. -/
theorem firstAt_of_last_not_mem (c : Char) (d a b : List Char) (ha : c ∉ a) (hd : c ∉ d) :
    FirstAt (d ++ [c]) (a ++ (d ++ [c]) ++ b) a.length := by
  refine ⟨occursAt_append _ _ _, ?_⟩
  intro k hk hocc
  obtain ⟨_, t, ht⟩ := hocc
  have hget : (a ++ (d ++ [c]) ++ b)[k + d.length]? = some c := by
    have h1 : (List.drop k (a ++ (d ++ [c]) ++ b))[d.length]? = some c := by
      rw [← ht, List.append_assoc, List.getElem?_append_right (Nat.le_refl _)]
      simp
    simpa using h1
  have hlt : k + d.length < (a ++ d).length := by simp; omega
  have e : a ++ (d ++ [c]) ++ b = (a ++ d) ++ ([c] ++ b) := by simp
  rw [e, List.getElem?_append_left hlt] at hget
  have := List.getElem?_mem hget
  rcases List.mem_append.1 this with h | h
  · exact ha h
  · exact hd h

/-! ## Copies out of the receive buffer -/

theorem take_drop_cstr {l : List Char} {o n : Nat} (h : o + n ≤ (cstr l).length) :
    (l.drop o).take n = ((cstr l).drop o).take n := by
  obtain ⟨t, ht⟩ : cstr l <+: l := List.takeWhile_prefix _
  have e : l.drop o = (cstr l).drop o ++ t := by
    conv_lhs => rw [← ht]
    rw [List.drop_append_of_le_length (by omega)]
  rw [e, List.take_append_of_le_length (by simp; omega)]

theorem copySpan_inside {buf : List Char} {o n : Nat} (h : o + n ≤ (cstr buf).length) :
    copySpan buf (o : Int) (n : Int) = some (((cstr buf).drop o).take n) := by
  have hle := cstr_length_le buf
  unfold copySpan
  rw [if_pos ⟨by omega, by omega, by omega⟩]
  simp only [Int.toNat_ofNat, take_drop_cstr h]
  congr 1
  apply cstr_of_not_mem
  intro hm
  exact nul_not_mem_cstr buf (List.mem_of_mem_drop (List.mem_of_mem_take hm))

/-! ## Scanning structured text -/

/-- The scanner on a buffer whose string is `P ++ a ++ S ++ mid ++ E ++ b`,
started behind `P`, when `S` and `E` are first found where this layout shows
them: it reports the span `mid`. -/
theorem getParam_split (base : Nat) (buf : List Char) (startStr endStr P a S mid E b : List Char)
    (hbuf : buf.length < 2147483648) (hterm : NUL ∈ buf)
    (htext : cstr buf = P ++ (a ++ S ++ (mid ++ E ++ b)))
    (hS : cstr startStr = S) (hE : cstr endStr = E)
    (h1 : FirstAt S (a ++ S ++ (mid ++ E ++ b)) a.length)
    (h2 : FirstAt E (mid ++ E ++ b) mid.length) :
    getParam base buf ((P.length : Nat) : Int) startStr endStr
      = some (((P.length + a.length + S.length : Nat) : Int), ((mid.length : Nat) : Int)) ∧
    copySpan buf ((P.length + a.length + S.length : Nat) : Int) ((mid.length : Nat) : Int)
      = some mid := by
  have hlenT : (cstr buf).length
      = P.length + (a.length + S.length + (mid.length + E.length + b.length)) := by
    rw [htext]; simp only [List.length_append]
  have hP : P.length ≤ (cstr buf).length := by omega
  have hterm' : NUL ∈ buf.drop P.length := nul_mem_drop hterm hP
  have hc : cstr (buf.drop P.length) = a ++ S ++ (mid ++ E ++ b) := by
    rw [cstr_drop hP, htext, List.drop_left]
  have hsl : strlen startStr = S.length := by unfold strlen; rw [hS]
  constructor
  · have := getParam_found base buf P.length startStr endStr a.length mid.length hbuf hterm'
      (by rw [hS, hc]; exact h1)
      (by
        rw [hE, hc, hsl]
        have e : List.drop (a.length + S.length) (a ++ S ++ (mid ++ E ++ b)) = mid ++ E ++ b := by
          simp
        rw [e]; exact h2)
    rw [this, hsl]
  · rw [copySpan_inside (by omega), htext]
    congr 1
    have e : List.drop (P.length + a.length + S.length) (P ++ (a ++ S ++ (mid ++ E ++ b)))
        = mid ++ (E ++ b) := by
      simp [Nat.add_assoc]
    rw [e, List.take_left]

/-! ## Parsing the request -/

theorem strncmpEq_POST {method : List Char} :
    strncmpEq method "POST".toList 4 = true ↔ "POST".toList <+: method := by
  rcases method with _ | ⟨a, _ | ⟨b, _ | ⟨c, _ | ⟨d, t⟩⟩⟩⟩
  · simp [strncmpEq]
  · simp [strncmpEq]
  · simp [strncmpEq]
  · simp [strncmpEq]
    intro ha hb hc hd
    exact absurd hd (by decide)
  · simp [strncmpEq, List.prefix_cons_inj]
    constructor <;> rintro ⟨rfl, rfl, rfl, rfl⟩ <;> exact ⟨rfl, rfl, rfl, rfl⟩

/-- Method and URL of a buffer whose string is
`pre:method url HTTPrest`. -/
theorem parse_method_url (base : Nat) (buf pre method url rest : List Char)
    (hbuf : buf.length < 2147483648) (hterm : NUL ∈ buf)
    (htext : cstr buf = pre ++ ":".toList ++ method ++ " ".toList ++ url ++ " HTTP".toList ++ rest)
    (hpre : ':' ∉ pre) (hmethod : ' ' ∉ method) (hurl : ' ' ∉ url) :
    getParam base buf 0 ":".toList " ".toList
      = some (((pre.length + 1 : Nat) : Int), ((method.length : Nat) : Int)) ∧
    copySpan buf ((pre.length + 1 : Nat) : Int) ((method.length : Nat) : Int) = some method ∧
    getParam base buf ((pre.length + 1 : Nat) + (method.length : Nat) : Int)
        " ".toList " HTTP".toList
      = some (((pre.length + 1 + method.length + 1 : Nat) : Int), ((url.length : Nat) : Int)) ∧
    copySpan buf ((pre.length + 1 + method.length + 1 : Nat) : Int) ((url.length : Nat) : Int)
      = some url := by
  have s1 := getParam_split base buf ":".toList " ".toList [] pre [':'] method [' ']
    (url ++ " HTTP".toList ++ rest) hbuf hterm (by rw [htext]; simp) (by decide) (by decide)
    (firstAt_of_head_not_mem ':' [] pre _ hpre)
    (firstAt_of_head_not_mem ' ' [] method _ hmethod)
  have s2 := getParam_split base buf " ".toList " HTTP".toList (pre ++ ":".toList ++ method)
    [] [' '] url " HTTP".toList rest hbuf hterm (by rw [htext]; simp) (by decide) (by decide)
    (firstAt_of_head_not_mem ' ' [] [] _ (by simp))
    (firstAt_of_head_not_mem ' ' "HTTP".toList url _ hurl)
  simp only [List.length_nil, List.length_singleton, Nat.zero_add, Nat.cast_zero,
    List.length_append, String.toList, Nat.add_zero] at s1 s2
  refine ⟨s1.1, s1.2, ?_, ?_⟩
  · have := s2.1
    push_cast at this ⊢
    simpa using this
  · have := s2.2
    simpa using this

theorem parseRequest_plain (base : Nat) (buf pre method url rest : List Char)
    (hbuf : buf.length < 2147483648) (hterm : NUL ∈ buf)
    (htext : cstr buf = pre ++ ":".toList ++ method ++ " ".toList ++ url ++ " HTTP".toList ++ rest)
    (hpre : ':' ∉ pre) (hmethod : ' ' ∉ method) (hurl : ' ' ∉ url)
    (hnp : ¬ "POST".toList <+: method) :
    parseRequest base buf = some
      { method := method
        urlOffset := ((pre.length + 1 + method.length + 1 : Nat) : Int)
        urlLen := ((url.length : Nat) : Int)
        jsonOffset := ((pre.length + 1 + method.length + 1 : Nat) : Int) + ((url.length : Nat) : Int)
        jsonLen := 0
        core0msg := url } ∧
    copySpan buf ((pre.length + 1 + method.length + 1 : Nat) : Int) ((url.length : Nat) : Int)
      = some url := by
  obtain ⟨h1, h2, h3, h4⟩ :=
    parse_method_url base buf pre method url rest hbuf hterm htext hpre hmethod hurl
  have hs : strncmpEq method "POST".toList 4 = false := by
    rw [Bool.eq_false_iff]
    exact fun h => hnp (strncmpEq_POST.1 h)
  refine ⟨?_, h4⟩
  unfold parseRequest
  simp only [h1, Option.bind_eq_bind, Option.some_bind, h2, h3, hs, Option.pure_def, h4]
  simp

theorem parseRequest_post (base : Nat) (buf pre method url hdr body rest : List Char)
    (hbuf : buf.length < 2147483648) (hterm : NUL ∈ buf)
    (htext : cstr buf = pre ++ ":".toList ++ method ++ " ".toList ++ url ++ " HTTP".toList ++ hdr
      ++ "\r\n\r\n\x7b".toList ++ body ++ "\x7d".toList ++ rest)
    (hpre : ':' ∉ pre) (hmethod : ' ' ∉ method) (hurl : ' ' ∉ url)
    (hpost : "POST".toList <+: method) (hhdr : '\x7b' ∉ hdr) (hbody : '\x7d' ∉ body)
    (hne : body ≠ []) :
    parseRequest base buf = some
      { method := method
        urlOffset := ((pre.length + 1 + method.length + 1 : Nat) : Int)
        urlLen := ((url.length : Nat) : Int)
        jsonOffset := ((pre.length + 1 + method.length + 1 + url.length + (5 + hdr.length) + 5
          : Nat) : Int)
        jsonLen := ((body.length : Nat) : Int)
        core0msg := url ++ ",".toList ++ body } ∧
    copySpan buf ((pre.length + 1 + method.length + 1 : Nat) : Int) ((url.length : Nat) : Int)
      = some url ∧
    copySpan buf ((pre.length + 1 + method.length + 1 + url.length + (5 + hdr.length) + 5
      : Nat) : Int) ((body.length : Nat) : Int) = some body := by
  obtain ⟨h1, h2, h3, h4⟩ :=
    parse_method_url base buf pre method url
      (hdr ++ "\r\n\r\n\x7b".toList ++ body ++ "\x7d".toList ++ rest) hbuf hterm
      (by rw [htext]; simp) hpre hmethod hurl
  have hs : strncmpEq method "POST".toList 4 = true := strncmpEq_POST.2 hpost
  have s3 := getParam_split base buf "\r\n\r\n\x7b".toList "\x7d".toList
    (pre ++ ":".toList ++ method ++ " ".toList ++ url) (" HTTP".toList ++ hdr)
    ("\r\n\r\n".toList ++ ['\x7b']) body ['\x7d'] rest hbuf hterm (by rw [htext]; simp)
    (by decide) (by decide)
    (firstAt_of_last_not_mem '\x7b' "\r\n\r\n".toList (" HTTP".toList ++ hdr) _
      (by simp [hhdr]) (by decide))
    (firstAt_of_head_not_mem '\x7d' [] body _ hbody)
  have hoff : (((pre ++ ":".toList ++ method ++ " ".toList ++ url).length : Nat) : Int)
      = ((pre.length + 1 + method.length + 1 : Nat) : Int) + ((url.length : Nat) : Int) := by
    simp only [List.length_append, String.toList, List.length_cons, List.length_nil]
    push_cast; ring
  have hres : (((pre ++ ":".toList ++ method ++ " ".toList ++ url).length
      + (" HTTP".toList ++ hdr).length + ("\r\n\r\n".toList ++ ['\x7b']).length : Nat) : Int)
      = ((pre.length + 1 + method.length + 1 + url.length + (5 + hdr.length) + 5 : Nat) : Int) := by
    simp only [List.length_append, String.toList, List.length_cons, List.length_nil]
  rw [hoff, hres] at s3
  have hpos : (0 : Int) < ((body.length : Nat) : Int) := by
    have := List.length_pos.2 hne
    omega
  have hroom : ((url.length : Nat) : Int) + 1 ≤ ((url.length : Nat) : Int)
      + ((body.length : Nat) : Int) + 2 := by omega
  refine ⟨?_, h4, s3.2⟩
  unfold parseRequest
  simp only [h1, Option.bind_eq_bind, Option.some_bind, h2, h3, hs, Option.pure_def, h4,
    if_true, s3.1, s3.2, hpos, hroom]

/-! ## The chunk loop -/

theorem chunkLoop_spec (cap sendCap : Nat) (id webOutStr : List Char) (hcap : 2 ≤ sendCap) :
    ∀ (fuel webOutLeft webOutStrPtr : Nat) (lk : Link), webOutLeft ≤ fuel →
      webOutStrPtr + webOutLeft = strlen webOutStr →
      ∃ frames lk', chunkLoop cap sendCap id webOutStr fuel webOutLeft webOutStrPtr lk
          = some (frames, lk') ∧
        (∀ f ∈ frames, FrameOK sendCap id f) ∧
        (frames.map Frame.data).flatten = (cstr webOutStr).drop webOutStrPtr ∧
        (frames.map Frame.declared).sum = webOutLeft := by
  intro fuel
  induction fuel with
  | zero =>
    intro left ptr lk hle hlen
    have h0 : left = 0 := by omega
    subst h0
    refine ⟨[], lk, by simp [chunkLoop], by simp, ?_, by simp⟩
    unfold strlen at hlen
    simp at hlen
    simp [← hlen]
  | succ n ih =>
    intro left ptr lk hle hlen
    by_cases hpos : 0 < left
    · simp only [chunkLoop, hpos, if_true]
      set packetLen := if left < sendCap then left else sendCap - 1 with hp
      have hp1 : 1 ≤ packetLen := by rw [hp]; split <;> omega
      have hp2 : packetLen ≤ sendCap - 1 := by rw [hp]; split <;> omega
      have hp3 : packetLen ≤ left := by rw [hp]; split <;> omega
      set r1 := lk.command cap sendCap (snprintf sendCap (cipsendText id packetLen)) 2
        ">".toList with hr1
      set lk2 := (Link.command cap sendCap
        (r1.2.puts ((webOutStr.drop ptr).take packetLen ++ [NUL])) [] 5 "OK".toList) with hlk2
      obtain ⟨frames, lk', hrun, hok, hcat, hsum⟩ :=
        ih (left - packetLen) (ptr + packetLen) lk2.2 (by omega) (by omega)
      have hin : (webOutStr.drop ptr).take packetLen
          = ((cstr webOutStr).drop ptr).take packetLen :=
        take_drop_cstr (by unfold strlen at hlen; omega)
      have hslice : NUL ∉ (webOutStr.drop ptr).take packetLen := fun m => by
        rw [hin] at m
        exact nul_not_mem_cstr webOutStr (List.mem_of_mem_drop (List.mem_of_mem_take m))
      have hdata : cstr ((webOutStr.drop ptr).take packetLen ++ [NUL])
          = ((cstr webOutStr).drop ptr).take packetLen := by
        rw [cstr_append_nul [] hslice, hin]
      refine ⟨{ declared := packetLen, command := snprintf sendCap (cipsendText id packetLen),
                prepare := r1.1.ok,
                data := cstr ((webOutStr.drop ptr).take packetLen ++ [NUL]),
                confirm := lk2.1.ok } :: frames, lk', ?_, ?_, ?_, ?_⟩
      · rw [hrun]; rfl
      · intro f hf
        rcases List.mem_cons.1 hf with rfl | hf
        · refine ⟨hp1, hp2, ?_, rfl, fun hfit => snprintf_of_lt hfit⟩
          simp only [hdata, List.length_take, List.length_drop]
          unfold strlen at hlen
          omega
        · exact hok f hf
      · simp only [List.map_cons, List.flatten_cons, hcat, hdata]
        rw [← List.drop_drop]
        exact List.take_append_drop _ _
      · simp only [List.map_cons, List.sum_cons, hsum]
        omega
    · have h0 : left = 0 := by omega
      subst h0
      refine ⟨[], lk, by simp [chunkLoop], by simp, ?_, by simp⟩
      unfold strlen at hlen
      simp at hlen
      simp [← hlen]

/-- C1 (amended): for every NUL-free payload and every SENDBUFFERLEN of at
least 2 the chunk loop of sendResponse terminates (any fuel of at least the
payload length suffices); each payload frame is prepared with a length between
1 and SENDBUFFERLEN-1 that equals the number of bytes sent in the frame, its
command is the text CIPSEND=id,N cut by snprintf to SENDBUFFERLEN-1 characters
and hence the full text whenever that text is shorter than SENDBUFFERLEN; the
frames' bytes concatenate to the payload and the lengths add up to its
length. -/
theorem chunkLoop_frames (cap sendCap : Nat) (id payload : List Char) (lk : Link)
    (fuel : Nat) (hcap : 2 ≤ sendCap) (hnul : NUL ∉ payload)
    (hfuel : payload.length ≤ fuel) :
    ∃ frames lk',
      chunkLoop cap sendCap id payload fuel (strlen payload) 0 lk = some (frames, lk') ∧
      (∀ f ∈ frames, 1 ≤ f.declared ∧ f.declared ≤ sendCap - 1 ∧
        f.data.length = f.declared ∧
        f.command = snprintf sendCap (cipsendText id f.declared) ∧
        ((cipsendText id f.declared).length < sendCap →
          f.command = cipsendText id f.declared)) ∧
      (frames.map Frame.data).flatten = payload ∧
      (frames.map Frame.declared).sum = payload.length := by
  have hl := strlen_of_not_mem hnul
  obtain ⟨frames, lk', h1, h2, h3, h4⟩ :=
    chunkLoop_spec cap sendCap id payload hcap fuel (strlen payload) 0 lk (by omega) (by simp)
  rw [cstr_of_not_mem hnul] at h3
  exact ⟨frames, lk', h1, h2, by simpa using h3, by omega⟩

set_option maxRecDepth 100000 in
/-- Witness of `chunkLoop_frames`: a five byte payload on the 500 byte send
buffer. -/
theorem chunkLoop_frames_witness :
    ∃ frames lk',
      chunkLoop RESPONSEBUFFERLEN SENDBUFFERLEN "0".toList "hello".toList 5 (strlen "hello".toList) 0
        ⟨mkBuffer RESPONSEBUFFERLEN [], frameReplies, []⟩ = some (frames, lk') ∧
      (∀ f ∈ frames, 1 ≤ f.declared ∧ f.declared ≤ SENDBUFFERLEN - 1 ∧
        f.data.length = f.declared ∧
        f.command = snprintf SENDBUFFERLEN (cipsendText "0".toList f.declared) ∧
        ((cipsendText "0".toList f.declared).length < SENDBUFFERLEN →
          f.command = cipsendText "0".toList f.declared)) ∧
      (frames.map Frame.data).flatten = "hello".toList ∧
      (frames.map Frame.declared).sum = "hello".toList.length :=
  chunkLoop_frames RESPONSEBUFFERLEN SENDBUFFERLEN "0".toList "hello".toList ⟨mkBuffer RESPONSEBUFFERLEN [], frameReplies, []⟩ 5
    (by decide) (by decide) (by decide)

set_option maxRecDepth 100000 in
/-- C1 (counterexample): with SENDBUFFERLEN = 5, connection 0 and the payload
abcde the loop issues two frames of 4 and 1 bytes, but snprintf leaves only
CIPS of each command in the send buffer and only AT+C reaches the UART: the
frames have no CIPSEND=0,N command whose N is the number of bytes sent. -/
theorem chunkLoop_small_buffer_cuts_command :
    (chunkLoop RESPONSEBUFFERLEN 5 "0".toList "abcde".toList 5 (strlen "abcde".toList) 0
        ⟨mkBuffer RESPONSEBUFFERLEN [], frameReplies ++ frameReplies, []⟩).map
      (fun r => (r.1.map (fun f => (f.command, f.data)), r.2.wire))
      = some ([("CIPS".toList, "abcd".toList), ("CIPS".toList, "e".toList)],
              ["AT+C".toList, "abcd".toList, "AT+C".toList, "e".toList]) ∧
    "CIPS".toList ≠ cipsendText "0".toList 4 ∧ "CIPS".toList ≠ cipsendText "0".toList 1 := by
  decide

/-! ## The shape of a response -/

theorem sendResponsePart_frame (cap sendCap : Nat) (id data : List Char) (lk : Link) :
    (sendResponsePart cap sendCap id data lk).1.data = cstr data ∧
    (sendResponsePart cap sendCap id data lk).1.declared = strlen data ∧
    (sendResponsePart cap sendCap id data lk).1.command
      = snprintf sendCap (cipsendText id (strlen data)) :=
  ⟨rfl, rfl, rfl⟩

/-- The test `webOutLeft > 0 && webOutStr[0] == '{'` says that the reply, as
a string, starts with an opening brace. -/
theorem json_test_iff (webOutStr : List Char) :
    (0 < strlen webOutStr ∧ webOutStr.head? = some '\x7b')
      ↔ (cstr webOutStr).head? = some '\x7b' := by
  cases webOutStr with
  | nil => simp [strlen, cstr]
  | cons a t =>
    by_cases ha : a = NUL
    · subst ha
      simp [strlen, cstr, List.takeWhile_cons]
    · simp [strlen, cstr, List.takeWhile_cons, ha]

theorem sendResponse_reply (base cap sendCap : Nat) (id webOutStr : List Char) (fuel : Nat)
    (lk : Link) (req : Request) (hp : parseRequest base lk.responseBuffer = some req)
    (hcap : 2 ≤ sendCap) (hfuel : strlen webOutStr ≤ fuel) :
    ∃ (h c : Frame) (chunks : List Frame) (f : Frame) (ok : Bool) (lk' : Link),
      sendResponse base cap sendCap id (some webOutStr) fuel lk
        = some ([Action.fifoPush req.core0msg, Action.frame h, Action.frame c]
            ++ chunks.map Action.frame
            ++ [Action.frame f, Action.close (snprintf sendCap (cipcloseText id)) ok], lk') ∧
      (h.data = httpHeader ∧ h.command = snprintf sendCap (cipsendText id h.data.length)) ∧
      (c.data = contentTypeFor webOutStr ∧
        c.command = snprintf sendCap (cipsendText id c.data.length)) ∧
      ((∀ x ∈ chunks, FrameOK sendCap id x) ∧
        (chunks.map Frame.data).flatten = cstr webOutStr) ∧
      (f.data = httpFooter ∧ f.command = snprintf sendCap (cipsendText id f.data.length)) := by
  set hh := sendResponsePart cap sendCap id httpHeader lk with hhd
  set cc := (if 0 < strlen webOutStr ∧ webOutStr.head? = some '\x7b' then
      sendResponsePart cap sendCap id jsonHeader hh.2
    else sendResponsePart cap sendCap id contentHeader hh.2) with ccd
  obtain ⟨chunks, lk2, hrun, hok, hcat, _⟩ :=
    chunkLoop_spec cap sendCap id webOutStr hcap fuel (strlen webOutStr) 0 cc.2 hfuel (by simp)
  refine ⟨hh.1, cc.1, chunks, (sendResponsePart cap sendCap id httpFooter lk2).1,
    ((sendResponsePart cap sendCap id httpFooter lk2).2.command cap sendCap
      (snprintf sendCap (cipcloseText id)) 2 "OK".toList).1.ok,
    ((sendResponsePart cap sendCap id httpFooter lk2).2.command cap sendCap
      (snprintf sendCap (cipcloseText id)) 2 "OK".toList).2, ?_, ?_, ?_, ?_, ?_⟩
  · unfold sendResponse
    simp only [hp, Option.bind_eq_bind, Option.some_bind, ← hhd, ← ccd, hrun, Option.pure_def]
  · have hd : cstr httpHeader = httpHeader := by decide
    refine ⟨hd, ?_⟩
    rw [hhd, (sendResponsePart_frame cap sendCap id httpHeader lk).2.2,
      (sendResponsePart_frame cap sendCap id httpHeader lk).1]
    rfl
  · have hj : cstr jsonHeader = jsonHeader := by decide
    have hc : cstr contentHeader = contentHeader := by decide
    unfold contentTypeFor
    rw [ccd]
    by_cases hb : 0 < strlen webOutStr ∧ webOutStr.head? = some '\x7b'
    · rw [if_pos hb, if_pos ((json_test_iff webOutStr).1 hb)]
      refine ⟨hj, ?_⟩
      rw [(sendResponsePart_frame cap sendCap id jsonHeader hh.2).2.2,
        (sendResponsePart_frame cap sendCap id jsonHeader hh.2).1]
      rfl
    · rw [if_neg hb, if_neg (fun h => hb ((json_test_iff webOutStr).2 h))]
      refine ⟨hc, ?_⟩
      rw [(sendResponsePart_frame cap sendCap id contentHeader hh.2).2.2,
        (sendResponsePart_frame cap sendCap id contentHeader hh.2).1]
      rfl
  · exact ⟨hok, by simpa using hcat⟩
  · have hd : cstr httpFooter = httpFooter := by decide
    refine ⟨hd, ?_⟩
    rw [(sendResponsePart_frame cap sendCap id httpFooter lk2).2.2,
      (sendResponsePart_frame cap sendCap id httpFooter lk2).1]
    rfl

/-! ## Claims on the HTTP framing layer -/

theorem sendResponse_starts (base cap sendCap : Nat) (id webOutStr : List Char) (fuel : Nat)
    (lk : Link) (req : Request) (hp : parseRequest base lk.responseBuffer = some req)
    (hcap : 2 ≤ sendCap) (hfuel : strlen webOutStr ≤ fuel) :
    ∃ rest lk', sendResponse base cap sendCap id (some webOutStr) fuel lk
      = some (Action.fifoPush req.core0msg :: rest, lk') := by
  obtain ⟨h, c, chunks, f, ok, lk', hrun, _⟩ :=
    sendResponse_reply base cap sendCap id webOutStr fuel lk req hp hcap hfuel
  exact ⟨[Action.frame h, Action.frame c] ++ chunks.map Action.frame
    ++ [Action.frame f, Action.close (snprintf sendCap (cipcloseText id)) ok], lk',
    by rw [hrun]; rfl⟩

/-- C8: for a receive buffer whose string is `pre:method url HTTPrest`, with no
colon in `pre`, no space in `method`, `method` not beginning with POST and no
space in `url`, the parsed method is `method` and the summary that
sendResponse pushes to core 0, before anything else, is exactly `url`. -/
theorem sendResponse_pushes_url (base : Nat) (buf pre method url rest : List Char)
    (hbuf : buf.length < 2147483648) (hterm : NUL ∈ buf)
    (htext : cstr buf = pre ++ ":".toList ++ method ++ " ".toList ++ url ++ " HTTP".toList ++ rest)
    (hpre : ':' ∉ pre) (hmethod : ' ' ∉ method) (hurl : ' ' ∉ url)
    (hnp : ¬ "POST".toList <+: method) :
    (parseRequest base buf).map Request.method = some method ∧
    (parseRequest base buf).map Request.core0msg = some url ∧
    ∀ (cap sendCap : Nat) (id webOutStr : List Char) (fuel : Nat) (env : List (List Poll))
      (wire : List (List Char)), 2 ≤ sendCap → strlen webOutStr ≤ fuel →
      ∃ more lk', sendResponse base cap sendCap id (some webOutStr) fuel ⟨buf, env, wire⟩
        = some (Action.fifoPush url :: more, lk') := by
  have hp := (parseRequest_plain base buf pre method url rest hbuf hterm htext hpre hmethod
    hurl hnp).1
  refine ⟨by rw [hp]; rfl, by rw [hp]; rfl, ?_⟩
  intro cap sendCap id webOutStr fuel env wire hcap hfuel
  exact sendResponse_starts base cap sendCap id webOutStr fuel ⟨buf, env, wire⟩ _ hp hcap hfuel

set_option maxRecDepth 100000 in
/-- Witness of `sendResponse_pushes_url`, end-to-end scenario 1: for the
notification `+IPD,0,18:GET / HTTP/1.1` the parsed method is GET and the
summary is `/`. -/
theorem sendResponse_pushes_url_witness :
    (parseRequest bufferAddress (mkBuffer RESPONSEBUFFERLEN "+IPD,0,18:GET / HTTP/1.1\r\n\r\n".toList)).map
      Request.method = some "GET".toList ∧
    (parseRequest bufferAddress (mkBuffer RESPONSEBUFFERLEN "+IPD,0,18:GET / HTTP/1.1\r\n\r\n".toList)).map
      Request.core0msg = some "/".toList ∧
    ∀ (cap sendCap : Nat) (id webOutStr : List Char) (fuel : Nat) (env : List (List Poll))
      (wire : List (List Char)), 2 ≤ sendCap → strlen webOutStr ≤ fuel →
      ∃ more lk', sendResponse bufferAddress cap sendCap id (some webOutStr) fuel
          ⟨mkBuffer RESPONSEBUFFERLEN "+IPD,0,18:GET / HTTP/1.1\r\n\r\n".toList, env, wire⟩
        = some (Action.fifoPush "/".toList :: more, lk') :=
  sendResponse_pushes_url bufferAddress (mkBuffer RESPONSEBUFFERLEN "+IPD,0,18:GET / HTTP/1.1\r\n\r\n".toList)
    "+IPD,0,18".toList "GET".toList "/".toList "/1.1\r\n\r\n".toList
    (by decide) (by decide) (by decide) (by decide) (by decide) (by decide) (by decide)

/-- C7 (amended): for a receive buffer whose string is
`pre:method url HTTPhdr`, a blank line, an opening brace, `body`, a closing
brace and `rest`, with `method` beginning with POST, no colon in `pre`, no
space in `method` and `url`, no opening brace in `hdr` and a non-empty `body`
without closing brace, the parsed URL is `url`, the parsed body is `body`,
the text between the braces, and the summary that sendResponse pushes to
core 0 is `url`, a comma, and `body` without its braces. -/
theorem sendResponse_post_summary (base : Nat)
    (buf pre method url hdr body rest : List Char)
    (hbuf : buf.length < 2147483648) (hterm : NUL ∈ buf)
    (htext : cstr buf = pre ++ ":".toList ++ method ++ " ".toList ++ url ++ " HTTP".toList ++ hdr
      ++ "\r\n\r\n\x7b".toList ++ body ++ "\x7d".toList ++ rest)
    (hpre : ':' ∉ pre) (hmethod : ' ' ∉ method) (hurl : ' ' ∉ url)
    (hpost : "POST".toList <+: method) (hhdr : '\x7b' ∉ hdr) (hbody : '\x7d' ∉ body)
    (hne : body ≠ []) :
    (parseRequest base buf).map Request.method = some method ∧
    (parseRequest base buf).bind (Request.url buf) = some url ∧
    (parseRequest base buf).bind (Request.json buf) = some body ∧
    (parseRequest base buf).map Request.core0msg = some (url ++ ",".toList ++ body) ∧
    ∀ (cap sendCap : Nat) (id webOutStr : List Char) (fuel : Nat) (env : List (List Poll))
      (wire : List (List Char)), 2 ≤ sendCap → strlen webOutStr ≤ fuel →
      ∃ more lk', sendResponse base cap sendCap id (some webOutStr) fuel ⟨buf, env, wire⟩
        = some (Action.fifoPush (url ++ ",".toList ++ body) :: more, lk') := by
  obtain ⟨hp, hu, hj⟩ := parseRequest_post base buf pre method url hdr body rest hbuf hterm
    htext hpre hmethod hurl hpost hhdr hbody hne
  refine ⟨by rw [hp]; rfl, ?_, ?_, by rw [hp]; rfl, ?_⟩
  · rw [hp]; exact hu
  · rw [hp]; exact hj
  · intro cap sendCap id webOutStr fuel env wire hcap hfuel
    exact sendResponse_starts base cap sendCap id webOutStr fuel ⟨buf, env, wire⟩ _ hp hcap
      hfuel

set_option maxRecDepth 100000 in
/-- Witness of `sendResponse_post_summary`, end-to-end scenario 2 as
the code runs it: method POST, URL `/update`, body `"4":"2.5"`, summary
`/update,"4":"2.5"`. -/
theorem sendResponse_post_summary_witness :
    (parseRequest bufferAddress
      (mkBuffer RESPONSEBUFFERLEN "+IPD,0,55:POST /update HTTP/1.1\r\n\r\n\x7b\"4\":\"2.5\"\x7d".toList)).map
      Request.method = some "POST".toList ∧
    (parseRequest bufferAddress
      (mkBuffer RESPONSEBUFFERLEN "+IPD,0,55:POST /update HTTP/1.1\r\n\r\n\x7b\"4\":\"2.5\"\x7d".toList)).bind
      (Request.url
        (mkBuffer RESPONSEBUFFERLEN "+IPD,0,55:POST /update HTTP/1.1\r\n\r\n\x7b\"4\":\"2.5\"\x7d".toList))
      = some "/update".toList ∧
    (parseRequest bufferAddress
      (mkBuffer RESPONSEBUFFERLEN "+IPD,0,55:POST /update HTTP/1.1\r\n\r\n\x7b\"4\":\"2.5\"\x7d".toList)).bind
      (Request.json
        (mkBuffer RESPONSEBUFFERLEN "+IPD,0,55:POST /update HTTP/1.1\r\n\r\n\x7b\"4\":\"2.5\"\x7d".toList))
      = some "\"4\":\"2.5\"".toList ∧
    (parseRequest bufferAddress
      (mkBuffer RESPONSEBUFFERLEN "+IPD,0,55:POST /update HTTP/1.1\r\n\r\n\x7b\"4\":\"2.5\"\x7d".toList)).map
      Request.core0msg = some ("/update".toList ++ ",".toList ++ "\"4\":\"2.5\"".toList) ∧
    ∀ (cap sendCap : Nat) (id webOutStr : List Char) (fuel : Nat) (env : List (List Poll))
      (wire : List (List Char)), 2 ≤ sendCap → strlen webOutStr ≤ fuel →
      ∃ more lk', sendResponse bufferAddress cap sendCap id (some webOutStr) fuel
          ⟨mkBuffer RESPONSEBUFFERLEN "+IPD,0,55:POST /update HTTP/1.1\r\n\r\n\x7b\"4\":\"2.5\"\x7d".toList,
            env, wire⟩
        = some (Action.fifoPush ("/update".toList ++ ",".toList ++ "\"4\":\"2.5\"".toList)
            :: more, lk') :=
  sendResponse_post_summary bufferAddress
    (mkBuffer RESPONSEBUFFERLEN "+IPD,0,55:POST /update HTTP/1.1\r\n\r\n\x7b\"4\":\"2.5\"\x7d".toList)
    "+IPD,0,55".toList "POST".toList "/update".toList "/1.1".toList "\"4\":\"2.5\"".toList []
    (by decide) (by decide) (by decide) (by decide) (by decide) (by decide) (by decide)
    (by decide) (by decide) (by decide)

set_option maxRecDepth 100000 in
/-- C7 (counterexample): for the receive buffer of end-to-end scenario 2 the
body that sendResponse extracts and the summary it pushes carry no braces:
they are `"4":"2.5"` and `/update,"4":"2.5"`, not the JSON body with its
braces and not `/update,` followed by it. -/
theorem sendResponse_summary_without_braces :
    (parseRequest bufferAddress
      (mkBuffer RESPONSEBUFFERLEN "+IPD,0,55:POST /update HTTP/1.1\r\n\r\n\x7b\"4\":\"2.5\"\x7d".toList)).bind
      (Request.json
        (mkBuffer RESPONSEBUFFERLEN "+IPD,0,55:POST /update HTTP/1.1\r\n\r\n\x7b\"4\":\"2.5\"\x7d".toList))
      ≠ some "\x7b\"4\":\"2.5\"\x7d".toList ∧
    (sendResponse bufferAddress RESPONSEBUFFERLEN SENDBUFFERLEN "0".toList (some []) 0
      ⟨mkBuffer RESPONSEBUFFERLEN "+IPD,0,55:POST /update HTTP/1.1\r\n\r\n\x7b\"4\":\"2.5\"\x7d".toList,
        [], []⟩).map (fun r => r.1.head?)
      = some (some (Action.fifoPush "/update,\"4\":\"2.5\"".toList)) ∧
    "/update,\"4\":\"2.5\"".toList ≠ "/update,\x7b\"4\":\"2.5\"\x7d".toList := by
  decide

set_option maxRecDepth 100000 in
/-- C6 (failing input): the drained receive buffer holds
`+IPD,0,18:GET / HTTP/1.1`, 24 characters of which only 14 follow the colon
although 18 are declared.  serveClients compares the declared length with the
length of the whole buffer, 24 > 18, calls sendResponse, and the four CIPSEND
frames and the CIPCLOSE go out on the UART. -/
theorem serveClients_frames_truncated_request :
    strlen (mkBuffer RESPONSEBUFFERLEN "+IPD,0,18:GET / HTTP/1.1".toList) = 24 ∧
    ((cstr (mkBuffer RESPONSEBUFFERLEN "+IPD,0,18:GET / HTTP/1.1".toList)).drop 10).length = 14 ∧
    (serveDrained bufferAddress RESPONSEBUFFERLEN SENDBUFFERLEN (some "hi".toList) 2
      ⟨mkBuffer RESPONSEBUFFERLEN "+IPD,0,18:GET / HTTP/1.1".toList,
        frameReplies ++ frameReplies ++ frameReplies ++ frameReplies ++ closeReply, []⟩).map
      (fun r => r.2.wire)
      = some ["AT+CIPSEND=0,60\r\n".toList, httpHeader,
              "AT+CIPSEND=0,27\r\n".toList, contentHeader,
              "AT+CIPSEND=0,2\r\n".toList, "hi".toList,
              "AT+CIPSEND=0,2\r\n".toList, httpFooter,
              "AT+CIPCLOSE=0\r\n".toList] := by
  decide

/-- C9 (amended): for every connection id and every reply delivered within
the bridge timeout, sendResponse (with a send buffer of at least 2 bytes and a
parsable request) issues, after the push of the summary, the frame of the
fixed header block (status line HTTP/1.0 200 OK, Access-Control-Allow-Origin:
*), the content-type frame, the payload frames whose bytes concatenate to the
payload, the footer frame and then one close command, whatever the results of
the exchanges; every command is its text CIPSEND=id,N or CIPCLOSE=id cut by
snprintf to SENDBUFFERLEN-1 characters, hence the full text whenever that text
is shorter than SENDBUFFERLEN. -/
theorem sendResponse_exchange_order (base cap sendCap : Nat) (id webOutStr : List Char)
    (fuel : Nat) (lk : Link) (req : Request)
    (hp : parseRequest base lk.responseBuffer = some req)
    (hcap : 2 ≤ sendCap) (hfuel : strlen webOutStr ≤ fuel) :
    ∃ (h c : Frame) (chunks : List Frame) (f : Frame) (ok : Bool) (lk' : Link),
      sendResponse base cap sendCap id (some webOutStr) fuel lk
        = some ([Action.fifoPush req.core0msg, Action.frame h, Action.frame c]
            ++ chunks.map Action.frame
            ++ [Action.frame f, Action.close (snprintf sendCap (cipcloseText id)) ok], lk') ∧
      h.data = httpHeader ∧
      "HTTP/1.0 200 OK\r\nAccess-Control-Allow-Origin: *\r\n".toList <+: httpHeader ∧
      (c.data = jsonHeader ∨ c.data = contentHeader) ∧
      (chunks.map Frame.data).flatten = cstr webOutStr ∧
      f.data = httpFooter ∧
      (∀ x ∈ h :: c :: (chunks ++ [f]),
        x.command = snprintf sendCap (cipsendText id x.data.length) ∧
        ((cipsendText id x.data.length).length < sendCap →
          x.command = cipsendText id x.data.length)) ∧
      ((cipcloseText id).length < sendCap →
        snprintf sendCap (cipcloseText id) = cipcloseText id) := by
  obtain ⟨h, c, chunks, f, ok, lk', hrun, hh, hc, hch, hf⟩ :=
    sendResponse_reply base cap sendCap id webOutStr fuel lk req hp hcap hfuel
  refine ⟨h, c, chunks, f, ok, lk', hrun, hh.1, by decide, ?_, hch.2, hf.1, ?_,
    fun hfit => snprintf_of_lt hfit⟩
  · rw [hc.1]; unfold contentTypeFor; split
    · exact Or.inl rfl
    · exact Or.inr rfl
  · intro x hx
    have key : x.command = snprintf sendCap (cipsendText id x.data.length) := by
      rcases List.mem_cons.1 hx with rfl | hx
      · exact hh.2
      rcases List.mem_cons.1 hx with rfl | hx
      · exact hc.2
      rcases List.mem_append.1 hx with hx | hx
      · obtain ⟨_, _, hlen, hcmd, _⟩ := hch.1 x hx
        rw [hlen]; exact hcmd
      · rw [List.mem_singleton.1 hx]; exact hf.2
    exact ⟨key, fun hfit => by rw [key]; exact snprintf_of_lt hfit⟩

set_option maxRecDepth 100000 in
/-- Witness of `sendResponse_exchange_order`: the reply `hello` to the GET
request of connection 0. -/
theorem sendResponse_exchange_order_witness :
    ∃ (h c : Frame) (chunks : List Frame) (f : Frame) (ok : Bool) (lk' : Link),
      sendResponse bufferAddress RESPONSEBUFFERLEN SENDBUFFERLEN "0".toList (some "hello".toList) 5
          ⟨mkBuffer RESPONSEBUFFERLEN "+IPD,0,18:GET / HTTP/1.1\r\n\r\n".toList,
            frameReplies ++ frameReplies ++ frameReplies ++ frameReplies ++ closeReply, []⟩
        = some ([Action.fifoPush getRequest.core0msg, Action.frame h, Action.frame c]
            ++ chunks.map Action.frame
            ++ [Action.frame f, Action.close (snprintf SENDBUFFERLEN (cipcloseText "0".toList)) ok], lk') ∧
      h.data = httpHeader ∧
      "HTTP/1.0 200 OK\r\nAccess-Control-Allow-Origin: *\r\n".toList <+: httpHeader ∧
      (c.data = jsonHeader ∨ c.data = contentHeader) ∧
      (chunks.map Frame.data).flatten = cstr "hello".toList ∧
      f.data = httpFooter ∧
      (∀ x ∈ h :: c :: (chunks ++ [f]),
        x.command = snprintf SENDBUFFERLEN (cipsendText "0".toList x.data.length) ∧
        ((cipsendText "0".toList x.data.length).length < SENDBUFFERLEN →
          x.command = cipsendText "0".toList x.data.length)) ∧
      ((cipcloseText "0".toList).length < SENDBUFFERLEN →
        snprintf SENDBUFFERLEN (cipcloseText "0".toList) = cipcloseText "0".toList) :=
  sendResponse_exchange_order bufferAddress RESPONSEBUFFERLEN SENDBUFFERLEN "0".toList "hello".toList 5
    ⟨mkBuffer RESPONSEBUFFERLEN "+IPD,0,18:GET / HTTP/1.1\r\n\r\n".toList,
      frameReplies ++ frameReplies ++ frameReplies ++ frameReplies ++ closeReply, []⟩
    getRequest (by decide) (by decide) (by decide)

set_option maxRecDepth 100000 in
/-- C9 (counterexample): a notification whose connection token has 495
characters.  With SENDBUFFERLEN = 500 the close command that sendResponse
issues is CIPCLOSE= followed by the first 490 characters of the token only,
which is not the command CIPCLOSE=id of that connection. -/
theorem sendResponse_long_id_cuts_close :
    (sendResponse bufferAddress RESPONSEBUFFERLEN SENDBUFFERLEN longId (some "hi".toList) 2
      ⟨mkBuffer RESPONSEBUFFERLEN ("+IPD,".toList ++ longId ++ ",18:GET / HTTP/1.1\r\n\r\n".toList),
        frameReplies ++ frameReplies ++ frameReplies ++ frameReplies ++ closeReply, []⟩).map
      (fun r => r.1.getLast?)
      = some (some (Action.close ("CIPCLOSE=".toList ++ List.replicate 490 '7') true)) ∧
    "CIPCLOSE=".toList ++ List.replicate 490 '7' ≠ cipcloseText longId := by
  decide

/-- C10: the content-type frame of sendResponse, the second frame it sends,
carries the JSON header exactly when the reply is non-empty and starts with an
opening brace, and the HTML header for every other reply, the empty one
included. -/
theorem sendResponse_content_type (base cap sendCap : Nat) (id webOutStr : List Char)
    (fuel : Nat) (lk : Link) (req : Request)
    (hp : parseRequest base lk.responseBuffer = some req)
    (hcap : 2 ≤ sendCap) (hfuel : strlen webOutStr ≤ fuel) :
    ∃ (h c : Frame) (more : List Action) (lk' : Link),
      sendResponse base cap sendCap id (some webOutStr) fuel lk
        = some (Action.fifoPush req.core0msg :: Action.frame h :: Action.frame c :: more, lk') ∧
      h.data = httpHeader ∧
      (c.data = jsonHeader ↔ (cstr webOutStr).head? = some '\x7b') ∧
      (c.data = contentHeader ↔ (cstr webOutStr).head? ≠ some '\x7b') := by
  obtain ⟨h, c, chunks, f, ok, lk', hrun, hh, hc, _, _⟩ :=
    sendResponse_reply base cap sendCap id webOutStr fuel lk req hp hcap hfuel
  have hne : jsonHeader ≠ contentHeader := by decide
  refine ⟨h, c, chunks.map Action.frame
    ++ [Action.frame f, Action.close (snprintf sendCap (cipcloseText id)) ok], lk',
    by rw [hrun]; rfl, hh.1, ?_, ?_⟩
  · rw [hc.1]; unfold contentTypeFor
    constructor
    · intro h1
      by_contra h2
      rw [if_neg h2] at h1
      exact hne h1.symm
    · intro h1; rw [if_pos h1]
  · rw [hc.1]; unfold contentTypeFor
    constructor
    · intro h1 h2
      rw [if_pos h2] at h1
      exact hne h1
    · intro h1; rw [if_neg h1]

set_option maxRecDepth 100000 in
/-- Witness of `sendResponse_content_type`: a JSON reply to the GET request
of connection 0. -/
theorem sendResponse_content_type_witness :
    ∃ (h c : Frame) (more : List Action) (lk' : Link),
      sendResponse bufferAddress RESPONSEBUFFERLEN SENDBUFFERLEN "0".toList (some "\x7b\"1\":\"ok\"\x7d".toList) 10
          ⟨mkBuffer RESPONSEBUFFERLEN "+IPD,0,18:GET / HTTP/1.1\r\n\r\n".toList,
            frameReplies ++ frameReplies ++ frameReplies ++ frameReplies ++ closeReply, []⟩
        = some (Action.fifoPush getRequest.core0msg :: Action.frame h :: Action.frame c
            :: more, lk') ∧
      h.data = httpHeader ∧
      (c.data = jsonHeader ↔ (cstr "\x7b\"1\":\"ok\"\x7d".toList).head? = some '\x7b') ∧
      (c.data = contentHeader ↔ (cstr "\x7b\"1\":\"ok\"\x7d".toList).head? ≠ some '\x7b') :=
  sendResponse_content_type bufferAddress RESPONSEBUFFERLEN SENDBUFFERLEN "0".toList "\x7b\"1\":\"ok\"\x7d".toList 10
    ⟨mkBuffer RESPONSEBUFFERLEN "+IPD,0,18:GET / HTTP/1.1\r\n\r\n".toList,
      frameReplies ++ frameReplies ++ frameReplies ++ frameReplies ++ closeReply, []⟩
    getRequest (by decide) (by decide) (by decide)

/-! ## Scenario 3: a send buffer of five bytes -/

set_option maxRecDepth 100000 in
/-- C11 (amended): with SENDBUFFERLEN = 5 and the reply `{"1":"ok"}` of ten
bytes, sendResponse issues, between the header frame and the footer frame,
the JSON content-type frame and exactly three payload frames, prepared with
the lengths 4, 4 and 2, whose bytes concatenate to the ten bytes of the reply;
every command is cut by snprintf to the four characters CIPS. -/
theorem sendResponse_capacity5_three_frames :
    (sendResponse bufferAddress RESPONSEBUFFERLEN 5 "0".toList (some okPayload) 10
      ⟨mkBuffer RESPONSEBUFFERLEN "+IPD,0,18:GET / HTTP/1.1\r\n\r\n".toList,
        sixFrameReplies, []⟩).map (fun r => r.1)
      = some [Action.fifoPush "/".toList,
          Action.frame { declared := 60, command := "CIPS".toList, prepare := true,
                         data := httpHeader, confirm := true },
          Action.frame { declared := 34, command := "CIPS".toList, prepare := true,
                         data := jsonHeader, confirm := true },
          Action.frame { declared := 4, command := "CIPS".toList, prepare := true,
                         data := "\x7b\"1\"".toList, confirm := true },
          Action.frame { declared := 4, command := "CIPS".toList, prepare := true,
                         data := ":\"ok".toList, confirm := true },
          Action.frame { declared := 2, command := "CIPS".toList, prepare := true,
                         data := "\"\x7d".toList, confirm := true },
          Action.frame { declared := 2, command := "CIPS".toList, prepare := true,
                         data := httpFooter, confirm := true },
          Action.close "CIPC".toList true] ∧
    "\x7b\"1\"".toList ++ ":\"ok".toList ++ "\"\x7d".toList = okPayload := by
  decide

set_option maxRecDepth 100000 in
/-- C11 (counterexample): with SENDBUFFERLEN = 5 the chunk loop of
sendResponse splits the ten bytes of `{"1":"ok"}` into three frames of 4, 4
and 2 bytes, not into two frames of 5 and 5. -/
theorem chunkLoop_capacity5_not_two_frames :
    (chunkLoop RESPONSEBUFFERLEN 5 "0".toList okPayload 10 (strlen okPayload) 0
      ⟨mkBuffer RESPONSEBUFFERLEN [], frameReplies ++ frameReplies ++ frameReplies, []⟩).map
      (fun r => r.1.map (fun f => (f.declared, f.data.length))) = some [(4, 4), (4, 4), (2, 2)] ∧
    [(4, 4), (4, 4), (2, 2)] ≠ [(5, 5), (5, 5)] := by
  decide


/-! ## The receive buffer is never written past its capacity -/

theorem atLoopLog_fst (cap sendCap : Nat) (command successMsg : List Char) (allowTime : Int) :
    ∀ (polls : List Poll) (run : Bool) (ptr : Nat) (buf : List Char) (sent : List (List Char)),
      (atLoopLog cap sendCap command successMsg allowTime polls run ptr buf sent).1
        = atLoop cap sendCap command successMsg allowTime polls run ptr buf sent := by
  intro polls
  induction polls with
  | nil => intro run ptr buf sent; rfl
  | cons p ps ih =>
    intro run ptr buf sent
    simp only [atLoopLog, atLoop]
    split_ifs <;> simp [ih]

theorem getATloop_length (cap : Nat) :
    ∀ (rx buf : List Char) (ptr : Nat) (tl : Bool),
      (getATloop cap rx buf ptr tl).1.length = buf.length := by
  intro rx
  induction rx with
  | nil => intro buf ptr tl; rfl
  | cons c rx ih =>
    intro buf ptr tl
    simp only [getATloop]
    split <;> simp [ih]

theorem getATloop_ptr_le (cap : Nat) :
    ∀ (rx buf : List Char) (ptr : Nat) (tl : Bool), ptr ≤ cap - 1 →
      (getATloop cap rx buf ptr tl).2.1 ≤ cap - 1 := by
  intro rx
  induction rx with
  | nil => intro buf ptr tl h; exact h
  | cons c rx ih =>
    intro buf ptr tl h
    simp only [getATloop]
    split
    · exact ih _ _ _ h
    · exact ih _ _ _ (by omega)

theorem getATdata_stores (cap : Nat) :
    ∀ (rx buf : List Char) (ptr : Nat),
      (getATdata cap buf ptr rx).1
        = (getATstores cap rx ptr).foldl (fun b s => b.set s.1 s.2) buf := by
  have aux : ∀ (rx buf : List Char) (ptr : Nat) (tl : Bool),
      (getATloop cap rx buf ptr tl).1.set (getATloop cap rx buf ptr tl).2.1 NUL
        = (getATstores cap rx ptr).foldl (fun b s => b.set s.1 s.2) buf := by
    intro rx
    induction rx with
    | nil => intro buf ptr tl; rfl
    | cons c rx ih =>
      intro buf ptr tl
      simp only [getATloop, getATstores, List.foldl_cons]
      split
      · exact ih _ _ _
      · exact ih _ _ _
  intro rx buf ptr
  exact aux rx buf ptr false

theorem getATstores_below (cap : Nat) (hcap : 1 ≤ cap) :
    ∀ (rx : List Char) (ptr : Nat), ptr ≤ cap - 1 →
      ∀ s ∈ getATstores cap rx ptr, s.1 < cap := by
  intro rx
  induction rx with
  | nil =>
    intro ptr h s hs
    simp only [getATstores, List.mem_singleton] at hs
    subst hs
    show ptr < cap
    omega
  | cons c rx ih =>
    intro ptr h s hs
    simp only [getATstores, List.mem_cons] at hs
    rcases hs with rfl | hs
    · show ptr < cap
      omega
    · split at hs
      · exact ih ptr h s hs
      · exact ih (ptr + 1) (by omega) s hs

theorem getATdata_toNat_le (cap : Nat) (rx buf : List Char) (ptr : Nat) (h : ptr ≤ cap - 1) :
    (getATdata cap buf ptr rx).2.toNat ≤ cap - 1 := by
  have := getATloop_ptr_le cap rx buf ptr false h
  simp only [getATdata]
  split
  · simp
  · simpa using this

theorem atLoopLog_offsets (cap sendCap : Nat) (command successMsg : List Char)
    (allowTime : Int) :
    ∀ (polls : List Poll) (run : Bool) (ptr : Nat) (buf : List Char) (sent : List (List Char)),
      ptr ≤ cap - 1 →
      ∀ o ∈ (atLoopLog cap sendCap command successMsg allowTime polls run ptr buf sent).2,
        o ≤ cap - 1 := by
  intro polls
  induction polls with
  | nil => intro run ptr buf sent _ o ho; simp [atLoopLog] at ho
  | cons p ps ih =>
    intro run ptr buf sent hptr o ho
    have hp : (if (run && decide (0 < strlen command)) = true then 0 else ptr) ≤ cap - 1 := by
      split
      · omega
      · exact hptr
    simp only [atLoopLog] at ho
    generalize (if (run && decide (0 < strlen command)) = true then 0 else ptr) = q at ho hp
    split_ifs at ho
    all_goals first
      | (simp only [List.mem_singleton] at ho; rw [ho]; exact hp)
      | (simp only [List.mem_cons] at ho
         rcases ho with rfl | ho
         · exact hp
         · exact ih _ _ _ _ (getATdata_toNat_le cap _ _ _ hp) o ho)
      | (simp at ho)

theorem getATloop_ptr_stays (cap : Nat) :
    ∀ (rx buf : List Char) (ptr : Nat) (tl : Bool), ptr ≥ cap - 1 →
      (getATloop cap rx buf ptr tl).2.1 = ptr := by
  intro rx
  induction rx with
  | nil => intro buf ptr tl _; rfl
  | cons c rx ih =>
    intro buf ptr tl h
    simp only [getATloop, h, if_true]
    exact ih _ _ _ h

theorem getATloop_ptr_overflow (cap : Nat) :
    ∀ (rx buf : List Char) (ptr : Nat) (tl : Bool), ptr ≤ cap - 1 →
      cap - 1 < ptr + rx.length → (getATloop cap rx buf ptr tl).2.1 = cap - 1 := by
  intro rx
  induction rx with
  | nil => intro buf ptr tl h1 h2; simp at h2; omega
  | cons c rx ih =>
    intro buf ptr tl h1 h2
    simp only [List.length_cons] at h2
    simp only [getATloop]
    split
    · rename_i h
      rw [getATloop_ptr_stays cap rx _ ptr true h]
      omega
    · exact ih _ _ _ (by omega) (by omega)

theorem getATdata_terminator (cap : Nat) (rx buf : List Char) (ptr : Nat) (hcap : 1 ≤ cap)
    (hbuf : buf.length = cap) (hptr : ptr ≤ cap - 1) :
    (getATdata cap buf ptr rx).1[(getATloop cap rx buf ptr false).2.1]? = some NUL ∧
    (getATdata cap buf ptr rx).1.length = cap := by
  have hq := getATloop_ptr_le cap rx buf ptr false hptr
  have hl := getATloop_length cap rx buf ptr false
  simp only [getATdata]
  constructor
  · rw [List.getElem?_set_self (by omega)]
  · simp [hl, hbuf]

/-- A drain that overflows leaves the terminator at the last index. -/
theorem getATdata_overflow_last (cap : Nat) (rx buf : List Char) (ptr : Nat) (hcap : 1 ≤ cap)
    (hbuf : buf.length = cap) (hptr : ptr ≤ cap - 1) (h : cap - 1 < ptr + rx.length) :
    (getATdata cap buf ptr rx).1[cap - 1]? = some NUL := by
  have hterm := (getATdata_terminator cap rx buf ptr hcap hbuf hptr).1
  rw [getATloop_ptr_overflow cap rx buf ptr false hptr h] at hterm
  exact hterm

/-- C15: for a receive buffer of RESPONSEBUFFERLEN (at least 1) elements and a
starting offset of at most RESPONSEBUFFERLEN-1, getATdata stores only at
indices below RESPONSEBUFFERLEN, leaves a terminator in the buffer, returns -1
exactly when offset plus number of bytes read exceeds RESPONSEBUFFERLEN-1, and
otherwise returns that sum with the bytes read stored in arrival order behind
the first `buffPtr` bytes and the terminator behind them; and every offset
that processATcommand hands to getATdata is at most RESPONSEBUFFERLEN-1. -/
theorem getATdata_within_capacity (cap : Nat) (buf rx : List Char) (buffPtr : Nat)
    (hcap : 1 ≤ cap) (hbuf : buf.length = cap) (hptr : buffPtr ≤ cap - 1) :
    ((getATdata cap buf buffPtr rx).1
        = (getATstores cap rx buffPtr).foldl (fun b s => b.set s.1 s.2) buf ∧
      ∀ s ∈ getATstores cap rx buffPtr, s.1 < cap) ∧
    ((getATdata cap buf buffPtr rx).1.length = cap ∧ NUL ∈ (getATdata cap buf buffPtr rx).1) ∧
    ((getATdata cap buf buffPtr rx).2 = -1 ↔ buffPtr + rx.length > cap - 1) ∧
    (buffPtr + rx.length > cap - 1 → (getATdata cap buf buffPtr rx).1[cap - 1]? = some NUL) ∧
    (buffPtr + rx.length ≤ cap - 1 →
      (getATdata cap buf buffPtr rx).2 = ((buffPtr + rx.length : Nat) : Int) ∧
      (getATdata cap buf buffPtr rx).1.take (buffPtr + rx.length) = buf.take buffPtr ++ rx ∧
      (getATdata cap buf buffPtr rx).1[buffPtr + rx.length]? = some NUL) ∧
    ∀ (sendCap : Nat) (start command successMsg : List Char) (allowTime : Int)
      (polls : List Poll),
      ∀ o ∈ processATcommandOffsets cap sendCap start command allowTime successMsg polls,
        o ≤ cap - 1 := by
  obtain ⟨hterm, hlen⟩ := getATdata_terminator cap rx buf buffPtr hcap hbuf hptr
  refine ⟨⟨getATdata_stores cap rx buf buffPtr, getATstores_below cap hcap rx buffPtr hptr⟩,
    ⟨hlen, List.getElem?_mem hterm⟩, ?_, ?_, ?_, ?_⟩
  · constructor
    · intro h
      by_contra hfit
      have := (getATdata_fit cap rx buf buffPtr hbuf (by omega) hcap).1
      rw [this] at h
      omega
    · intro h
      exact getATdata_overflow cap rx buf buffPtr hptr h
  · intro h
    rw [getATloop_ptr_overflow cap rx buf buffPtr false hptr h] at hterm
    exact hterm
  · intro h
    obtain ⟨g2, _, gtake, _⟩ := getATdata_fit cap rx buf buffPtr hbuf h hcap
    refine ⟨g2, gtake, ?_⟩
    rw [getATloop_fit cap rx buf buffPtr false hbuf h hcap] at hterm
    exact hterm
  · intro sendCap start command successMsg allowTime polls o ho
    exact atLoopLog_offsets cap sendCap command successMsg (allowTime * MICROS) polls true 0
      start [] (Nat.zero_le _) o ho

set_option maxRecDepth 100000 in
/-- Witness of `getATdata_within_capacity`: the characters OK read at offset 2
of the receive buffer. -/
theorem getATdata_within_capacity_witness :
    (getATdata RESPONSEBUFFERLEN (mkBuffer RESPONSEBUFFERLEN "\r\n".toList) 2 "OK".toList).2 = 4 ∧
    (getATdata RESPONSEBUFFERLEN (mkBuffer RESPONSEBUFFERLEN "\r\n".toList) 2 "OK".toList).1.take 4
      = "\r\nOK".toList ∧
    ∀ s ∈ getATstores RESPONSEBUFFERLEN "OK".toList 2, s.1 < RESPONSEBUFFERLEN := by
  have h := getATdata_within_capacity RESPONSEBUFFERLEN
    (mkBuffer RESPONSEBUFFERLEN "\r\n".toList) "OK".toList 2 (by decide) (by decide) (by decide)
  obtain ⟨h1, _, _, _, h5, _⟩ := h
  have h5' := h5 (by decide)
  exact ⟨h5'.1, h5'.2.1, h1.2⟩

/-! ## Transmissions of the command line -/

theorem atLoop_sent_grows (cap sendCap : Nat) (command successMsg : List Char)
    (allowTime : Int) :
    ∀ (polls : List Poll) (run : Bool) (ptr : Nat) (buf : List Char) (s : List (List Char)),
      s <+: (atLoop cap sendCap command successMsg allowTime polls run ptr buf s).sent := by
  intro polls
  induction polls with
  | nil => intro run ptr buf s; exact List.prefix_refl s
  | cons p ps ih =>
    intro run ptr buf s
    simp only [atLoop]
    split_ifs <;> first
      | exact List.prefix_refl s
      | exact List.prefix_append s _
      | exact ( List.prefix_append s _).trans (ih _ _ _ _)
      | exact ih _ _ _ _

/-- While no pass leaves the busy marker in the buffer, a loop whose flag
`runCommand` is down transmits nothing. -/
theorem atLoop_quiet (cap sendCap : Nat) (command successMsg : List Char) (allowTime : Int)
    (hcap : 1 ≤ cap) :
    ∀ (polls : List Poll) (ptr : Nat) (buf : List Char) (sent : List (List Char)),
      buf.length = cap → ptr ≤ cap - 1 →
      (∀ m, m < polls.length → ¬ busyMarker <:+: cstr (buf.take ptr ++ arrived polls (m + 1))) →
      (atLoop cap sendCap command successMsg allowTime polls false ptr buf sent).sent = sent := by
  intro polls
  induction polls with
  | nil => intro ptr buf sent _ _ _; rfl
  | cons p ps ih =>
    intro ptr buf sent hlen hp hnb
    by_cases hel : p.elapsed < allowTime
    · rw [atLoop_pass cap sendCap command successMsg allowTime p ps false ptr buf sent hel
        (fun h => absurd h (by decide))]
      simp only [Bool.false_and, Bool.false_eq_true, if_false]
      split
      · rfl
      · split
        · rfl
        · by_cases hfit : ptr + p.rx.length ≤ cap - 1
          · obtain ⟨g2, glen, gtake, gcstr⟩ := getATdata_fit cap p.rx buf ptr hlen hfit hcap
            have hb : ¬ (strstr (cstr (getATdata cap buf ptr p.rx).1) busyMarker).isSome = true := by
              rw [strstr_isSome_iff_contains, gcstr]
              have := hnb 0 (by simp)
              rwa [arrived_cons, arrived_zero, List.append_nil] at this
            rw [if_neg hb]
            have hnat : (getATdata cap buf ptr p.rx).2.toNat = ptr + p.rx.length := by
              rw [g2]; omega
            rw [hnat]
            apply ih _ _ _ glen hfit
            intro m hm
            have := hnb (m + 1) (by simpa using hm)
            rw [arrived_cons, ← List.append_assoc] at this
            rw [gtake]; exact this
          · rename_i hneg _
            exfalso
            apply hneg
            exact getATdata_overflow cap p.rx buf ptr hp (by omega)
    · simp [atLoop, hel, atTimedOut]

/-- A first pass before the deadline transmits the line of a non-empty
command; without a busy marker it stays the only transmission. -/
theorem atLoop_once (cap sendCap : Nat) (command successMsg : List Char) (allowTime : Int)
    (hcap : 1 ≤ cap) (hcmd : 0 < strlen command) (p : Poll) (ps : List Poll) (buf : List Char)
    (sent : List (List Char)) (hlen : buf.length = cap) (hel : p.elapsed < allowTime)
    (hnb : ∀ m, m < (p :: ps).length → ¬ busyMarker <:+: cstr (arrived (p :: ps) (m + 1))) :
    (atLoop cap sendCap command successMsg allowTime (p :: ps) true 0 buf sent).sent
      = sent ++ [atLine sendCap command] := by
  rw [atLoop_pass cap sendCap command successMsg allowTime p ps true 0 buf sent hel
    (fun _ _ => rfl)]
  have hsend : (true && decide (0 < strlen command)) = true := by simp [hcmd]
  simp only [hsend, if_true]
  split
  · rfl
  · split
    · rfl
    · rename_i hneg _
      have hfit : 0 + p.rx.length ≤ cap - 1 := by
        by_contra h
        exact hneg (getATdata_overflow cap p.rx buf 0 (Nat.zero_le _) (by omega))
      obtain ⟨g2, glen, gtake, gcstr⟩ := getATdata_fit cap p.rx buf 0 hlen hfit hcap
      have hb : ¬ (strstr (cstr (getATdata cap buf 0 p.rx).1) busyMarker).isSome = true := by
        rw [strstr_isSome_iff_contains, gcstr]
        have := hnb 0 (by simp)
        rw [arrived_cons, arrived_zero, List.append_nil] at this
        simpa using this
      rw [if_neg hb]
      have hnat : (getATdata cap buf 0 p.rx).2.toNat = 0 + p.rx.length := by
        rw [g2]; omega
      rw [hnat]
      apply atLoop_quiet cap sendCap command successMsg allowTime hcap ps _ _ _ glen hfit
      intro m hm
      have := hnb (m + 1) (by simpa using hm)
      rw [arrived_cons] at this
      rw [gtake]; simpa using this

/-- A loop whose passes all begin before the deadline and bring neither the
success token nor a restart ends at the deadline with exactly the bytes that
arrived in the buffer, provided they fit. -/
theorem atLoop_timeout (cap sendCap : Nat) (command successMsg : List Char) (allowTime : Int)
    (hcap : 1 ≤ cap) (hs : 0 < strlen successMsg) :
    ∀ (polls : List Poll) (run : Bool) (ptr : Nat) (buf : List Char) (sent : List (List Char)),
      buf.length = cap →
      (run = true → 0 < strlen command → ptr = 0) →
      (polls ≠ [] ∨ cstr buf = cstr (buf.take ptr)) →
      (∀ p ∈ polls, p.elapsed < allowTime) →
      ptr + (arrived polls polls.length).length ≤ cap - 1 →
      (∀ m, m < polls.length →
        ¬ cstr successMsg <:+: cstr (buf.take ptr ++ arrived polls (m + 1))) →
      (strlen command = 0 ∨ ∀ m, m < polls.length →
        ¬ busyMarker <:+: cstr (buf.take ptr ++ arrived polls (m + 1))) →
      (atLoop cap sendCap command successMsg allowTime polls run ptr buf sent).ok = false ∧
      (atLoop cap sendCap command successMsg allowTime polls run ptr buf sent).tooLong = false ∧
      (atLoop cap sendCap command successMsg allowTime polls run ptr buf sent).buffPtr
        = ((ptr + (arrived polls polls.length).length : Nat) : Int) ∧
      (atLoop cap sendCap command successMsg allowTime polls run ptr buf sent).responseBuffer.take
          (ptr + (arrived polls polls.length).length)
        = buf.take ptr ++ arrived polls polls.length ∧
      cstr (atLoop cap sendCap command successMsg allowTime polls run ptr buf sent).responseBuffer
        = cstr (buf.take ptr ++ arrived polls polls.length) := by
  intro polls
  induction polls with
  | nil =>
    intro run ptr buf sent hlen hI hT _ hfit _ _
    have hc : cstr buf = cstr (buf.take ptr) := by
      rcases hT with h | h
      · exact absurd rfl h
      · exact h
    simp [atLoop, atTimedOut, hs, arrived, hc]
  | cons p ps ih =>
    intro run ptr buf sent hlen hI _ hel hfit hnos hbusy
    have hel0 : p.elapsed < allowTime := hel p (by simp)
    rw [List.length_cons, arrived_cons] at hfit ⊢
    simp only [List.length_append] at hfit
    obtain ⟨g2, glen, gtake, gcstr⟩ := getATdata_fit cap p.rx buf ptr hlen (by omega) hcap
    rw [atLoop_pass cap sendCap command successMsg allowTime p ps run ptr buf sent hel0 hI]
    have hne : ¬ (getATdata cap buf ptr p.rx).2 = -1 := by rw [g2]; omega
    have hnf : ¬ (0 < strlen successMsg ∧
        (strstr (cstr (getATdata cap buf ptr p.rx).1) (cstr successMsg)).isSome) := by
      intro h
      apply hnos 0 (by simp)
      rw [arrived_cons, arrived_zero, List.append_nil, ← gcstr, ← strstr_isSome_iff_contains]
      exact h.2
    rw [if_neg hne, if_neg hnf]
    have hnat : (getATdata cap buf ptr p.rx).2.toNat = ptr + p.rx.length := by
      rw [g2]; omega
    rw [hnat]
    have key := ih
      (if (strstr (cstr (getATdata cap buf ptr p.rx).1) busyMarker).isSome then true
        else if (run && decide (0 < strlen command)) = true then false else run)
      (ptr + p.rx.length) (getATdata cap buf ptr p.rx).1
      (if (run && decide (0 < strlen command)) = true then
          sent ++ [snprintf sendCap ("AT+".toList ++ cstr command ++ "\r\n".toList)]
        else sent) glen
      (fun hrun hc => absurd hc (fun hc => runCommand_after command run _ (fun hb => by
          rcases hbusy with h0 | hnb
          · exact h0
          · exfalso
            apply hnb 0 (by simp)
            rw [arrived_cons, arrived_zero, List.append_nil, ← gcstr,
              ← strstr_isSome_iff_contains]
            exact hb) hrun hc))
      (Or.inr (by rw [gtake, gcstr]))
      (fun q hq => hel q (by simp [hq]))
      (by omega)
      (fun m hm => by
        have := hnos (m + 1) (by simpa using hm)
        rw [arrived_cons, ← List.append_assoc] at this
        rw [gtake]; exact this)
      (by
        rcases hbusy with h0 | hnb
        · exact Or.inl h0
        · refine Or.inr (fun m hm => ?_)
          have := hnb (m + 1) (by simpa using hm)
          rw [arrived_cons, ← List.append_assoc] at this
          rw [gtake]; exact this)
    rw [gtake] at key
    simp only [List.append_assoc, Nat.add_assoc, List.length_append] at key ⊢
    exact key

/-- After a pass that leaves the busy marker in the buffer the loop goes on
as a fresh loop on the remaining passes: the line is written again and the
bytes are accumulated from offset 0. -/
theorem atLoop_restart (cap sendCap : Nat) (command successMsg : List Char) (allowTime : Int)
    (hcap : 1 ≤ cap) (hcmd : 0 < strlen command) (p q : Poll) (qs : List Poll)
    (buf : List Char) (hlen : buf.length = cap)
    (hp : p.elapsed < allowTime) (hq : q.elapsed < allowTime)
    (hfit : p.rx.length ≤ cap - 1)
    (hnos : ¬ (0 < strlen successMsg ∧ cstr successMsg <:+: cstr p.rx))
    (hb : busyMarker <:+: cstr p.rx) :
    atLoop cap sendCap command successMsg allowTime (p :: q :: qs) true 0 buf []
      = atLoop cap sendCap command successMsg allowTime (q :: qs) true 0
          (getATdata cap buf 0 p.rx).1 [atLine sendCap command] ∧
    [atLine sendCap command, atLine sendCap command]
      <+: (atLoop cap sendCap command successMsg allowTime (p :: q :: qs) true 0 buf []).sent := by
  obtain ⟨g2, glen, gtake, gcstr⟩ := getATdata_fit cap p.rx buf 0 hlen (by omega) hcap
  have hsend : (true && decide (0 < strlen command)) = true := by simp [hcmd]
  have hne : ¬ (getATdata cap buf 0 p.rx).2 = -1 := by rw [g2]; omega
  have hc0 : cstr (getATdata cap buf 0 p.rx).1 = cstr p.rx := by rw [gcstr]; simp
  have hnf : ¬ (0 < strlen successMsg ∧
      (strstr (cstr (getATdata cap buf 0 p.rx).1) (cstr successMsg)).isSome) := by
    rw [hc0, strstr_isSome_iff_contains]; exact hnos
  have hbs : (strstr (cstr (getATdata cap buf 0 p.rx).1) busyMarker).isSome = true := by
    rw [hc0, strstr_isSome_iff_contains]; exact hb
  have step : atLoop cap sendCap command successMsg allowTime (p :: q :: qs) true 0 buf []
      = atLoop cap sendCap command successMsg allowTime (q :: qs) true 0
          (getATdata cap buf 0 p.rx).1 [atLine sendCap command] := by
    rw [atLoop_pass cap sendCap command successMsg allowTime p (q :: qs) true 0 buf [] hp
      (fun _ _ => rfl)]
    simp only [hsend, if_true, if_neg hne, if_neg hnf, hbs, List.nil_append]
    simp only [atLoop, hq, hsend, if_true]
    rfl
  refine ⟨step, ?_⟩
  rw [step, atLoop_pass cap sendCap command successMsg allowTime q qs true 0 _ _ hq
    (fun _ _ => rfl)]
  simp only [hsend, if_true]
  split
  · exact List.prefix_refl _
  · split
    · exact List.prefix_refl _
    · exact atLoop_sent_grows cap sendCap command successMsg allowTime qs _ _ _ _

/-- The line written by the first pass stays the first transmission. -/
theorem atLoop_first (cap sendCap : Nat) (command successMsg : List Char) (allowTime : Int)
    (hcmd : 0 < strlen command) (p : Poll) (ps : List Poll) (buf : List Char)
    (hel : p.elapsed < allowTime) :
    [atLine sendCap command]
      <+: (atLoop cap sendCap command successMsg allowTime (p :: ps) true 0 buf []).sent := by
  rw [atLoop_pass cap sendCap command successMsg allowTime p ps true 0 buf [] hel
    (fun _ _ => rfl)]
  have hsend : (true && decide (0 < strlen command)) = true := by simp [hcmd]
  simp only [hsend, if_true, List.nil_append]
  split
  · exact List.prefix_refl _
  · split
    · exact List.prefix_refl _
    · exact atLoop_sent_grows cap sendCap command successMsg allowTime ps _ _ _ _

/-! ## C12: when the command line is transmitted -/

/-- C12 (amended): in processATcommand with a non-empty command whose first
polling pass begins before the deadline, (1) the command line is the first
transmission; (2) as long as no pass leaves the busy marker in the
accumulated response it is the only transmission; (3) when moreover every
pass begins before the deadline, the success token is non-empty and never
appears, and the bytes that arrived fit below the last buffer index, the
result is false without the too-long outcome and the receive buffer holds
exactly the bytes that arrived, followed by the terminator; (4) after a first
pass that leaves the busy marker (and no success token) in the buffer, the
loop goes on as a fresh loop from offset 0 and the line is transmitted a
second time. -/
theorem processATcommand_transmissions (cap sendCap : Nat) (buf command successMsg : List Char)
    (allowTime : Int) (p : Poll) (ps : List Poll)
    (hcap : 1 ≤ cap) (hlen : buf.length = cap) (hcmd : 0 < strlen command)
    (hp : p.elapsed < allowTime * MICROS) :
    [atLine sendCap command]
      <+: (processATcommand cap sendCap buf command allowTime successMsg (p :: ps)).sent ∧
    ((∀ m, m < (p :: ps).length → ¬ busyMarker <:+: cstr (arrived (p :: ps) (m + 1))) →
      (processATcommand cap sendCap buf command allowTime successMsg (p :: ps)).sent
        = [atLine sendCap command]) ∧
    ((∀ q ∈ ps, q.elapsed < allowTime * MICROS) →
      0 < strlen successMsg →
      (arrived (p :: ps) (p :: ps).length).length ≤ cap - 1 →
      (∀ m, m < (p :: ps).length →
        ¬ cstr successMsg <:+: cstr (arrived (p :: ps) (m + 1))) →
      (∀ m, m < (p :: ps).length → ¬ busyMarker <:+: cstr (arrived (p :: ps) (m + 1))) →
      (processATcommand cap sendCap buf command allowTime successMsg (p :: ps)).ok = false ∧
      (processATcommand cap sendCap buf command allowTime successMsg (p :: ps)).tooLong = false ∧
      (processATcommand cap sendCap buf command allowTime successMsg (p :: ps)).sent
        = [atLine sendCap command] ∧
      (processATcommand cap sendCap buf command allowTime successMsg
          (p :: ps)).responseBuffer.take (arrived (p :: ps) (p :: ps).length).length
        = arrived (p :: ps) (p :: ps).length ∧
      cstr (processATcommand cap sendCap buf command allowTime successMsg
          (p :: ps)).responseBuffer = cstr (arrived (p :: ps) (p :: ps).length)) ∧
    (∀ (q : Poll) (qs : List Poll), ps = q :: qs →
      q.elapsed < allowTime * MICROS →
      p.rx.length ≤ cap - 1 →
      ¬ (0 < strlen successMsg ∧ cstr successMsg <:+: cstr p.rx) →
      busyMarker <:+: cstr p.rx →
      processATcommand cap sendCap buf command allowTime successMsg (p :: ps)
        = atLoop cap sendCap command successMsg (allowTime * MICROS) ps true 0
            (getATdata cap buf 0 p.rx).1 [atLine sendCap command] ∧
      [atLine sendCap command, atLine sendCap command]
        <+: (processATcommand cap sendCap buf command allowTime successMsg (p :: ps)).sent) := by
  refine ⟨?_, ?_, ?_, ?_⟩
  · exact atLoop_first cap sendCap command successMsg _ hcmd p ps buf hp
  · intro hnb
    have := atLoop_once cap sendCap command successMsg _ hcap hcmd p ps buf [] hlen hp hnb
    simpa [processATcommand] using this
  · intro hel hs hfit hnos hnb
    have hsent := atLoop_once cap sendCap command successMsg _ hcap hcmd p ps buf [] hlen hp hnb
    have key := atLoop_timeout cap sendCap command successMsg (allowTime * MICROS) hcap hs
      (p :: ps) true 0 buf [] hlen (fun _ _ => rfl) (Or.inl (by simp))
      (fun q hq => by
        rcases List.mem_cons.1 hq with h | h
        · rw [h]; exact hp
        · exact hel q h)
      (by simpa using hfit)
      (fun m hm => by simpa using hnos m hm)
      (Or.inr (fun m hm => by simpa using hnb m hm))
    simp only [List.take_zero, List.nil_append, Nat.zero_add] at key
    exact ⟨key.1, key.2.1, by simpa [processATcommand] using hsent, key.2.2.2.1, key.2.2.2.2⟩
  · intro q qs hps hq hfit hnos hb
    subst hps
    exact atLoop_restart cap sendCap command successMsg _ hcap hcmd p q qs buf hlen hp hq
      hfit hnos hb

set_option maxRecDepth 100000 in
/-- C12 (witness): the command GMR with token OK and a budget of 1 second.
With the passes ERR and OR nothing matches: one transmission, result false,
the buffer holds the seven bytes.  With a first pass that brings the busy
marker the line is transmitted twice. -/
theorem processATcommand_transmissions_witness :
    ((1 ≤ RESPONSEBUFFERLEN ∧ (mkBuffer RESPONSEBUFFERLEN []).length = RESPONSEBUFFERLEN ∧
      0 < strlen "GMR".toList ∧ ((12 : Int) < 1 * MICROS)) ∧
     (processATcommand RESPONSEBUFFERLEN SENDBUFFERLEN (mkBuffer RESPONSEBUFFERLEN [])
        "GMR".toList 1 "OK".toList
        [{ elapsed := 12, rx := "\r\nERR".toList }, { elapsed := 900, rx := "OR\r\n".toList }]).ok
        = false ∧
     (processATcommand RESPONSEBUFFERLEN SENDBUFFERLEN (mkBuffer RESPONSEBUFFERLEN [])
        "GMR".toList 1 "OK".toList
        [{ elapsed := 12, rx := "\r\nERR".toList },
         { elapsed := 900, rx := "OR\r\n".toList }]).sent = ["AT+GMR\r\n".toList] ∧
     cstr (processATcommand RESPONSEBUFFERLEN SENDBUFFERLEN (mkBuffer RESPONSEBUFFERLEN [])
        "GMR".toList 1 "OK".toList
        [{ elapsed := 12, rx := "\r\nERR".toList },
         { elapsed := 900, rx := "OR\r\n".toList }]).responseBuffer = "\r\nERROR\r\n".toList) ∧
    ["AT+GMR\r\n".toList, "AT+GMR\r\n".toList]
      <+: (processATcommand RESPONSEBUFFERLEN SENDBUFFERLEN (mkBuffer RESPONSEBUFFERLEN [])
        "GMR".toList 1 "OK".toList
        [{ elapsed := 12, rx := "\r\nbusy p...\r\n".toList },
         { elapsed := 900, rx := "\r\nOK\r\n".toList }]).sent := by
  have h1 := (processATcommand_transmissions RESPONSEBUFFERLEN SENDBUFFERLEN
    (mkBuffer RESPONSEBUFFERLEN []) "GMR".toList "OK".toList 1
    { elapsed := 12, rx := "\r\nERR".toList } [{ elapsed := 900, rx := "OR\r\n".toList }]
    (by decide) (by decide) (by decide) (by decide)).2.2.1
    (by decide) (by decide) (by decide) (by decide) (by decide)
  have h2 := ((processATcommand_transmissions RESPONSEBUFFERLEN SENDBUFFERLEN
    (mkBuffer RESPONSEBUFFERLEN []) "GMR".toList "OK".toList 1
    { elapsed := 12, rx := "\r\nbusy p...\r\n".toList }
    [{ elapsed := 900, rx := "\r\nOK\r\n".toList }]
    (by decide) (by decide) (by decide) (by decide)).2.2.2
    { elapsed := 900, rx := "\r\nOK\r\n".toList } [] rfl
    (by decide) (by decide) (by decide) (by decide)).2
  exact ⟨⟨⟨by decide, by decide, by decide, by decide⟩, h1.1, h1.2.2.1, h1.2.2.2.2⟩, h2⟩


set_option maxRecDepth 100000 in
/-- C12 (counterexample): 1000 characters x arrive in the first pass for
CWLAP with token OK and a budget of 5 seconds.  Neither the success token nor
the busy marker appears and the line is transmitted once, yet the call ends
with the too-long outcome and the buffer, with the terminator at its last
index, does not hold the 1000 bytes that arrived. -/
theorem processATcommand_quiet_overflow :
    ((12 : Int) < 5 * MICROS ∧
      ¬ "OK".toList <:+: arrived [{ elapsed := 12, rx := List.replicate 1000 'x' }] 1 ∧
      ¬ busyMarker <:+: arrived [{ elapsed := 12, rx := List.replicate 1000 'x' }] 1) ∧
    (processATcommand RESPONSEBUFFERLEN SENDBUFFERLEN (mkBuffer RESPONSEBUFFERLEN [])
      "CWLAP".toList 5 "OK".toList
      [{ elapsed := 12, rx := List.replicate 1000 'x' }]).sent = ["AT+CWLAP\r\n".toList] ∧
    (processATcommand RESPONSEBUFFERLEN SENDBUFFERLEN (mkBuffer RESPONSEBUFFERLEN [])
      "CWLAP".toList 5 "OK".toList
      [{ elapsed := 12, rx := List.replicate 1000 'x' }]).ok = false ∧
    (processATcommand RESPONSEBUFFERLEN SENDBUFFERLEN (mkBuffer RESPONSEBUFFERLEN [])
      "CWLAP".toList 5 "OK".toList
      [{ elapsed := 12, rx := List.replicate 1000 'x' }]).tooLong = true ∧
    (processATcommand RESPONSEBUFFERLEN SENDBUFFERLEN (mkBuffer RESPONSEBUFFERLEN [])
      "CWLAP".toList 5 "OK".toList
      [{ elapsed := 12, rx := List.replicate 1000 'x' }]).responseBuffer[999]? = some NUL ∧
    (processATcommand RESPONSEBUFFERLEN SENDBUFFERLEN (mkBuffer RESPONSEBUFFERLEN [])
      "CWLAP".toList 5 "OK".toList
      [{ elapsed := 12, rx := List.replicate 1000 'x' }]).responseBuffer.take 1000
      ≠ arrived [{ elapsed := 12, rx := List.replicate 1000 'x' }] 1 := by
  have harr : arrived [{ elapsed := 12, rx := List.replicate 1000 'x' }] 1
      = List.replicate 1000 'x' := by
    rw [arrived_cons, arrived_zero, List.append_nil]
  have hno : ∀ (c : Char) (d : List Char), c ≠ 'x' →
      ¬ (c :: d) <:+: arrived [{ elapsed := 12, rx := List.replicate 1000 'x' }] 1 := by
    intro c d hc h
    rw [harr] at h
    exact hc (List.eq_of_mem_replicate (h.subset (List.mem_cons_self c d)))
  have hlast : (processATcommand RESPONSEBUFFERLEN SENDBUFFERLEN (mkBuffer RESPONSEBUFFERLEN [])
      "CWLAP".toList 5 "OK".toList
      [{ elapsed := 12, rx := List.replicate 1000 'x' }]).responseBuffer[999]? = some NUL := by
    have hov : (getATdata RESPONSEBUFFERLEN (mkBuffer RESPONSEBUFFERLEN []) 0
        (List.replicate 1000 'x')).2 = -1 :=
      getATdata_overflow RESPONSEBUFFERLEN _ _ 0 (Nat.zero_le _) (by simp [RESPONSEBUFFERLEN])
    rw [processATcommand, atLoop_pass RESPONSEBUFFERLEN SENDBUFFERLEN "CWLAP".toList "OK".toList
      (5 * MICROS) { elapsed := 12, rx := List.replicate 1000 'x' } [] true 0 _ []
      (by decide) (fun _ _ => rfl), if_pos hov]
    exact getATdata_overflow_last RESPONSEBUFFERLEN _ _ 0 (by decide) (by decide)
      (Nat.zero_le _) (by simp [RESPONSEBUFFERLEN])
  refine ⟨⟨by decide, hno 'O' _ (by decide), hno 'b' _ (by decide)⟩, by decide, by decide,
    by decide, hlast, ?_⟩
  intro h
  have h2 := congrArg (fun l => l[999]?) h
  simp only [harr] at h2
  rw [List.getElem?_take_of_lt (by decide), hlast] at h2
  simp [NUL] at h2


/-! ## GPIO calls and the resource gate -/

/-- A failed bounded wait leaves the owner of the mutex as it was. -/
theorem mutex_enter_timeout_ms_failed (mtx : Option Nat) (caller timeout_ms : Nat)
    (release : Option Nat) (h : (mutex_enter_timeout_ms mtx caller timeout_ms release).1 = false) :
    (mutex_enter_timeout_ms mtx caller timeout_ms release).2 = mtx := by
  unfold mutex_enter_timeout_ms at h ⊢
  cases mtx with
  | none => simp at h
  | some owner =>
    cases release with
    | none => rfl
    | some t =>
      by_cases ht : t < timeout_ms
      · simp [ht] at h
      · simp [ht]

/-- A device whose mutex is replaced by its own owner is the same device. -/
theorem device_same (d : Device) (m : Option Nat) (h : m = d.ESP8266mutex) :
    { d with ESP8266mutex := m } = d := by
  subst h
  rfl

/-- The scan of `ESP8266digitalRead` on a response whose string is
`a,dir,v` followed by a carriage return. -/
theorem digitalRead_scan (base : Nat) (buf a dir v rest : List Char)
    (hbuf : buf.length < 2147483648) (hterm : NUL ∈ buf)
    (htext : cstr buf = a ++ ",".toList ++ dir ++ ",".toList ++ v ++ "\r".toList ++ rest)
    (ha : ',' ∉ a) (hdir : ',' ∉ dir) (hv : '\r' ∉ v) :
    getParam base buf 0 ",".toList ",".toList
      = some (((a.length + 1 : Nat) : Int), ((dir.length : Nat) : Int)) ∧
    getParam base buf (((a.length + 1 : Nat) : Int) + ((dir.length : Nat) : Int))
        ",".toList "\r".toList
      = some (((a.length + 1 + dir.length + 1 : Nat) : Int), ((v.length : Nat) : Int)) ∧
    copySpan buf ((a.length + 1 + dir.length + 1 : Nat) : Int) ((v.length : Nat) : Int)
      = some v := by
  have s1 := getParam_split base buf ",".toList ",".toList [] a [','] dir [',']
    (v ++ "\r".toList ++ rest) hbuf hterm (by rw [htext]; simp) (by decide) (by decide)
    (by simpa using firstAt_of_head_not_mem ',' [] a (dir ++ [','] ++ (v ++ "\r".toList ++ rest)) ha)
    (by simpa using firstAt_of_head_not_mem ',' [] dir (v ++ "\r".toList ++ rest) hdir)
  have s2 := getParam_split base buf ",".toList "\r".toList (a ++ [','] ++ dir) [] [','] v ['\r']
    rest hbuf hterm (by rw [htext]; simp) (by decide) (by decide)
    (by simpa using firstAt_of_head_not_mem ',' [] [] (v ++ ['\r'] ++ rest) (by simp))
    (by simpa using firstAt_of_head_not_mem '\r' [] v rest hv)
  have e1 : ([] : List Char).length + a.length + [','].length = a.length + 1 := by simp
  have e2 : (a ++ [','] ++ dir).length + ([] : List Char).length + [','].length
      = a.length + 1 + dir.length + 1 := by simp; omega
  have e3 : (((a ++ [','] ++ dir).length : Nat) : Int)
      = ((a.length + 1 : Nat) : Int) + ((dir.length : Nat) : Int) := by
    simp only [List.length_append, List.length_cons, List.length_nil]
    push_cast
    ring
  have e0 : ((([] : List Char).length : Nat) : Int) = 0 := rfl
  rw [e1, e0] at s1
  rw [e2, e3] at s2
  exact ⟨s1.1, s2.1, s2.2⟩

/-- The scan of `ESP8266analogRead` on a response whose string is `a:v`
followed by a carriage return. -/
theorem analogRead_scan (base : Nat) (buf a v rest : List Char)
    (hbuf : buf.length < 2147483648) (hterm : NUL ∈ buf)
    (htext : cstr buf = a ++ ":".toList ++ v ++ "\r".toList ++ rest)
    (ha : ':' ∉ a) (hv : '\r' ∉ v) :
    getParam base buf 0 ":".toList "\r".toList
      = some (((a.length + 1 : Nat) : Int), ((v.length : Nat) : Int)) ∧
    copySpan buf ((a.length + 1 : Nat) : Int) ((v.length : Nat) : Int) = some v := by
  have s1 := getParam_split base buf ":".toList "\r".toList [] a [':'] v ['\r']
    rest hbuf hterm (by rw [htext]; simp) (by decide) (by decide)
    (by simpa using firstAt_of_head_not_mem ':' [] a (v ++ ['\r'] ++ rest) ha)
    (by simpa using firstAt_of_head_not_mem '\r' [] v rest hv)
  have e1 : ([] : List Char).length + a.length + [':'].length = a.length + 1 := by simp
  have e0 : ((([] : List Char).length : Nat) : Int) = 0 := rfl
  rw [e1, e0] at s1
  exact s1

/-! ## C13: GPIO calls and the resource gate -/

/-- C13: for each of ESP8266pinMode, ESP8266digitalRead, ESP8266digitalWrite
and ESP8266analogRead, when ESP8266mutex is not acquired within MUTEXWAIT the
call returns false, -1, false, -1.0 respectively and leaves the device (owner
of the mutex, receive buffer, bytes written to the serial link) as it was;
ESP8266pinMode with a pin above 15 does the same without trying the mutex.
When the mutex is acquired, ESP8266pinMode (pin at most 15) and
ESP8266digitalWrite return true with the mutex free, the two read calls leave
the mutex free whenever they return, and they do return, with the mutex free
and the value scanned from the response, when the response has the layout
`a,dir,v` resp. `a:v` followed by a carriage return. -/
theorem gpio_calls_respect_gate (base cap sendCap : Nat) (release : Option Nat) (d : Device)
    (pin direction pullup : Int) (value : Bool) :
    ((mutex_enter_timeout_ms d.ESP8266mutex 0 MUTEXWAIT release).1 = false →
      ESP8266pinMode cap sendCap release d pin direction pullup = (false, d) ∧
      ESP8266digitalRead base cap sendCap release d pin = some (-1, d) ∧
      ESP8266digitalWrite cap sendCap release d pin value = (false, d) ∧
      ESP8266analogRead base cap sendCap release d = some (-1, d)) ∧
    (15 < pin → ESP8266pinMode cap sendCap release d pin direction pullup = (false, d)) ∧
    ((mutex_enter_timeout_ms d.ESP8266mutex 0 MUTEXWAIT release).1 = true →
      (pin ≤ 15 →
        (ESP8266pinMode cap sendCap release d pin direction pullup).1 = true ∧
        (ESP8266pinMode cap sendCap release d pin direction pullup).2.ESP8266mutex = none) ∧
      ((ESP8266digitalWrite cap sendCap release d pin value).1 = true ∧
        (ESP8266digitalWrite cap sendCap release d pin value).2.ESP8266mutex = none) ∧
      (∀ v d1, ESP8266digitalRead base cap sendCap release d pin = some (v, d1) →
        d1.ESP8266mutex = none) ∧
      (∀ v d1, ESP8266analogRead base cap sendCap release d = some (v, d1) →
        d1.ESP8266mutex = none) ∧
      (∀ a dir v rest : List Char,
        (d.link.command cap sendCap (snprintf sendCap ("SYSGPIOREAD=".toList ++ fmtUnsigned pin))
          1 "OK".toList).2.responseBuffer.length < 2147483648 →
        NUL ∈ (d.link.command cap sendCap
          (snprintf sendCap ("SYSGPIOREAD=".toList ++ fmtUnsigned pin))
          1 "OK".toList).2.responseBuffer →
        cstr (d.link.command cap sendCap
          (snprintf sendCap ("SYSGPIOREAD=".toList ++ fmtUnsigned pin))
          1 "OK".toList).2.responseBuffer
          = a ++ ",".toList ++ dir ++ ",".toList ++ v ++ "\r".toList ++ rest →
        ',' ∉ a → ',' ∉ dir → '\r' ∉ v →
        ESP8266digitalRead base cap sendCap release d pin
          = some (atoi v,
              { ESP8266mutex := none
                link := (d.link.command cap sendCap
                  (snprintf sendCap ("SYSGPIOREAD=".toList ++ fmtUnsigned pin))
                  1 "OK".toList).2 })) ∧
      (∀ a v rest : List Char,
        (d.link.command cap sendCap "SYSADC?".toList 1 "OK".toList).2.responseBuffer.length
          < 2147483648 →
        NUL ∈ (d.link.command cap sendCap "SYSADC?".toList 1 "OK".toList).2.responseBuffer →
        cstr (d.link.command cap sendCap "SYSADC?".toList 1 "OK".toList).2.responseBuffer
          = a ++ ":".toList ++ v ++ "\r".toList ++ rest →
        ':' ∉ a → '\r' ∉ v →
        ESP8266analogRead base cap sendCap release d
          = some ((floatOfInt (atoi v) : Rat) / 1024,
              { ESP8266mutex := none
                link := (d.link.command cap sendCap "SYSADC?".toList 1 "OK".toList).2 }))) := by
  refine ⟨?_, ?_, ?_⟩
  · intro h
    have hm := mutex_enter_timeout_ms_failed d.ESP8266mutex 0 MUTEXWAIT release h
    have hd := device_same d _ hm
    refine ⟨?_, ?_, ?_, ?_⟩
    · unfold ESP8266pinMode
      split
      · rfl
      · simp only [h, Bool.false_eq_true, if_false, hd]
    · unfold ESP8266digitalRead
      simp only [h, Bool.false_eq_true, if_false, hd]
      rfl
    · unfold ESP8266digitalWrite
      simp only [h, Bool.false_eq_true, if_false, hd]
    · unfold ESP8266analogRead
      simp only [h, Bool.false_eq_true, if_false, hd]
      rfl
  · intro h
    unfold ESP8266pinMode
    rw [if_pos h]
  · intro h
    refine ⟨?_, ?_, ?_, ?_, ?_, ?_⟩
    · intro hp
      unfold ESP8266pinMode
      rw [if_neg (by omega)]
      simp only [h, if_true, mutex_exit, and_self]
    · unfold ESP8266digitalWrite
      simp only [h, if_true, mutex_exit, and_self]
    · intro v d1 hr
      unfold ESP8266digitalRead at hr
      simp only [h, if_true, mutex_exit, Option.bind_eq_bind, Option.bind_eq_some,
        Option.pure_def, Option.some.injEq, Prod.mk.injEq] at hr
      obtain ⟨_, _, _, _, _, _, _, hd1⟩ := hr
      rw [← hd1]
    · intro v d1 hr
      unfold ESP8266analogRead at hr
      simp only [h, if_true, mutex_exit, Option.bind_eq_bind, Option.bind_eq_some,
        Option.pure_def, Option.some.injEq, Prod.mk.injEq] at hr
      obtain ⟨_, _, _, _, _, hd1⟩ := hr
      rw [← hd1]
    · intro a dir v rest hlen hnul htext ha hdir hv
      obtain ⟨g1, g2, g3⟩ := digitalRead_scan base _ a dir v rest hlen hnul htext ha hdir hv
      unfold ESP8266digitalRead
      simp only [h, if_true, mutex_exit, Option.bind_eq_bind, g1, Option.some_bind, g2, g3,
        Option.pure_def]
    · intro a v rest hlen hnul htext ha hv
      obtain ⟨g1, g2⟩ := analogRead_scan base _ a v rest hlen hnul htext ha hv
      unfold ESP8266analogRead
      simp only [h, if_true, mutex_exit, Option.bind_eq_bind, g1, Option.some_bind, g2,
        Option.pure_def]

set_option maxRecDepth 100000 in
/-- C13 (witness): while core 1 owns the mutex and keeps it, the four calls
return false, -1, false, -1.0 and leave the device as it was; with the mutex
free, a read of pin 14 answered by +SYSGPIOREAD:14,0,1 writes the one command
line, returns 1 and leaves the mutex free. -/
theorem gpio_calls_respect_gate_witness :
    ((mutex_enter_timeout_ms deviceServing.ESP8266mutex 0 MUTEXWAIT none).1 = false ∧
      ESP8266pinMode RESPONSEBUFFERLEN SENDBUFFERLEN none deviceServing 14 0 1
        = (false, deviceServing) ∧
      ESP8266digitalRead bufferAddress RESPONSEBUFFERLEN SENDBUFFERLEN none deviceServing 14
        = some (-1, deviceServing) ∧
      ESP8266digitalWrite RESPONSEBUFFERLEN SENDBUFFERLEN none deviceServing 14 true
        = (false, deviceServing) ∧
      ESP8266analogRead bufferAddress RESPONSEBUFFERLEN SENDBUFFERLEN none deviceServing
        = some (-1, deviceServing)) ∧
    ((mutex_enter_timeout_ms deviceIdle.ESP8266mutex 0 MUTEXWAIT none).1 = true ∧
      (ESP8266digitalRead bufferAddress RESPONSEBUFFERLEN SENDBUFFERLEN none deviceIdle 14).map
          (fun r => (r.1, r.2.ESP8266mutex, r.2.link.wire))
        = some (1, none, ["AT+SYSGPIOREAD=14\r\n".toList])) := by
  have h1 := (gpio_calls_respect_gate bufferAddress RESPONSEBUFFERLEN SENDBUFFERLEN none
    deviceServing 14 0 1 true).1 (by decide)
  have h2 := ((gpio_calls_respect_gate bufferAddress RESPONSEBUFFERLEN SENDBUFFERLEN none
    deviceIdle 14 0 1 true).2.2 (by decide)).2.2.2.2.1
    "+SYSGPIOREAD:14".toList "0".toList "1".toList "\n\r\nOK\r\n".toList
    (by decide) (by decide) (by decide) (by decide) (by decide) (by decide)
  refine ⟨⟨by decide, h1⟩, by decide, ?_⟩
  rw [h2]
  decide

/-! ## The bridge discipline -/

/-- A successful bounded wait makes the caller the owner of the mutex. -/
theorem mutex_enter_timeout_ms_acquired (mtx : Option Nat) (caller timeout_ms : Nat)
    (release : Option Nat) (h : (mutex_enter_timeout_ms mtx caller timeout_ms release).1 = true) :
    (mutex_enter_timeout_ms mtx caller timeout_ms release).2 = some caller := by
  unfold mutex_enter_timeout_ms at h ⊢
  cases mtx with
  | none => rfl
  | some owner =>
    cases release with
    | none => simp at h
    | some t =>
      by_cases ht : t < timeout_ms
      · simp [ht]
      · simp [ht] at h

theorem bridgeRun_append (a b : List Step) :
    ∀ p, bridgeRun p (a ++ b) = (bridgeRun p a).bind (fun q => bridgeRun q b) := by
  induction a with
  | nil => intro p; rfl
  | cons s t ih =>
    intro p
    simp only [List.cons_append, bridgeRun]
    cases p.next s with
    | none => rfl
    | some q => simp [ih q]

theorem bridgeRun_frames (frames : List Frame) :
    bridgeRun Phase.idle (frames.map (fun x => Step.act (Action.frame x))) = some Phase.idle := by
  induction frames with
  | nil => rfl
  | cons f t ih => simpa [bridgeRun, Phase.next] using ih

theorem pushes_append (a b : List Step) : pushes (a ++ b) = pushes a ++ pushes b := by
  induction a with
  | nil => rfl
  | cons s t ih =>
    cases s with
    | act x => cases x <;> simp [pushes, ih]
    | gate g => simp [pushes, ih]
    | readSlot w => simp [pushes, ih]
    | clearSlot => simp [pushes, ih]

theorem pushes_frames (frames : List Frame) :
    pushes (frames.map (fun x => Step.act (Action.frame x))) = [] := by
  induction frames with
  | nil => rfl
  | cons f t ih => simpa [pushes] using ih

/-- The two shapes of a run of `sendResponse` on the bridge. -/
theorem sendResponseBridge_shape (base cap sendCap : Nat) (id : List Char)
    (irq : Option (List (Option (List Char)))) (fuel : Nat) (b : Bridge) (lk : Link)
    (tr : List Step) (b1 : Bridge) (lk1 : Link)
    (h : sendResponseBridge base cap sendCap id irq fuel b lk = some (tr, b1, lk1)) :
    ∃ req, parseRequest base lk.responseBuffer = some req ∧
      ((∃ (w : List Char) (frames : List Frame) (ok : Bool),
          (bridgeAtWait irq b).webOut = some w ∧
          tr = [Step.act (Action.fifoPush req.core0msg), Step.gate true, Step.readSlot w,
                Step.clearSlot] ++ frames.map (fun x => Step.act (Action.frame x)) ++
               [Step.act (Action.close (snprintf sendCap (cipcloseText id)) ok)] ∧
          b1 = { core0resp := some 1, webOut := none }) ∨
       (tr = [Step.act (Action.fifoPush req.core0msg), Step.gate false,
              Step.act (Action.sleepMs 10000), Step.act Action.reboot] ∧
        b1 = bridgeAtWait irq b ∧
        lk1 = lk)) := by
  unfold sendResponseBridge at h
  cases hp : parseRequest base lk.responseBuffer with
  | none => simp [hp] at h
  | some req =>
    refine ⟨req, rfl, ?_⟩
    simp only [hp, Option.bind_eq_bind, Option.some_bind] at h
    generalize bridgeAtWait irq b = b2 at h ⊢
    by_cases hm : (mutex_enter_timeout_ms b2.core0resp 1 (1000 * 20) none).1 = true
    · left
      rw [if_pos hm] at h
      cases hw : b2.webOut with
      | none => simp [hw] at h
      | some w =>
        simp only [hw, Option.some_bind] at h
        cases hc : chunkLoop cap sendCap id w fuel (strlen w) 0
            (if 0 < strlen w ∧ w.head? = some '\x7b' then
              sendResponsePart cap sendCap id jsonHeader
                (sendResponsePart cap sendCap id httpHeader lk).2
            else sendResponsePart cap sendCap id contentHeader
                (sendResponsePart cap sendCap id httpHeader lk).2).2 with
        | none => simp [hc] at h
        | some chunks =>
          simp only [hc, Option.some_bind, Option.pure_def, Option.some.injEq,
            Prod.mk.injEq] at h
          obtain ⟨h1, h2, _⟩ := h
          refine ⟨w, (sendResponsePart cap sendCap id httpHeader lk).1 ::
            (if 0 < strlen w ∧ w.head? = some '\x7b' then
              sendResponsePart cap sendCap id jsonHeader
                (sendResponsePart cap sendCap id httpHeader lk).2
            else sendResponsePart cap sendCap id contentHeader
                (sendResponsePart cap sendCap id httpHeader lk).2).1 ::
            (chunks.1 ++ [(sendResponsePart cap sendCap id httpFooter chunks.2).1]),
            (Link.command cap sendCap (sendResponsePart cap sendCap id httpFooter chunks.2).2
              (snprintf sendCap (cipcloseText id)) 2 "OK".toList).1.ok, rfl, ?_, ?_⟩
          · rw [← h1]
            simp
          · rw [← h2, mutex_enter_timeout_ms_acquired _ _ _ _ hm]
    · right
      rw [if_neg hm] at h
      simp only [Option.pure_def, Option.some.injEq, Prod.mk.injEq] at h
      obtain ⟨h1, h2, h3⟩ := h
      have hf : (mutex_enter_timeout_ms b2.core0resp 1 (1000 * 20) none).1 = false := by
        simpa using hm
      refine ⟨h1.symm, ?_, h3.symm⟩
      rw [← h2, mutex_enter_timeout_ms_failed _ _ _ _ hf]

/-- A run on the bridge returns when the request parses and, should the gate
be acquired, the slot holds a reply for which the fuel suffices. -/
theorem sendResponseBridge_returns (base cap sendCap : Nat) (id : List Char)
    (irq : Option (List (Option (List Char)))) (fuel : Nat) (b : Bridge) (lk : Link)
    (req : Request) (hp : parseRequest base lk.responseBuffer = some req) (hcap : 2 ≤ sendCap)
    (hw : (mutex_enter_timeout_ms (bridgeAtWait irq b).core0resp 1 (1000 * 20) none).1 = true →
        ∃ w, (bridgeAtWait irq b).webOut = some w ∧ strlen w ≤ fuel) :
    (sendResponseBridge base cap sendCap id irq fuel b lk).isSome = true := by
  unfold sendResponseBridge
  simp only [hp, Option.bind_eq_bind, Option.some_bind]
  generalize bridgeAtWait irq b = b2 at hw ⊢
  by_cases hm : (mutex_enter_timeout_ms b2.core0resp 1 (1000 * 20) none).1 = true
  · obtain ⟨w, hs, hfuel⟩ := hw hm
    rw [if_pos hm]
    simp only [hs, Option.some_bind]
    obtain ⟨chunks, lk2, hrun, _⟩ := chunkLoop_spec cap sendCap id w hcap fuel (strlen w) 0
      (if 0 < strlen w ∧ w.head? = some '\x7b' then
          sendResponsePart cap sendCap id jsonHeader
            (sendResponsePart cap sendCap id httpHeader lk).2
        else sendResponsePart cap sendCap id contentHeader
            (sendResponsePart cap sendCap id httpHeader lk).2).2 hfuel (by simp)
    simp [hrun]
  · rw [if_neg hm]
    rfl

/-- A run on the bridge pushes once, and obeys the bridge discipline from
the idle phase: it ends idle without a restart, or restarted. -/
theorem sendResponseBridge_run (base cap sendCap : Nat) (id : List Char)
    (irq : Option (List (Option (List Char)))) (fuel : Nat) (b : Bridge) (lk : Link)
    (tr : List Step) (b1 : Bridge) (lk1 : Link)
    (h : sendResponseBridge base cap sendCap id irq fuel b lk = some (tr, b1, lk1)) :
    (∃ msg, pushes tr = [msg]) ∧
    ((bridgeRun Phase.idle tr = some Phase.idle ∧ Step.act Action.reboot ∉ tr) ∨
     (bridgeRun Phase.idle tr = some Phase.restarted ∧ Step.act Action.reboot ∈ tr)) := by
  obtain ⟨req, _, hshape⟩ := sendResponseBridge_shape base cap sendCap id irq fuel b lk tr b1 lk1 h
  rcases hshape with ⟨w, frames, ok, _, htr, _⟩ | ⟨htr, _, _⟩
  · subst htr
    refine ⟨⟨req.core0msg, ?_⟩, Or.inl ⟨?_, ?_⟩⟩
    · simp [pushes_append, pushes_frames, pushes]
    · rw [List.append_assoc, bridgeRun_append]
      have h4 : bridgeRun Phase.idle [Step.act (Action.fifoPush req.core0msg), Step.gate true,
          Step.readSlot w, Step.clearSlot] = some Phase.idle := rfl
      rw [h4, Option.some_bind, bridgeRun_append, bridgeRun_frames]
      rfl
    · simp
  · subst htr
    exact ⟨⟨req.core0msg, rfl⟩, Or.inr ⟨rfl, by simp⟩⟩

/-- A pass of the service loop pushes at most once and obeys the bridge
discipline from the idle phase. -/
theorem servePassBridge_run (base cap sendCap : Nat) (readable : Bool)
    (irq : Option (List (Option (List Char)))) (fuel : Nat) (b : Bridge) (lk : Link)
    (tr : List Step) (b1 : Bridge) (lk1 : Link)
    (h : servePassBridge base cap sendCap readable irq fuel b lk = some (tr, b1, lk1)) :
    (pushes tr).length ≤ 1 ∧
    ((bridgeRun Phase.idle tr = some Phase.idle ∧ Step.act Action.reboot ∉ tr) ∨
     (bridgeRun Phase.idle tr = some Phase.restarted ∧ Step.act Action.reboot ∈ tr)) := by
  have hnil : (pushes ([] : List Step)).length ≤ 1 ∧
      ((bridgeRun Phase.idle [] = some Phase.idle ∧ Step.act Action.reboot ∉ ([] : List Step)) ∨
       (bridgeRun Phase.idle [] = some Phase.restarted ∧
         Step.act Action.reboot ∈ ([] : List Step))) :=
    ⟨by simp [pushes], Or.inl ⟨rfl, by simp⟩⟩
  unfold servePassBridge at h
  split at h
  · dsimp only at h
    split at h
    · simp only [Option.bind_eq_bind, Option.bind_eq_some] at h
      obtain ⟨i, _, id, _, l, _, reqLen, _, h⟩ := h
      split at h
      · obtain ⟨⟨msg, hmsg⟩, hrun⟩ :=
          sendResponseBridge_run base cap sendCap id irq fuel b _ tr b1 lk1 h
        exact ⟨by rw [hmsg]; simp, hrun⟩
      · simp only [Option.pure_def, Option.some.injEq, Prod.mk.injEq] at h
        rw [← h.1]
        exact ⟨by simp [pushes], Or.inl ⟨rfl, by simp⟩⟩
    · simp only [Option.pure_def, Option.some.injEq, Prod.mk.injEq] at h
      rw [← h.1]; exact hnil
  · simp only [Option.pure_def, Option.some.injEq, Prod.mk.injEq] at h
    rw [← h.1]; exact hnil

/-- The steps of the service loop obey the bridge discipline: they end idle
without a restart, or with the one restart as last step. -/
theorem serveClientsBridge_run (base cap sendCap fuel : Nat) :
    ∀ (passes : List (Bool × Option (List (Option (List Char))))) (b : Bridge) (lk : Link)
      (tr : List Step), serveClientsBridge base cap sendCap fuel passes b lk = some tr →
      (pushes tr).length ≤ passes.length ∧
      ((bridgeRun Phase.idle tr = some Phase.idle ∧ Step.act Action.reboot ∉ tr) ∨
       (bridgeRun Phase.idle tr = some Phase.restarted ∧ Step.act Action.reboot ∈ tr)) := by
  intro passes
  induction passes with
  | nil =>
    intro b lk tr h
    simp only [serveClientsBridge, Option.some.injEq] at h
    subst h
    exact ⟨by simp [pushes], Or.inl ⟨rfl, by simp⟩⟩
  | cons p rest ih =>
    intro b lk tr h
    simp only [serveClientsBridge] at h
    cases hr : servePassBridge base cap sendCap p.1 p.2 fuel b lk with
    | none => simp [hr] at h
    | some r =>
      obtain ⟨t1, b1, lk1⟩ := r
      obtain ⟨hpush, hrun⟩ := servePassBridge_run base cap sendCap p.1 p.2 fuel b lk t1 b1 lk1 hr
      simp only [hr] at h
      by_cases hre : Step.act Action.reboot ∈ t1
      · rw [if_pos hre] at h
        simp only [Option.some.injEq] at h
        subst h
        exact ⟨by simp only [List.length_cons]; omega, hrun⟩
      · rw [if_neg hre] at h
        cases ht2 : serveClientsBridge base cap sendCap fuel rest b1 lk1 with
        | none => simp [ht2] at h
        | some t2 =>
        simp only [ht2, Option.map_some', Option.some.injEq] at h
        subst h
        obtain ⟨hpush2, hrun2⟩ := ih b1 lk1 t2 ht2
        have hidle : bridgeRun Phase.idle t1 = some Phase.idle := by
          rcases hrun with h1 | h1
          · exact h1.1
          · exact absurd h1.2 hre
        refine ⟨by rw [pushes_append]; simp only [List.length_append, List.length_cons]; omega, ?_⟩
        rw [bridgeRun_append, hidle, Option.some_bind]
        rcases hrun2 with h2 | h2
        · exact Or.inl ⟨h2.1, by simp [hre, h2.2]⟩
        · exact Or.inr ⟨h2.1, by simp [h2.2]⟩

/-- The actions of a run on the bridge are those of `sendResponse` given the
reply read from the slot, or no reply when the gate is not acquired. -/
theorem sendResponseBridge_actions (base cap sendCap : Nat) (id : List Char)
    (irq : Option (List (Option (List Char)))) (fuel : Nat) (b : Bridge) (lk : Link)
    (tr : List Step) (b1 : Bridge) (lk1 : Link)
    (h : sendResponseBridge base cap sendCap id irq fuel b lk = some (tr, b1, lk1)) :
    sendResponse base cap sendCap id
        (if (mutex_enter_timeout_ms (bridgeAtWait irq b).core0resp 1 (1000 * 20) none).1 = true
          then (bridgeAtWait irq b).webOut else none) fuel lk
      = some (tr.filterMap Step.toAction, lk1) := by
  unfold sendResponseBridge at h
  unfold sendResponse
  cases hp : parseRequest base lk.responseBuffer with
  | none => simp [hp] at h
  | some req =>
    simp only [hp, Option.bind_eq_bind, Option.some_bind] at h ⊢
    generalize bridgeAtWait irq b = b2 at h ⊢
    by_cases hm : (mutex_enter_timeout_ms b2.core0resp 1 (1000 * 20) none).1 = true
    · rw [if_pos hm] at h ⊢
      cases hw : b2.webOut with
      | none => simp [hw] at h
      | some w =>
        simp only [hw, Option.some_bind] at h ⊢
        cases hc : chunkLoop cap sendCap id w fuel (strlen w) 0
            (if 0 < strlen w ∧ w.head? = some '\x7b' then
              sendResponsePart cap sendCap id jsonHeader
                (sendResponsePart cap sendCap id httpHeader lk).2
            else sendResponsePart cap sendCap id contentHeader
                (sendResponsePart cap sendCap id httpHeader lk).2).2 with
        | none => simp [hc] at h
        | some chunks =>
          simp only [hc, Option.some_bind, Option.pure_def, Option.some.injEq,
            Prod.mk.injEq] at h ⊢
          obtain ⟨h1, _, h3⟩ := h
          refine ⟨?_, h3⟩
          rw [← h1]
          simp only [List.filterMap_append, List.filterMap_map, List.filterMap_cons,
            List.filterMap_nil, Step.toAction, Function.comp_def]
          have hmap : ∀ l : List Frame, List.filterMap (fun x => some (Action.frame x)) l
              = l.map Action.frame := fun l => by
            induction l with
            | nil => rfl
            | cons x t ih => simp [List.filterMap_cons, ih]
          rw [hmap]
    · rw [if_neg hm] at h ⊢
      simp only [Option.pure_def, Option.some.injEq, Prod.mk.injEq] at h ⊢
      obtain ⟨h1, _, h3⟩ := h
      refine ⟨?_, h3⟩
      rw [← h1]
      rfl

theorem bridgeRun_restarted (tr : List Step) (q : Phase)
    (h : bridgeRun Phase.restarted tr = some q) : tr = [] ∧ q = Phase.restarted := by
  cases tr with
  | nil => exact ⟨rfl, by simpa [bridgeRun] using h.symm⟩
  | cons s t => simp [bridgeRun, Phase.next] at h

/-- Only the restart leads to the restarted phase. -/
theorem next_restarted (p : Phase) (s : Step) (h : p.next s = some Phase.restarted) :
    s = Step.act Action.reboot ∧ p ≠ Phase.restarted := by
  cases p <;> cases s <;> (try (rename_i a; cases a)) <;> simp_all [Phase.next]

/-- A sequence of steps that obeys the bridge discipline holds the restart
once if it ends restarted, and not at all otherwise. -/
theorem bridgeRun_reboots :
    ∀ (tr : List Step) (p q : Phase), bridgeRun p tr = some q →
      tr.count (Step.act Action.reboot)
        = if p ≠ Phase.restarted ∧ q = Phase.restarted then 1 else 0 := by
  intro tr
  induction tr with
  | nil =>
    intro p q h
    simp only [bridgeRun, Option.some.injEq] at h
    subst h
    simp
  | cons s t ih =>
    intro p q h
    simp only [bridgeRun, Option.bind_eq_some] at h
    obtain ⟨p1, hn, ht⟩ := h
    have hp : p ≠ Phase.restarted := by
      intro hp
      subst hp
      cases s <;> simp [Phase.next] at hn
    by_cases hs : s = Step.act Action.reboot
    · subst hs
      have hp1 : p1 = Phase.restarted := by
        cases p <;> simp [Phase.next] at hn
        exact hn.symm
      subst hp1
      obtain ⟨hnil, hq⟩ := bridgeRun_restarted t q ht
      subst hnil
      subst hq
      simp [hp]
    · have hp1 : p1 ≠ Phase.restarted := by
        intro hp1
        subst hp1
        exact hs (next_restarted p s hn).1
      rw [List.count_cons_of_ne (Ne.symm hs), ih p1 q ht]
      simp [hp, hp1]

/-! ## C14: one request outstanding on the bridge -/

/-- C14: every run of sendResponse that returns pushes the request summary
exactly once, as its first step, and then either acquires the gate core0resp,
reads the slot webOut and clears it before the frames and the close (no
further push, no restart; the gate is left owned by core 1, the slot null), or,
the gate not being opened within the 20 seconds, goes on with the sleep and
the one restart, without any frame, the link left as it was.  A run returns
whenever the request parses and, the gate acquired, the slot holds a reply
(fuel sufficing for the chunk loop).  In the steps of any number of passes of
the service loop a push only occurs when no request is outstanding: each is
followed by the acquisition of the gate, the read and the clearing of the slot
before the next one, or by the timeout and the restart, which then occurs
exactly once, as the last step. -/
theorem bridge_one_outstanding (base cap sendCap fuel : Nat) :
    (∀ (id : List Char) (irq : Option (List (Option (List Char)))) (b : Bridge) (lk : Link)
      (tr : List Step) (b1 : Bridge) (lk1 : Link),
      sendResponseBridge base cap sendCap id irq fuel b lk = some (tr, b1, lk1) →
      ∃ req, parseRequest base lk.responseBuffer = some req ∧
        pushes tr = [req.core0msg] ∧
        ((∃ (w : List Char) (frames : List Frame) (ok : Bool),
            (bridgeAtWait irq b).webOut = some w ∧
            tr = [Step.act (Action.fifoPush req.core0msg), Step.gate true, Step.readSlot w,
                  Step.clearSlot] ++ frames.map (fun x => Step.act (Action.frame x)) ++
                 [Step.act (Action.close (snprintf sendCap (cipcloseText id)) ok)] ∧
            b1 = { core0resp := some 1, webOut := none }) ∨
         (tr = [Step.act (Action.fifoPush req.core0msg), Step.gate false,
                Step.act (Action.sleepMs 10000), Step.act Action.reboot] ∧
          b1 = bridgeAtWait irq b ∧
          lk1 = lk))) ∧
    (∀ (id : List Char) (irq : Option (List (Option (List Char)))) (b : Bridge) (lk : Link)
      (req : Request), parseRequest base lk.responseBuffer = some req → 2 ≤ sendCap →
      ((mutex_enter_timeout_ms (bridgeAtWait irq b).core0resp 1 (1000 * 20) none).1 = true →
        ∃ w, (bridgeAtWait irq b).webOut = some w ∧ strlen w ≤ fuel) →
      (sendResponseBridge base cap sendCap id irq fuel b lk).isSome = true) ∧
    (∀ (passes : List (Bool × Option (List (Option (List Char))))) (b : Bridge) (lk : Link)
      (tr : List Step), serveClientsBridge base cap sendCap fuel passes b lk = some tr →
      (pushes tr).length ≤ passes.length ∧
      ((bridgeRun Phase.idle tr = some Phase.idle ∧ tr.count (Step.act Action.reboot) = 0) ∨
       (bridgeRun Phase.idle tr = some Phase.restarted ∧
        tr.count (Step.act Action.reboot) = 1 ∧ tr.getLast? = some (Step.act Action.reboot)))) := by
  refine ⟨?_, ?_, ?_⟩
  · intro id irq b lk tr b1 lk1 h
    obtain ⟨req, hp, hshape⟩ :=
      sendResponseBridge_shape base cap sendCap id irq fuel b lk tr b1 lk1 h
    refine ⟨req, hp, ?_, hshape⟩
    rcases hshape with ⟨w, frames, ok, _, htr, _⟩ | ⟨htr, _, _⟩
    · subst htr
      simp [pushes_append, pushes_frames, pushes]
    · subst htr
      rfl
  · intro id irq b lk req hp hcap hw
    exact sendResponseBridge_returns base cap sendCap id irq fuel b lk req hp hcap hw
  · intro passes b lk tr h
    obtain ⟨hpush, hrun⟩ := serveClientsBridge_run base cap sendCap fuel passes b lk tr h
    refine ⟨hpush, ?_⟩
    rcases hrun with h1 | h1
    · exact Or.inl ⟨h1.1, by rw [bridgeRun_reboots tr _ _ h1.1]; simp⟩
    · refine Or.inr ⟨h1.1, by rw [bridgeRun_reboots tr _ _ h1.1]; simp, ?_⟩
      obtain ⟨a, z, hz⟩ := List.append_of_mem h1.2
      subst hz
      rw [bridgeRun_append] at h1
      cases ha : bridgeRun Phase.idle a with
      | none => simp [ha] at h1
      | some p =>
        have h2 := h1.1
        simp only [ha, Option.some_bind, bridgeRun, Option.bind_eq_some] at h2
        obtain ⟨p1, hn, hz⟩ := h2
        have hp1 : p1 = Phase.restarted := by
          cases p <;> simp [Phase.next] at hn
          exact hn.symm
        subst hp1
        rw [(bridgeRun_restarted z _ hz).1]
        simp

set_option maxRecDepth 100000 in
/-- Witness of `bridge_one_outstanding`: two requests GET / arrive one after
the other; core 0 answers the first with `hi` and the second not at all.  The
steps of the two passes hold the two pushes, obey the bridge discipline and
end with the one restart. -/
theorem bridge_one_outstanding_witness :
    ∃ tr, serveClientsBridge bufferAddress RESPONSEBUFFERLEN SENDBUFFERLEN 1000
        [(true, some [some "hi".toList]), (true, none)] bridgeClosed linkTwoRequests = some tr ∧
      pushes tr = ["/".toList, "/".toList] ∧
      bridgeRun Phase.idle tr = some Phase.restarted ∧
      tr.count (Step.act Action.reboot) = 1 ∧
      tr.getLast? = some (Step.act Action.reboot) := by
  have hsome : (serveClientsBridge bufferAddress RESPONSEBUFFERLEN SENDBUFFERLEN 1000
      [(true, some [some "hi".toList]), (true, none)] bridgeClosed linkTwoRequests).isSome
      = true := by decide
  have hpushes : (serveClientsBridge bufferAddress RESPONSEBUFFERLEN SENDBUFFERLEN 1000
      [(true, some [some "hi".toList]), (true, none)] bridgeClosed linkTwoRequests).map pushes
      = some ["/".toList, "/".toList] := by decide
  have hlast : (serveClientsBridge bufferAddress RESPONSEBUFFERLEN SENDBUFFERLEN 1000
      [(true, some [some "hi".toList]), (true, none)] bridgeClosed linkTwoRequests).bind
      (bridgeRun Phase.idle) ≠ some Phase.idle := by decide
  obtain ⟨tr, hrun⟩ := Option.isSome_iff_exists.1 hsome
  have h := (bridge_one_outstanding bufferAddress RESPONSEBUFFERLEN SENDBUFFERLEN 1000).2.2
    _ _ _ _ hrun
  rw [hrun] at hpushes hlast
  simp only [Option.map_some', Option.some.injEq, Option.some_bind] at hpushes hlast
  rcases h.2 with h1 | h1
  · exact absurd h1.1 hlast
  · exact ⟨tr, hrun, hpushes, h1⟩

end PicoWebServer
